import Mathlib

/-!
A shallow embedding of `teer.py` (kevinNT2018/teer): a single-threaded
cooperative task scheduler.  Python dictionaries are modelled as
association lists in insertion order, Python sets as duplicate-free
lists, the `heapq` priority queue as a plain list whose pop operation
extracts the `(deadline, sequence)`-lexicographic minimum (the observable
semantics of a binary heap), generators as inductive resumable
computations with an explicit `closed` flag (`generator.close()` makes
every later `send` raise `StopIteration`), and the wall clock as an
integer field of the state (`current_time` reads it, `sleep d` advances
it by `d`).  `print` logging is not modelled.  Timer callbacks are the
two closures the source ever installs (`Scheduler.wait_duration` and
`Scheduler.wait_duration_rate`), modelled as an inductive `Callback`.
-/

namespace Teer

/-- `Task.WAIT_ANY` / `Task.WAIT_ALL`. -/
inductive WaitMode where
  | any : WaitMode
  | all : WaitMode
deriving DecidableEq

/-- Values exchanged between the scheduler and task bodies
(`Task.sendval` and the payloads of yields).  Task objects appearing in
result lists (`KillAllTasksExcept`) are represented by their tids. -/
inductive Value where
  | none : Value
  | bool : Bool → Value
  | nat : Nat → Value
  | int : Int → Value
  | natList : List Nat → Value
  | taskObjList : List Nat → Value
  | schedHandle : Value
  | rate : Nat → Value
deriving DecidableEq

/-- The timer callbacks the source installs: `wait_duration` installs a
closure resuming one task, `wait_duration_rate` installs a closure that
also refreshes a `Rate` object's `last_time`. -/
inductive Callback where
  | resume : Nat → Callback
  | resumeRate : Nat → Nat → Callback
deriving DecidableEq

/-- An entry of `TimerScheduler.timer_cb`: `[t, self.timer_counter, f]`. -/
structure TimerEntry where
  t : Int
  seq : Nat
  cb : Callback
deriving DecidableEq

/-- The `Rate` helper object (`duration`, `last_time`). -/
structure RateObj where
  duration : Int
  last_time : Int
deriving DecidableEq

/-- A wait-condition predicate together with the names of the condition
variables it reads (`co_names`, extracted by bytecode introspection in
`_add_condition`/`_del_condition`; here carried explicitly).  The
predicate reads the current values of the scheduler's condition
variables. -/
structure Cond where
  deps : List String
  pred : (String → Int) → Bool

mutual
/-- A suspended generator: sending a value runs it to its next yield. -/
inductive Gen where
  | mk : (Value → GenRes) → Gen

/-- The outcome of resuming a generator: `StopIteration`, a plain yield
(no system call), or a yielded `SystemCall`. -/
inductive GenRes where
  | stop : GenRes
  | yieldPlain : Gen → GenRes
  | yieldReq : Request → Gen → GenRes

/-- The system-call vocabulary of `teer.py`.  `CreateRate` carries the
period (`1./rate` is computed at request construction time in the
source); `Sleep` carries its `Rate` object as an index into the rate
store. -/
inductive Request where
  | getScheduler : Request
  | getTid : Request
  | getTids : Request
  | newTask : Gen → Request
  | killTask : Nat → Request
  | killTasks : List Nat → Request
  | killAllTasksExcept : List Nat → Request
  | waitTask : Nat → Request
  | waitAnyTasks : List Nat → Request
  | waitAllTasks : List Nat → Request
  | pauseTask : Nat → Request
  | pauseTasks : List Nat → Request
  | resumeTask : Nat → Request
  | resumeTasks : List Nat → Request
  | getCurrentTime : Request
  | waitDuration : Int → Request
  | waitCondition : Cond → Request
  | createRate : Int → Request
  | sleepRate : Nat → Request
  | teerPrint : String → Request
end

/-- Resume a generator with a value (`task.target.send(task.sendval)`). -/
def Gen.send (g : Gen) (v : Value) : GenRes :=
  match g with
  | .mk f => f v

/-- One `Task` object: target generator, value to send, wait mode, and
whether `close()` has been called on the generator. -/
structure TaskObj where
  gen : Gen
  sendval : Value
  waitmode : WaitMode
  closed : Bool

/-- One registered `(condition, task)` pair of `cond_waiting`.  `cid` is
a registration identity standing for Python object identity of the
tuple (used by `list.remove`). -/
structure CondEntry where
  cid : Nat
  cond : Cond
  tid : Nat

/-- The whole scheduler state (`Scheduler` plus the `TimerScheduler`
fields, the condition-variable cells, and the `Rate` objects created by
`CreateRate`).  `slept` logs the durations passed to `self.sleep`. -/
structure Sched where
  nextTid : Nat
  taskmap : List (Nat × TaskObj)
  ready : List Nat
  exit_waiting : List (Nat × List Nat)
  cond_waiting : List (String × List CondEntry)
  paused_in_syscall : List Nat
  paused_in_ready : List Nat
  condvars : List (String × Int)
  rates : List (Nat × RateObj)
  nextRid : Nat
  nextCid : Nat
  timer_cb : List TimerEntry
  timer_counter : Nat
  time : Int
  slept : List Int

/-- The empty scheduler, fresh from `__init__`. -/
def Sched.empty : Sched :=
  { nextTid := 0, taskmap := [], ready := [], exit_waiting := []
    cond_waiting := [], paused_in_syscall := [], paused_in_ready := []
    condvars := [], rates := [], nextRid := 0, nextCid := 0
    timer_cb := [], timer_counter := 0, time := 0, slept := [] }

/-- Python `set.add`. -/
def addSet (x : Nat) (l : List Nat) : List Nat :=
  if x ∈ l then l else l ++ [x]

/-- Update the task object stored under a tid. -/
def modifyTask (tid : Nat) (f : TaskObj → TaskObj) (s : Sched) : Sched :=
  { s with taskmap := s.taskmap.map (fun p => if p.1 = tid then (p.1, f p.2) else p) }

/-- `task.sendval = v` (a no-op on a tid with no live task object;
unreachable in the executions considered). -/
def setSendval (tid : Nat) (v : Value) (s : Sched) : Sched :=
  modifyTask tid (fun tk => { tk with sendval := v }) s

/-- `task.waitmode = m`. -/
def setWaitmode (tid : Nat) (m : WaitMode) (s : Sched) : Sched :=
  modifyTask tid (fun tk => { tk with waitmode := m }) s

/-- Advance the stored generator of a task after it ran to a yield. -/
def setGen (tid : Nat) (g : Gen) (s : Sched) : Sched :=
  modifyTask tid (fun tk => { tk with gen := g }) s

/-- `task.target.close()`: every later `send` raises `StopIteration`. -/
def closeTask (tid : Nat) (s : Sched) : Sched :=
  modifyTask tid (fun tk => { tk with closed := true }) s

/-- `Scheduler.schedule`: deliver to a paused task by moving it to the
ready-pause set, otherwise append to the ready queue. -/
def schedule (tid : Nat) (s : Sched) : Sched :=
  if tid ∈ s.paused_in_syscall then
    { s with paused_in_syscall := s.paused_in_syscall.erase tid
             paused_in_ready := addSet tid s.paused_in_ready }
  else
    { s with ready := s.ready ++ [tid] }

/-- `Scheduler.schedule_now`: like `schedule` but prepends. -/
def schedule_now (tid : Nat) (s : Sched) : Sched :=
  if tid ∈ s.paused_in_syscall then
    { s with paused_in_syscall := s.paused_in_syscall.erase tid
             paused_in_ready := addSet tid s.paused_in_ready }
  else
    { s with ready := tid :: s.ready }

/-- `Scheduler.pause_task` (argument is `taskmap.get(tid, None)`). -/
def pause_task (t : Option Nat) (s : Sched) : Bool × Sched :=
  match t with
  | Option.none => (false, s)
  | Option.some tid =>
    if tid ∈ s.paused_in_ready ∨ tid ∈ s.paused_in_syscall then (false, s)
    else if tid ∈ s.ready then
      (true, { s with ready := s.ready.erase tid
                      paused_in_ready := addSet tid s.paused_in_ready })
    else
      (true, { s with paused_in_syscall := addSet tid s.paused_in_syscall })

/-- `Scheduler.resume_task`. -/
def resume_task (t : Option Nat) (s : Sched) : Bool × Sched :=
  match t with
  | Option.none => (false, s)
  | Option.some tid =>
    if tid ∈ s.paused_in_ready then
      (true, { s with paused_in_ready := s.paused_in_ready.erase tid
                      ready := tid :: s.ready })
    else if tid ∈ s.paused_in_syscall then
      (true, { s with paused_in_syscall := s.paused_in_syscall.erase tid })
    else (false, s)

/-- `TimerScheduler.set_timer_callback`: push
`[t, self.timer_counter, f]` and bump the counter. -/
def set_timer_callback (t : Int) (cb : Callback) (s : Sched) : Sched :=
  { s with timer_cb := s.timer_cb ++ [{ t := t, seq := s.timer_counter, cb := cb }]
           timer_counter := s.timer_counter + 1 }

/-- `Scheduler.wait_duration`: park behind a timer that resumes via
`schedule_now`. -/
def wait_duration (tid : Nat) (d : Int) (s : Sched) : Sched :=
  set_timer_callback (s.time + d) (Callback.resume tid) s

/-- `Scheduler.wait_duration_rate`: the callback also refreshes the
rate's `last_time`. -/
def wait_duration_rate (tid : Nat) (d : Int) (rid : Nat) (s : Sched) : Sched :=
  set_timer_callback (s.time + d) (Callback.resumeRate tid rid) s

/-- Fire one timer callback. -/
def fireCallback (cb : Callback) (s : Sched) : Sched :=
  match cb with
  | .resume tid => schedule_now tid s
  | .resumeRate tid rid =>
      let newRates := s.rates.map (fun p => if p.1 = rid then (p.1, { p.2 with last_time := s.time }) else p)
      schedule_now tid { s with rates := newRates }

/-- Current values of the condition variables, as read by predicates. -/
def condEnv (s : Sched) : String → Int :=
  fun n => ((s.condvars.lookup n).getD 0)

/-- Evaluate a wait-condition predicate (`condition()`). -/
def evalCond (c : Cond) (s : Sched) : Bool :=
  c.pred (condEnv s)

/-- Append a value at a key of an association list, creating the key at
the end if absent (`dict.setdefault(k, []).append(v)`). -/
def alAppend {α : Type} [DecidableEq α] [BEq α] {β : Type}
    (k : α) (v : β) (l : List (α × List β)) : List (α × List β) :=
  if (l.lookup k).isSome then
    l.map (fun p => if p.1 = k then (p.1, p.2 ++ [v]) else p)
  else l ++ [(k, [v])]

/-- `Scheduler._add_condition`: register an entry under every name its
predicate depends on. -/
def add_condition (e : CondEntry) (s : Sched) : Sched :=
  { s with cond_waiting := e.cond.deps.foldl (fun cw var => alAppend var e cw) s.cond_waiting }

/-- Remove the first entry with a given registration identity. -/
def eraseCid (cid : Nat) : List CondEntry → List CondEntry
  | [] => []
  | e :: rest => if e.cid = cid then rest else e :: eraseCid cid rest

/-- `Scheduler._del_condition`: remove the pair from every name it was
registered under, dropping names left with no waiters. -/
def del_condition (e : CondEntry) (s : Sched) : Sched :=
  let cw1 := e.cond.deps.foldl
    (fun cw var => cw.filterMap (fun p =>
      if p.1 = var then
        (let l := eraseCid e.cid p.2
         if l.isEmpty then Option.none else Option.some (p.1, l))
      else Option.some p))
    s.cond_waiting
  { s with cond_waiting := cw1 }

/-- `Scheduler.wait_condition`: evaluate once; if already true, wake via
`schedule_now`, else register. -/
def wait_condition (tid : Nat) (c : Cond) (s : Sched) : Sched :=
  if evalCond c s then schedule_now tid s
  else
    add_condition { cid := s.nextCid, cond := c, tid := tid }
      { s with nextCid := s.nextCid + 1 }

/-- `Scheduler.test_conditions`: snapshot the entries registered under
`name`; for each whose task is not syscall-paused and whose predicate
holds, `schedule` the task and deregister the pair everywhere. -/
def test_conditions (name : String) (s : Sched) : Sched :=
  match s.cond_waiting.lookup name with
  | Option.none => s
  | Option.some candidates =>
      candidates.foldl
        (fun st e =>
          if e.tid ∈ st.paused_in_syscall then st
          else if evalCond e.cond st then del_condition e (schedule e.tid st)
          else st)
        s

/-- `ConditionVariable.__set__`: store the value, then re-test the
conditions registered under this variable's name. -/
def writeCondVar (name : String) (v : Int) (s : Sched) : Sched :=
  test_conditions name
    { s with condvars :=
        if (s.condvars.lookup name).isSome then
          s.condvars.map (fun p => if p.1 = name then (p.1, v) else p)
        else s.condvars ++ [(name, v)] }

/-- `Scheduler.wait_for_exit`: register `tid` as a watcher of `waittid`
when the latter is a live task; report whether registration happened. -/
def wait_for_exit (tid : Nat) (waittid : Nat) (s : Sched) : Bool × Sched :=
  if (s.taskmap.lookup waittid).isSome then
    (true, { s with exit_waiting := alAppend waittid tid s.exit_waiting })
  else (false, s)

/-- The element under index `i` of `l`, if any. -/
def scanRemoveAux (x : Nat) (i : Nat) (l : List Nat) : List Nat :=
  if h : i < l.length then
    if hx : l.get ⟨i, h⟩ = x then scanRemoveAux x (i + 1) (l.erase x)
    else scanRemoveAux x (i + 1) l
  else l
termination_by l.length - i
decreasing_by
  · have hm : x ∈ l := hx ▸ List.get_mem l i h
    have : (l.erase x).length = l.length - 1 := List.length_erase_of_mem hm
    omega
  · omega

/-- The effect of `for e in lst: if e.tid == x: lst.remove(e)` — a scan
by rising index over a list that shrinks on removal, so the element
after a removed one is skipped (all occurrences of `x` denote the same
task object, and `remove` drops the earliest). -/
def scanRemove (x : Nat) (l : List Nat) : List Nat :=
  scanRemoveAux x 0 l

/-- Notify one task popped from `exit_waiting[etid]` inside
`Scheduler.exit`: `WAIT_ANY` watchers are deregistered everywhere and
woken with the exiting tid; `WAIT_ALL` watchers are woken only once no
list still holds them. -/
def exitNotify (etid : Nat) (w : Nat) (st : Sched) : Sched :=
  match ((st.taskmap.lookup w).map (fun tk => tk.waitmode)).getD WaitMode.any with
  | .any =>
      let st1 := { st with exit_waiting := st.exit_waiting.map (fun p => (p.1, scanRemove w p.2)) }
      schedule w (setSendval w (Value.nat etid) st1)
  | .all =>
      if st.exit_waiting.any (fun p => w ∈ p.2) then st
      else schedule w (setSendval w (Value.nat etid) st)

/-- `Scheduler.exit`: drop the task from the table, pop its watcher
list, notify each watcher in order, and purge emptied watcher lists. -/
def exit (etid : Nat) (s : Sched) : Sched :=
  let s1 := { s with taskmap := s.taskmap.filter (fun p => p.1 ≠ etid) }
  let ws := (s1.exit_waiting.lookup etid).getD []
  let s2 := { s1 with exit_waiting := s1.exit_waiting.filter (fun p => p.1 ≠ etid) }
  let s3 := ws.foldl (fun st w => exitNotify etid w st) s2
  { s3 with exit_waiting := s3.exit_waiting.filter (fun p => ¬ p.2.isEmpty) }

/-- `Scheduler.new`: allocate the next tid, insert, enqueue. -/
def new (g : Gen) (s : Sched) : Nat × Sched :=
  let tid := s.nextTid + 1
  let s1 := { s with nextTid := tid
                     taskmap := s.taskmap ++
                       [(tid, { gen := g, sendval := Value.none
                                waitmode := WaitMode.any, closed := false })] }
  (tid, schedule tid s1)

/-- `Sched.new` discarding the returned tid. -/
def new1 (g : Gen) (s : Sched) : Sched := (new g s).2

/-- `Rate.sleep`: the remaining share of the period; wait behind a
timer when positive, otherwise re-enqueue at the back right away.
Returns `delta_time` (the request's resume value). -/
def rateSleep (rid : Nat) (tid : Nat) (s : Sched) : Value × Sched :=
  match s.rates.lookup rid with
  | Option.none => (Value.none, s)
  | Option.some r =>
      let delta := r.duration - (s.time - r.last_time)
      if delta > 0 then (Value.int delta, wait_duration_rate tid delta rid s)
      else (Value.int delta, schedule tid s)

/-- Dispatch one system call: the bodies of all the `SystemCall.handle`
methods, with `self.task` the issuing task and `self.sched` the
state. -/
def handle (r : Request) (caller : Nat) (s : Sched) : Sched :=
  match r with
  | .getScheduler => schedule caller (setSendval caller Value.schedHandle s)
  | .getTid => schedule caller (setSendval caller (Value.nat caller) s)
  | .getTids => schedule caller (setSendval caller (Value.natList (s.taskmap.map (fun p => p.1))) s)
  | .newTask g =>
      let p := new g s
      schedule caller (setSendval caller (Value.nat p.1) p.2)
  | .killTask tid =>
      if (s.taskmap.lookup tid).isSome then
        schedule caller (setSendval caller (Value.bool true) (closeTask tid s))
      else schedule caller (setSendval caller (Value.bool false) s)
  | .killTasks tids =>
      let p := tids.foldl
        (fun (acc : List Nat × Sched) tid =>
          if (acc.2.taskmap.lookup tid).isSome then (acc.1 ++ [tid], closeTask tid acc.2)
          else acc)
        ([], s)
      schedule caller (setSendval caller (Value.natList p.1) p.2)
  | .killAllTasksExcept ex =>
      let victims := (s.taskmap.filter (fun p => p.1 ∉ ex)).map (fun p => p.1)
      let s1 := victims.foldl (fun st tid => closeTask tid st) s
      schedule caller (setSendval caller (Value.taskObjList victims) s1)
  | .waitTask tid =>
      let p := wait_for_exit caller tid s
      let s1 := setWaitmode caller WaitMode.any (setSendval caller (Value.bool p.1) p.2)
      if p.1 then s1 else schedule caller s1
  | .waitAnyTasks tids =>
      let s0 := setWaitmode caller WaitMode.any s
      match tids.find? (fun t => (s0.taskmap.lookup t).isNone) with
      | Option.none => tids.foldl (fun st t => (wait_for_exit caller t st).2) s0
      | Option.some m => schedule caller (setSendval caller (Value.nat m) s0)
  | .waitAllTasks tids =>
      let s0 := setWaitmode caller WaitMode.all s
      let p := tids.foldl
        (fun (acc : Bool × Sched) t =>
          let q := wait_for_exit caller t acc.2
          (acc.1 || q.1, q.2))
        (false, s0)
      if p.1 then setSendval caller (Value.bool true) p.2
      else schedule caller (setSendval caller (Value.bool false) p.2)
  | .pauseTask tid =>
      let t := if (s.taskmap.lookup tid).isSome then Option.some tid else Option.none
      let p := pause_task t s
      schedule caller (setSendval caller (Value.bool p.1) p.2)
  | .pauseTasks tids =>
      let p := tids.foldl
        (fun (acc : List Nat × Sched) tid =>
          let t := if (acc.2.taskmap.lookup tid).isSome then Option.some tid else Option.none
          let q := pause_task t acc.2
          (if q.1 then acc.1 ++ [tid] else acc.1, q.2))
        ([], s)
      schedule caller (setSendval caller (Value.natList p.1) p.2)
  | .resumeTask tid =>
      let t := if (s.taskmap.lookup tid).isSome then Option.some tid else Option.none
      let p := resume_task t s
      schedule caller (setSendval caller (Value.bool p.1) p.2)
  | .resumeTasks tids =>
      let p := tids.foldl
        (fun (acc : List Nat × Sched) tid =>
          let t := if (acc.2.taskmap.lookup tid).isSome then Option.some tid else Option.none
          let q := resume_task t acc.2
          (if q.1 then acc.1 ++ [tid] else acc.1, q.2))
        ([], s)
      schedule caller (setSendval caller (Value.natList p.1) p.2)
  | .getCurrentTime => schedule caller (setSendval caller (Value.int s.time) s)
  | .waitDuration d => setSendval caller Value.none (wait_duration caller d s)
  | .waitCondition c => setSendval caller Value.none (wait_condition caller c s)
  | .createRate dur =>
      let rid := s.nextRid
      let s1 := { s with nextRid := rid + 1
                         rates := s.rates ++ [(rid, { duration := dur, last_time := s.time })] }
      schedule caller (setSendval caller (Value.rate rid) s1)
  | .sleepRate rid =>
      let p := rateSleep rid caller s
      setSendval caller p.1 p.2
  | .teerPrint _ => schedule caller s

/-- `Scheduler.step`, fuel-bounded: pop the front task, resume it; on
`StopIteration` run `exit`; on a system call run its handler and do not
reschedule; on a plain yield re-enqueue at the back.  Fuel exhaustion
returns the state as is. -/
def stepAux : Nat → Sched → Sched
  | 0, s => s
  | n + 1, s =>
    match s.ready with
    | [] => s
    | tid :: rest =>
        let s1 := { s with ready := rest }
        match s1.taskmap.lookup tid with
        | Option.none => stepAux n s1
        | Option.some tk =>
          if tk.closed then stepAux n (exit tid s1)
          else
            match tk.gen.send tk.sendval with
            | .stop => stepAux n (exit tid s1)
            | .yieldPlain g => stepAux n (schedule tid (setGen tid g s1))
            | .yieldReq r g => stepAux n (handle r tid (setGen tid g s1))

/-- `a ≤ b` in the `(deadline, insertion sequence)` lexicographic order
that `heapq` uses on `[t, counter, f]` lists. -/
def entryLe (a b : TimerEntry) : Bool :=
  a.t < b.t || (a.t = b.t && a.seq ≤ b.seq)

/-- `heapq.heappop`: extract a least entry (unique in use, since the
insertion sequences are pairwise distinct). -/
def popMin : List TimerEntry → Option (TimerEntry × List TimerEntry)
  | [] => Option.none
  | e :: rest =>
    match popMin rest with
    | Option.none => Option.some (e, [])
    | Option.some (m, r) =>
        if entryLe e m then Option.some (e, rest) else Option.some (m, e :: r)

/-- `Scheduler.sleep`: block for `d`; the clock advances by `d`. -/
def sleepS (d : Int) (s : Sched) : Sched :=
  { s with time := s.time + d, slept := s.slept ++ [d] }

/-- Outcome of `TimerScheduler.run`: normal loop exit, the
`IndexError` that `heappop` raises on an empty heap, or fuel ran out. -/
inductive RunOutcome where
  | terminated : Sched → RunOutcome
  | indexError : Sched → RunOutcome
  | fuelOut : RunOutcome

/-- `TimerScheduler.run`, fuel-bounded (`sf` bounds each `step`):
while timers, ready tasks or condition waiters exist: `step()`, pop the
earliest timer (raising `IndexError` when there is none), sleep out a
non-negative remaining duration, fire the callback, `step()` again. -/
def run (sf : Nat) : Nat → Sched → RunOutcome
  | 0, _ => RunOutcome.fuelOut
  | n + 1, s =>
    if !s.timer_cb.isEmpty || !s.ready.isEmpty || !s.cond_waiting.isEmpty then
      let s1 := stepAux sf s
      match popMin s1.timer_cb with
      | Option.none => RunOutcome.indexError s1
      | Option.some (e, rest) =>
          let s2 := { s1 with timer_cb := rest }
          let dur := e.t - s2.time
          let s3 := if dur ≥ 0 then sleepS dur s2 else s2
          run sf n (stepAux sf (fireCallback e.cb s3))
    else RunOutcome.terminated s

/-- The popping loop of `TimerScheduler.timer_step`: keep popping the
least timer and firing it while its deadline has passed; push the first
future timer back and stop.  The fired callbacks never touch the heap
(they only resume tasks), so the heap is threaded separately. -/
def timerStepLoop : Nat → List TimerEntry → Sched → List TimerEntry × Sched
  | 0, h, s => (h, s)
  | n + 1, h, s =>
    match popMin h with
    | Option.none => (h, s)
    | Option.some (e, rest) =>
        if e.t - s.time ≤ 0 then timerStepLoop n rest (fireCallback e.cb s)
        else (rest ++ [e], s)

/-- `TimerScheduler.timer_step`: fire all elapsed timers, then `step`
once.  Never sleeps. -/
def timer_step (sf : Nat) (s : Sched) : Sched :=
  let p := timerStepLoop s.timer_cb.length s.timer_cb s
  stepAux sf { p.2 with timer_cb := p.1 }

end Teer

namespace Teer

/-! ### Generic lemmas about the embedding's basic operations -/

/-- Looking up the modified key of a pointwise association-list update. -/
theorem lookup_map_upd {α β : Type} [DecidableEq α] [BEq α] [LawfulBEq α]
    (l : List (α × β)) (k : α) (f : β → β) :
    (l.map (fun p => if p.1 = k then (p.1, f p.2) else p)).lookup k = (l.lookup k).map f := by
  induction l with
  | nil => rfl
  | cons p rest ih =>
      obtain ⟨a, b⟩ := p
      simp only [List.map_cons]
      by_cases h : a = k
      · subst h
        rw [if_pos rfl]
        simp [List.lookup_cons]
      · rw [if_neg h]
        have hb : (k == a) = false := beq_false_of_ne (Ne.symm h)
        simp [List.lookup_cons, hb, ih]

/-- Looking up an unmodified key of a pointwise association-list update. -/
theorem lookup_map_upd_ne {α β : Type} [DecidableEq α] [BEq α] [LawfulBEq α]
    (l : List (α × β)) (k k' : α) (f : β → β)
    (h : k' ≠ k) :
    (l.map (fun p => if p.1 = k then (p.1, f p.2) else p)).lookup k' = l.lookup k' := by
  induction l with
  | nil => rfl
  | cons p rest ih =>
      obtain ⟨a, b⟩ := p
      simp only [List.map_cons]
      by_cases hp : a = k
      · subst hp
        rw [if_pos rfl]
        have hb : (k' == a) = false := beq_false_of_ne h
        simp [List.lookup_cons, hb, ih]
      · rw [if_neg hp]
        simp [List.lookup_cons, ih]

theorem schedule_ready_of_not_paused {t : Nat} {s : Sched} (h : t ∉ s.paused_in_syscall) :
    (schedule t s).ready = s.ready ++ [t] := by
  simp [schedule, h]

theorem schedule_now_ready_of_not_paused {t : Nat} {s : Sched} (h : t ∉ s.paused_in_syscall) :
    (schedule_now t s).ready = t :: s.ready := by
  simp [schedule_now, h]

theorem schedule_taskmap (t : Nat) (s : Sched) : (schedule t s).taskmap = s.taskmap := by
  unfold schedule; split <;> rfl

theorem schedule_now_taskmap (t : Nat) (s : Sched) : (schedule_now t s).taskmap = s.taskmap := by
  unfold schedule_now; split <;> rfl

theorem schedule_paused_in_syscall_of_not (t : Nat) (s : Sched) (h : t ∉ s.paused_in_syscall) :
    (schedule t s).paused_in_syscall = s.paused_in_syscall := by
  simp [schedule, h]

theorem setSendval_ready (t : Nat) (v : Value) (s : Sched) : (setSendval t v s).ready = s.ready := rfl

theorem setSendval_paused_in_syscall (t : Nat) (v : Value) (s : Sched) :
    (setSendval t v s).paused_in_syscall = s.paused_in_syscall := rfl

theorem del_condition_ready (e : CondEntry) (s : Sched) : (del_condition e s).ready = s.ready := rfl

theorem del_condition_paused_in_syscall (e : CondEntry) (s : Sched) :
    (del_condition e s).paused_in_syscall = s.paused_in_syscall := rfl

/-! ### C1 -/

/-- A generator that finishes on its first resume. -/
def genStop : Gen := Gen.mk (fun _ => GenRes.stop)

/-- A fresh task object around a generator. -/
def freshTask (g : Gen) : TaskObj :=
  { gen := g, sendval := Value.none, waitmode := WaitMode.any, closed := false }

/-- `lambda: sched.x > 2` with its extracted dependency set `("x",)`. -/
def condX : Cond := { deps := ["x"], pred := fun env => decide (env "x" > 2) }

/-- Task 5 sitting ready; task 7 parked on `condX`. -/
def c1state : Sched :=
  { Sched.empty with
      nextTid := 7
      taskmap := [(5, freshTask genStop), (7, freshTask genStop)]
      ready := [5]
      cond_waiting := [("x", [{ cid := 0, cond := condX, tid := 7 }])]
      nextCid := 1 }

/-- C1, counterexample: task 7 is parked on the condition `x > 2` and task 5
already sits in the ready queue; writing `x := 3` wakes 7 (its registration is
removed) but puts it at the BACK of the ready queue (`[5, 7]`), not the front
— `test_conditions` wakes via `schedule`, not `schedule_now`, refuting the
claim that conditions-variable wakeups insert ready-now ahead of waiting
tasks. -/
theorem claim_C1_cex :
    (writeCondVar "x" 3 c1state).ready = [5, 7] ∧
    (writeCondVar "x" 3 c1state).cond_waiting.isEmpty = true ∧
    c1state.ready = [5] :=
  ⟨rfl, rfl, rfl⟩

/-- C1, amended: a parked task woken by a timer firing (`wait_duration` or
`wait_duration_rate` callback) is inserted at the front of the ready queue;
but a parked task woken because its wait-condition predicate became true on a
condition-variable write is appended at the BACK of the ready queue. -/
theorem claim_C1 (s : Sched) (t rid : Nat) (name : String) (e : CondEntry)
    (hp : t ∉ s.paused_in_syscall) :
    (fireCallback (Callback.resume t) s).ready = t :: s.ready ∧
    (fireCallback (Callback.resumeRate t rid) s).ready = t :: s.ready ∧
    (s.cond_waiting.lookup name = Option.some [e] → e.tid = t → evalCond e.cond s = true →
      (test_conditions name s).ready = s.ready ++ [t]) := by
  refine ⟨?_, ?_, ?_⟩
  · simpa [fireCallback] using schedule_now_ready_of_not_paused hp
  · simpa [fireCallback] using schedule_now_ready_of_not_paused (s := { s with rates := s.rates.map (fun p => if p.1 = rid then (p.1, { p.2 with last_time := s.time }) else p) }) hp
  · intro hl ht hev
    subst ht
    simp only [test_conditions, hl, List.foldl]
    rw [if_neg hp, if_pos (by simpa using hev), del_condition_ready]
    exact schedule_ready_of_not_paused hp

/-- C1 witness: the amended statement instantiated at `c1state` and task 7. -/
theorem claim_C1_witness :
    (fireCallback (Callback.resume 7) c1state).ready = 7 :: c1state.ready ∧
    (fireCallback (Callback.resumeRate 7 0) c1state).ready = 7 :: c1state.ready ∧
    (c1state.cond_waiting.lookup "x" = Option.some [{ cid := 0, cond := condX, tid := 7 }] →
      ({ cid := 0, cond := condX, tid := 7 } : CondEntry).tid = 7 →
      evalCond ({ cid := 0, cond := condX, tid := 7 } : CondEntry).cond c1state = true →
      (test_conditions "x" c1state).ready = c1state.ready ++ [7]) :=
  claim_C1 c1state 7 0 "x" { cid := 0, cond := condX, tid := 7 } (by decide)

/-! ### C7 -/

/-- Task 5 ready, task 7 about to `Sleep` on rate 0 whose period has already
elapsed (`period = 5`, `last_wake = 0`, `now = 10`). -/
def c7state : Sched :=
  { Sched.empty with
      nextTid := 7
      taskmap := [(5, freshTask genStop), (7, freshTask genStop)]
      ready := [5]
      rates := [(0, { duration := 5, last_time := 0 })]
      nextRid := 1
      time := 10 }

/-- C7, counterexample: `Rate.sleep` with `remaining = 5 - (10 - 0) = -5 ≤ 0`
wakes task 7 with a plain `schedule`: the ready queue becomes `[5, 7]` — task
7 is enqueued at the BACK, not with the claimed priority (front-of-queue)
insertion. -/
theorem claim_C7_cex :
    (rateSleep 0 7 c7state).1 = Value.int (-5) ∧
    (rateSleep 0 7 c7state).2.ready = [5, 7] ∧
    c7state.ready = [5] :=
  ⟨rfl, rfl, rfl⟩

/-- C7, amended: `Rate.sleep` computes `remaining = period - (now -
last_wake)` and returns it; if `remaining ≤ 0` it re-enqueues the calling
task immediately at the BACK of the ready queue (a plain, non-priority
enqueue); otherwise it schedules a timer for the remaining duration whose
callback sets `last_wake` to the time of firing and wakes the task with a
priority (front-of-queue) enqueue. -/
theorem claim_C7 (s : Sched) (rid t : Nat) (r : RateObj)
    (hr : s.rates.lookup rid = Option.some r) (hp : t ∉ s.paused_in_syscall) :
    (rateSleep rid t s).1 = Value.int (r.duration - (s.time - r.last_time)) ∧
    (r.duration - (s.time - r.last_time) ≤ 0 →
      (rateSleep rid t s).2.ready = s.ready ++ [t] ∧
      (rateSleep rid t s).2.timer_cb = s.timer_cb) ∧
    (0 < r.duration - (s.time - r.last_time) →
      (rateSleep rid t s).2.ready = s.ready ∧
      (rateSleep rid t s).2.timer_cb = s.timer_cb ++
        [{ t := s.time + (r.duration - (s.time - r.last_time)), seq := s.timer_counter,
           cb := Callback.resumeRate t rid }]) ∧
    (∀ s2 : Sched, t ∉ s2.paused_in_syscall →
      (fireCallback (Callback.resumeRate t rid) s2).ready = t :: s2.ready ∧
      (fireCallback (Callback.resumeRate t rid) s2).rates.lookup rid =
        (s2.rates.lookup rid).map (fun q => { q with last_time := s2.time })) := by
  refine ⟨?_, ?_, ?_, ?_⟩
  · simp only [rateSleep, hr]
    split <;> rfl
  · intro hle
    have hnot : ¬ (r.duration - (s.time - r.last_time) > 0) := by omega
    simp only [rateSleep, hr, if_neg hnot]
    exact ⟨schedule_ready_of_not_paused hp, by
      have := schedule_taskmap t s
      simp [schedule]
      split <;> rfl⟩
  · intro hgt
    simp only [rateSleep, hr, if_pos hgt]
    constructor
    · rfl
    · rfl
  · intro s2 hp2
    constructor
    · simpa [fireCallback] using schedule_now_ready_of_not_paused (s := { s2 with rates := s2.rates.map (fun p => if p.1 = rid then (p.1, { p.2 with last_time := s2.time }) else p) }) hp2
    · have : (fireCallback (Callback.resumeRate t rid) s2).rates =
          s2.rates.map (fun p => if p.1 = rid then (p.1, { p.2 with last_time := s2.time }) else p) := by
        simp [fireCallback, schedule_now]
        split <;> rfl
      rw [this]
      exact lookup_map_upd s2.rates rid (fun q => { q with last_time := s2.time })

/-- C7 witness: the amended statement instantiated at `c7state`. -/
theorem claim_C7_witness :
    (rateSleep 0 7 c7state).1 =
      Value.int (RateObj.duration { duration := 5, last_time := 0 } -
        (c7state.time - RateObj.last_time { duration := 5, last_time := 0 })) ∧
    (RateObj.duration { duration := 5, last_time := 0 } -
        (c7state.time - RateObj.last_time { duration := 5, last_time := 0 }) ≤ 0 →
      (rateSleep 0 7 c7state).2.ready = c7state.ready ++ [7] ∧
      (rateSleep 0 7 c7state).2.timer_cb = c7state.timer_cb) ∧
    (0 < RateObj.duration { duration := 5, last_time := 0 } -
        (c7state.time - RateObj.last_time { duration := 5, last_time := 0 }) →
      (rateSleep 0 7 c7state).2.ready = c7state.ready ∧
      (rateSleep 0 7 c7state).2.timer_cb = c7state.timer_cb ++
        [{ t := c7state.time + (RateObj.duration { duration := 5, last_time := 0 } -
             (c7state.time - RateObj.last_time { duration := 5, last_time := 0 })),
           seq := c7state.timer_counter, cb := Callback.resumeRate 7 0 }]) ∧
    (∀ s2 : Sched, 7 ∉ s2.paused_in_syscall →
      (fireCallback (Callback.resumeRate 7 0) s2).ready = 7 :: s2.ready ∧
      (fireCallback (Callback.resumeRate 7 0) s2).rates.lookup 0 =
        (s2.rates.lookup 0).map (fun q => { q with last_time := s2.time })) :=
  claim_C7 c7state 0 7 { duration := 5, last_time := 0 } (by decide) (by decide)

end Teer

namespace Teer

/-! ### More association-list lemmas -/

theorem lookup_append {α β : Type} [BEq α] (l1 l2 : List (α × β)) (a : α) :
    (l1 ++ l2).lookup a = ((l1.lookup a).or (l2.lookup a)) := by
  induction l1 with
  | nil => simp [List.lookup]
  | cons p rest ih =>
      obtain ⟨k, v⟩ := p
      by_cases h : (a == k) = true
      · simp [List.lookup_cons, h]
      · have h' : (a == k) = false := by simpa using h
        simp [List.lookup_cons, h', ih]

theorem lookup_mem {α β : Type} [BEq α] [LawfulBEq α] {l : List (α × β)} {a : α} {v : β}
    (h : l.lookup a = Option.some v) : (a, v) ∈ l := by
  induction l with
  | nil => simp [List.lookup] at h
  | cons p rest ih =>
      obtain ⟨k, w⟩ := p
      by_cases hk : (a == k) = true
      · have he : a = k := eq_of_beq hk
        subst he
        simp [List.lookup_cons] at h
        subst h
        exact List.mem_cons_self _ _
      · have hk' : (a == k) = false := by simpa using hk
        simp [List.lookup_cons, hk'] at h
        exact List.mem_cons_of_mem _ (ih h)

theorem alAppend_lookup_self {α β : Type} [DecidableEq α] [BEq α] [LawfulBEq α]
    (k : α) (v : β) (l : List (α × List β)) :
    (alAppend k v l).lookup k = Option.some ((l.lookup k).getD [] ++ [v]) := by
  rcases ho : l.lookup k with _ | w
  · unfold alAppend
    rw [ho]
    simp only [Option.isSome_none, Bool.false_eq_true, if_false]
    rw [lookup_append, ho]
    simp [List.lookup]
  · unfold alAppend
    rw [ho]
    simp only [Option.isSome_some, if_true]
    rw [lookup_map_upd l k (fun x => x ++ [v]), ho]
    rfl

theorem alAppend_lookup_ne {α β : Type} [DecidableEq α] [BEq α] [LawfulBEq α]
    (k k' : α) (v : β) (l : List (α × List β)) (h : k' ≠ k) :
    (alAppend k v l).lookup k' = l.lookup k' := by
  rcases ho : l.lookup k with _ | w
  · unfold alAppend
    rw [ho]
    simp only [Option.isSome_none, Bool.false_eq_true, if_false]
    rw [lookup_append]
    have h2 : (([(k, [v])] : List (α × List β)).lookup k') = Option.none := by
      simp [List.lookup_cons, beq_false_of_ne h]
    rw [h2]
    cases l.lookup k' <;> rfl
  · unfold alAppend
    rw [ho]
    simp only [Option.isSome_some, if_true]
    exact lookup_map_upd_ne l k k' (fun x => x ++ [v]) h

/-- Membership in a watcher list survives any further `alAppend`. -/
theorem alAppend_mem_mono {α β : Type} [DecidableEq α] [BEq α] [LawfulBEq α]
    (k t : α) (v x : β) (l : List (α × List β))
    (h : x ∈ (l.lookup t).getD []) : x ∈ ((alAppend k v l).lookup t).getD [] := by
  by_cases ht : t = k
  · subst ht
    rw [alAppend_lookup_self]
    simp only [Option.getD_some]
    exact List.mem_append_left _ h
  · rw [alAppend_lookup_ne _ _ _ _ ht]
    exact h

end Teer

namespace Teer

/-! ### Frame lemmas for the scheduler operations -/

theorem schedule_exit_waiting (t : Nat) (s : Sched) :
    (schedule t s).exit_waiting = s.exit_waiting := by
  unfold schedule; split <;> rfl

theorem schedule_now_exit_waiting (t : Nat) (s : Sched) :
    (schedule_now t s).exit_waiting = s.exit_waiting := by
  unfold schedule_now; split <;> rfl

theorem wait_for_exit_ready (c t : Nat) (s : Sched) :
    ((wait_for_exit c t s).2).ready = s.ready := by
  unfold wait_for_exit; split <;> rfl

theorem wait_for_exit_taskmap (c t : Nat) (s : Sched) :
    ((wait_for_exit c t s).2).taskmap = s.taskmap := by
  unfold wait_for_exit; split <;> rfl

theorem wait_for_exit_paused_in_syscall (c t : Nat) (s : Sched) :
    ((wait_for_exit c t s).2).paused_in_syscall = s.paused_in_syscall := by
  unfold wait_for_exit; split <;> rfl

theorem wfe_fold_ready (ts : List Nat) (c : Nat) (s : Sched) :
    ((ts.foldl (fun st t => (wait_for_exit c t st).2) s)).ready = s.ready := by
  induction ts generalizing s with
  | nil => rfl
  | cons t rest ih => rw [List.foldl_cons, ih, wait_for_exit_ready]

theorem wfe_fold_taskmap (ts : List Nat) (c : Nat) (s : Sched) :
    ((ts.foldl (fun st t => (wait_for_exit c t st).2) s)).taskmap = s.taskmap := by
  induction ts generalizing s with
  | nil => rfl
  | cons t rest ih => rw [List.foldl_cons, ih, wait_for_exit_taskmap]

/-- A watcher registration survives later `wait_for_exit` registrations. -/
theorem wfe_fold_mem_mono (ts : List Nat) (c t : Nat) (s : Sched)
    (h : c ∈ (s.exit_waiting.lookup t).getD []) :
    c ∈ (((ts.foldl (fun st t => (wait_for_exit c t st).2) s)).exit_waiting.lookup t).getD [] := by
  induction ts generalizing s with
  | nil => exact h
  | cons t0 rest ih =>
      rw [List.foldl_cons]
      apply ih
      unfold wait_for_exit
      split
      · exact alAppend_mem_mono _ _ _ _ _ h
      · exact h

/-- Folding `wait_for_exit` over a list of live tids registers the caller
under every one of them. -/
theorem wfe_fold_mem (ts : List Nat) (c : Nat) (s : Sched)
    (hall : ∀ t ∈ ts, (s.taskmap.lookup t).isSome = true) :
    ∀ t ∈ ts,
      c ∈ (((ts.foldl (fun st t => (wait_for_exit c t st).2) s)).exit_waiting.lookup t).getD [] := by
  induction ts generalizing s with
  | nil => intro t ht; simp at ht
  | cons t0 rest ih =>
      intro t ht
      rw [List.foldl_cons]
      rcases List.mem_cons.mp ht with rfl | hmem
      · apply wfe_fold_mem_mono
        have h0 : (s.taskmap.lookup t).isSome = true := hall t (List.mem_cons_self _ _)
        unfold wait_for_exit
        rw [if_pos h0]
        try simp only
        rw [alAppend_lookup_self]
        simp only [Option.getD_some]
        exact List.mem_append_right _ (List.mem_singleton.mpr rfl)
      · apply ih
        · intro x hx
          rw [wait_for_exit_taskmap]
          exact hall x (List.mem_cons_of_mem _ hx)
        · exact hmem

theorem schedule_ready_count (w x : Nat) (s : Sched) (h : w ≠ x) :
    ((schedule w s).ready).count x = s.ready.count x := by
  unfold schedule
  split
  · rfl
  · have hb : (x == w) = false := beq_false_of_ne (Ne.symm h)
    simp [List.count_append, List.count_cons, hb, h]

theorem exitNotify_ready_count (etid w x : Nat) (st : Sched) (hwx : w ≠ x) :
    ((exitNotify etid w st).ready).count x = st.ready.count x := by
  unfold exitNotify
  cases hmode : ((st.taskmap.lookup w).map (fun tk => tk.waitmode)).getD WaitMode.any with
  | any =>
      simp only [hmode]
      rw [schedule_ready_count _ _ _ hwx]
      rfl
  | all =>
      simp only [hmode]
      split
      · rfl
      · rw [schedule_ready_count _ _ _ hwx]
        rfl

theorem exitNotify_fold_ready_count (ws : List Nat) (etid x : Nat) (st : Sched)
    (h : ∀ w ∈ ws, w ≠ x) :
    (((ws.foldl (fun st w => exitNotify etid w st) st)).ready).count x = st.ready.count x := by
  induction ws generalizing st with
  | nil => rfl
  | cons w rest ih =>
      rw [List.foldl_cons, ih _ (fun w' hw' => h w' (List.mem_cons_of_mem _ hw')),
        exitNotify_ready_count _ _ _ _ (h w (List.mem_cons_self _ _))]

/-- A task registered in no watcher list is neither enqueued nor dequeued
by an exit notification. -/
theorem exit_ready_count (e x : Nat) (s : Sched)
    (hx : ∀ p ∈ s.exit_waiting, x ∉ p.2) :
    ((exit e s).ready).count x = s.ready.count x := by
  unfold exit
  try simp only
  have hws : ∀ w ∈ (s.exit_waiting.lookup e).getD [], w ≠ x := by
    rcases ho : s.exit_waiting.lookup e with _ | l
    · simp
    · intro w hw
      simp only [Option.getD_some] at hw
      intro hwx
      subst hwx
      exact hx (e, l) (lookup_mem ho) hw
  rw [exitNotify_fold_ready_count _ _ _ _ hws]

end Teer

namespace Teer

theorem modifyTask_ready (k : Nat) (f : TaskObj → TaskObj) (s : Sched) :
    (modifyTask k f s).ready = s.ready := rfl

theorem modifyTask_exit_waiting (k : Nat) (f : TaskObj → TaskObj) (s : Sched) :
    (modifyTask k f s).exit_waiting = s.exit_waiting := rfl

theorem modifyTask_paused_in_syscall (k : Nat) (f : TaskObj → TaskObj) (s : Sched) :
    (modifyTask k f s).paused_in_syscall = s.paused_in_syscall := rfl

theorem modifyTask_lookup_self (k : Nat) (f : TaskObj → TaskObj) (s : Sched) :
    (modifyTask k f s).taskmap.lookup k = (s.taskmap.lookup k).map f :=
  lookup_map_upd s.taskmap k f

theorem modifyTask_lookup_isNone (k : Nat) (f : TaskObj → TaskObj) (s : Sched) (t : Nat) :
    ((modifyTask k f s).taskmap.lookup t).isNone = (s.taskmap.lookup t).isNone := by
  by_cases ht : t = k
  · subst ht
    rw [modifyTask_lookup_self]
    cases s.taskmap.lookup t <;> rfl
  · unfold modifyTask
    try simp only
    rw [lookup_map_upd_ne s.taskmap k t f ht]

theorem modifyTask_lookup_isSome (k : Nat) (f : TaskObj → TaskObj) (s : Sched) (t : Nat) :
    ((modifyTask k f s).taskmap.lookup t).isSome = (s.taskmap.lookup t).isSome := by
  by_cases ht : t = k
  · subst ht
    rw [modifyTask_lookup_self]
    cases s.taskmap.lookup t <;> rfl
  · unfold modifyTask
    try simp only
    rw [lookup_map_upd_ne s.taskmap k t f ht]

/-- The `WaitAnyTasks.handle` body, spelled out. -/
theorem handle_waitAny_eq (tids : List Nat) (caller : Nat) (s : Sched) :
    handle (Request.waitAnyTasks tids) caller s =
      (match tids.find? (fun t => (((setWaitmode caller WaitMode.any s).taskmap.lookup t).isNone)) with
       | Option.none => tids.foldl (fun st t => (wait_for_exit caller t st).2)
           (setWaitmode caller WaitMode.any s)
       | Option.some m => schedule caller (setSendval caller (Value.nat m)
           (setWaitmode caller WaitMode.any s))) := rfl

/-! ### C5 -/

/-- C5: `WaitAnyTasks.handle` is all-or-nothing.  If every id in the set is a
live task, the caller is registered (`WAIT_ANY`) as a watcher of each of
them and is not rescheduled; if some id is dead, the caller is rescheduled
immediately with the first missing id as its resume value, the exit-wait
registry is left untouched, and — the caller being registered nowhere — a
later exit of any task neither enqueues nor dequeues the caller again. -/
theorem claim_C5 (s : Sched) (caller : Nat) (tids : List Nat) (tk : TaskObj)
    (htk : s.taskmap.lookup caller = Option.some tk)
    (hp : caller ∉ s.paused_in_syscall) :
    ((∀ t ∈ tids, (s.taskmap.lookup t).isSome = true) →
      (handle (Request.waitAnyTasks tids) caller s).ready = s.ready ∧
      (handle (Request.waitAnyTasks tids) caller s).taskmap.lookup caller =
        Option.some { tk with waitmode := WaitMode.any } ∧
      (∀ t ∈ tids, caller ∈
        (((handle (Request.waitAnyTasks tids) caller s).exit_waiting.lookup t).getD []))) ∧
    (∀ m, tids.find? (fun t => (s.taskmap.lookup t).isNone) = Option.some m →
      (handle (Request.waitAnyTasks tids) caller s).exit_waiting = s.exit_waiting ∧
      (handle (Request.waitAnyTasks tids) caller s).ready = s.ready ++ [caller] ∧
      (handle (Request.waitAnyTasks tids) caller s).taskmap.lookup caller =
        Option.some { tk with sendval := Value.nat m, waitmode := WaitMode.any } ∧
      m ∈ tids ∧ (s.taskmap.lookup m).isNone = true ∧
      ((∀ p ∈ s.exit_waiting, caller ∉ p.2) → ∀ e : Nat,
        ((exit e (handle (Request.waitAnyTasks tids) caller s)).ready).count caller =
          ((handle (Request.waitAnyTasks tids) caller s).ready).count caller)) := by
  have hfun : (fun t => (((setWaitmode caller WaitMode.any s).taskmap.lookup t).isNone))
      = (fun t => ((s.taskmap.lookup t).isNone)) :=
    funext (fun t => modifyTask_lookup_isNone caller _ s t)
  constructor
  · intro hall
    have hnone : tids.find?
        (fun t => (((setWaitmode caller WaitMode.any s).taskmap.lookup t).isNone)) =
        Option.none := by
      rw [hfun]
      apply List.find?_eq_none.mpr
      intro x hx
      have hs := hall x hx
      simp [Option.isNone_iff_eq_none] at hs ⊢
      simp [hs]
    rw [handle_waitAny_eq, hnone]
    refine ⟨?_, ?_, ?_⟩
    · rw [wfe_fold_ready]
      rfl
    · rw [wfe_fold_taskmap]
      unfold setWaitmode
      rw [modifyTask_lookup_self, htk]
      rfl
    · apply wfe_fold_mem
      intro t ht
      unfold setWaitmode
      rw [modifyTask_lookup_isSome]
      exact hall t ht
  · intro m hm
    have hfind0 : tids.find?
        (fun t => (((setWaitmode caller WaitMode.any s).taskmap.lookup t).isNone)) =
        Option.some m := by
      rw [hfun]; exact hm
    rw [handle_waitAny_eq, hfind0]
    try simp only
    refine ⟨?_, ?_, ?_, ?_, ?_, ?_⟩
    · rw [schedule_exit_waiting]
      rfl
    · rw [schedule_ready_of_not_paused]
      · rfl
      · exact hp
    · rw [schedule_taskmap]
      unfold setSendval setWaitmode
      rw [modifyTask_lookup_self]
      rw [modifyTask_lookup_self, htk]
      rfl
    · exact List.mem_of_find?_eq_some hm
    · have h2 := @List.find?_some Nat (fun t => (s.taskmap.lookup t).isNone) m tids hm
      simpa using h2
    · intro hreg e
      apply exit_ready_count
      rw [schedule_exit_waiting]
      exact hreg

/-- Caller 1 and task 2 live; task 9 does not exist. -/
def c5state : Sched :=
  { Sched.empty with
      nextTid := 2
      taskmap := [(1, freshTask genStop), (2, freshTask genStop)] }

/-- C5 witness: `claim_C5` at `c5state`, caller 1, tids `[2, 9]`. -/
theorem claim_C5_witness :
    ((∀ t ∈ [2, 9], (c5state.taskmap.lookup t).isSome = true) →
      (handle (Request.waitAnyTasks [2, 9]) 1 c5state).ready = c5state.ready ∧
      (handle (Request.waitAnyTasks [2, 9]) 1 c5state).taskmap.lookup 1 =
        Option.some { freshTask genStop with waitmode := WaitMode.any } ∧
      (∀ t ∈ [2, 9], 1 ∈
        (((handle (Request.waitAnyTasks [2, 9]) 1 c5state).exit_waiting.lookup t).getD []))) ∧
    (∀ m, List.find? (fun t => (c5state.taskmap.lookup t).isNone) [2, 9] = Option.some m →
      (handle (Request.waitAnyTasks [2, 9]) 1 c5state).exit_waiting = c5state.exit_waiting ∧
      (handle (Request.waitAnyTasks [2, 9]) 1 c5state).ready = c5state.ready ++ [1] ∧
      (handle (Request.waitAnyTasks [2, 9]) 1 c5state).taskmap.lookup 1 =
        Option.some { freshTask genStop with sendval := Value.nat m, waitmode := WaitMode.any } ∧
      m ∈ [2, 9] ∧ (c5state.taskmap.lookup m).isNone = true ∧
      ((∀ p ∈ c5state.exit_waiting, 1 ∉ p.2) → ∀ e : Nat,
        ((exit e (handle (Request.waitAnyTasks [2, 9]) 1 c5state)).ready).count 1 =
          ((handle (Request.waitAnyTasks [2, 9]) 1 c5state).ready).count 1)) :=
  claim_C5 c5state 1 [2, 9] (freshTask genStop) rfl (by decide)

end Teer

namespace Teer

/-! ### Lemmas on `exit` over single-waiter registries (for C4) -/

theorem lookup_filter_ne_key {β : Type} (l : List (Nat × β)) (t w : Nat) (h : w ≠ t) :
    (l.filter (fun p => p.1 ≠ t)).lookup w = l.lookup w := by
  induction l with
  | nil => rfl
  | cons p rest ih =>
      obtain ⟨a, b⟩ := p
      by_cases ha : a = t
      · subst ha
        have hb : (w == a) = false := beq_false_of_ne h
        simp only [List.filter_cons]
        rw [if_neg (by simp)]
        rw [ih]
        simp [List.lookup_cons, hb]
      · simp only [List.filter_cons]
        rw [if_pos (by simpa using ha)]
        by_cases hw : w = a
        · subst hw
          simp [List.lookup_cons]
        · have hb : (w == a) = false := beq_false_of_ne hw
          simp only [List.lookup_cons, hb]
          simpa using ih

theorem lookup_map_pair {β : Type} (rem : List Nat) (t : Nat) (v : β) (hmem : t ∈ rem) :
    ((rem.map (fun x => (x, v))).lookup t) = Option.some v := by
  induction rem with
  | nil => simp at hmem
  | cons x rest ih =>
      by_cases hx : t = x
      · subst hx
        simp [List.lookup_cons]
      · have hb : (t == x) = false := beq_false_of_ne hx
        rcases List.mem_cons.mp hmem with h | h
        · exact absurd h hx
        · simp [List.lookup_cons, hb, ih h]

theorem lookup_map_pair_none {β : Type} (rem : List Nat) (t : Nat) (v : β) (hmem : t ∉ rem) :
    ((rem.map (fun x => (x, v))).lookup t) = Option.none := by
  induction rem with
  | nil => rfl
  | cons x rest ih =>
      have hx : t ≠ x := fun h => hmem (h ▸ List.mem_cons_self _ _)
      have hb : (t == x) = false := beq_false_of_ne hx
      have hrest : t ∉ rest := fun h => hmem (List.mem_cons_of_mem _ h)
      rw [List.map_cons, List.lookup_cons, hb]
      exact ih hrest

theorem map_pair_filter {β : Type} (rem : List Nat) (t : Nat) (v : β) :
    ((rem.map (fun x => (x, v))).filter (fun p => p.1 ≠ t)) =
      (rem.filter (fun x => x ≠ t)).map (fun x => (x, v)) := by
  induction rem with
  | nil => rfl
  | cons x rest ih =>
      by_cases hx : x = t
      · subst hx
        simp only [List.map_cons, List.filter_cons]
        rw [if_neg (by simp), if_neg (by simp)]
        exact ih
      · simp only [List.map_cons, List.filter_cons]
        rw [if_pos (by simpa using hx), if_pos (by simpa using hx)]
        simp only [List.map_cons, List.cons.injEq, true_and]
        simpa using ih

theorem map_pair_any_mem (rem : List Nat) (w : Nat) :
    ((rem.map (fun x => (x, [w]))).any (fun p => w ∈ p.2)) = !rem.isEmpty := by
  cases rem with
  | nil => rfl
  | cons x rest => simp [List.any_cons]

theorem map_pair_purge (rem : List Nat) (w : Nat) :
    ((rem.map (fun x => (x, [w]))).filter (fun p => ¬ p.2.isEmpty)) =
      rem.map (fun x => (x, [w])) := by
  induction rem with
  | nil => rfl
  | cons x rest ih =>
      simp only [List.map_cons, List.filter_cons]
      rw [if_pos (by simp)]
      simp [ih]

/-- `Scheduler.exit` on a registry of single-waiter lists, when other watched
tasks remain: the `WAIT_ALL` waiter is left alone; only the task-table entry
and registry key of the exiting task disappear. -/
theorem exit_reg_mid (t w : Nat) (s : Sched) (rem : List Nat)
    (hreg : s.exit_waiting = rem.map (fun x => (x, [w])))
    (hmem : t ∈ rem) (hwt : w ≠ t)
    (hmode : (s.taskmap.lookup w).map (fun tk => tk.waitmode) = Option.some WaitMode.all)
    (hfne : rem.filter (fun x => x ≠ t) ≠ []) :
    exit t s = { s with taskmap := s.taskmap.filter (fun p => p.1 ≠ t),
                        exit_waiting :=
                          (rem.filter (fun x => x ≠ t)).map (fun x => (x, [w])) } := by
  have hws : ((({ s with taskmap := s.taskmap.filter (fun p => p.1 ≠ t) } : Sched)).exit_waiting.lookup t).getD []
      = [w] := by
    simp only [hreg]
    rw [lookup_map_pair rem t [w] hmem]
    rfl
  simp only [exit, hreg]
  rw [lookup_map_pair rem t [w] hmem]
  simp only [Option.getD_some, List.foldl_cons, List.foldl_nil]
  unfold exitNotify
  rw [map_pair_filter]
  have hlw : ((s.taskmap.filter (fun p => p.1 ≠ t)).lookup w) = s.taskmap.lookup w :=
    lookup_filter_ne_key s.taskmap t w hwt
  rw [hlw]
  rw [hmode]
  simp only [Option.getD_some]
  rw [map_pair_any_mem]
  have hne' : ((rem.filter (fun x => x ≠ t)).isEmpty) = false := by
    cases hc : rem.filter (fun x => x ≠ t) with
    | nil => exact absurd hc hfne
    | cons a l => rfl
  rw [hne']
  simp only [Bool.not_false, if_true]
  rw [map_pair_purge]

/-- `Scheduler.exit` on a registry of single-waiter lists when the exiting
task is the last watched one: the `WAIT_ALL` waiter receives the exiting tid
and is appended to the ready queue; the registry empties. -/
theorem exit_reg_last (t w : Nat) (s : Sched) (rem : List Nat)
    (hreg : s.exit_waiting = rem.map (fun x => (x, [w])))
    (hmem : t ∈ rem) (hwt : w ≠ t)
    (hmode : (s.taskmap.lookup w).map (fun tk => tk.waitmode) = Option.some WaitMode.all)
    (hp : w ∉ s.paused_in_syscall)
    (hfnil : rem.filter (fun x => x ≠ t) = []) :
    exit t s = { s with
        taskmap := (s.taskmap.filter (fun p => p.1 ≠ t)).map
          (fun p => if p.1 = w then (p.1, { p.2 with sendval := Value.nat t }) else p),
        exit_waiting := [],
        ready := s.ready ++ [w] } := by
  simp only [exit, hreg]
  rw [lookup_map_pair rem t [w] hmem]
  simp only [Option.getD_some, List.foldl_cons, List.foldl_nil]
  unfold exitNotify
  rw [map_pair_filter, hfnil]
  have hlw : ((s.taskmap.filter (fun p => p.1 ≠ t)).lookup w) = s.taskmap.lookup w :=
    lookup_filter_ne_key s.taskmap t w hwt
  rw [hlw, hmode]
  simp only [Option.getD_some, List.map_nil, List.any_nil, Bool.false_eq_true, if_false]
  unfold schedule setSendval modifyTask
  try simp only
  rw [if_neg hp]
  rfl

end Teer

namespace Teer

theorem alAppend_of_none {α : Type} [DecidableEq α] [BEq α] {β : Type}
    (k : α) (v : β) (l : List (α × List β)) (h : l.lookup k = Option.none) :
    alAppend k v l = l ++ [(k, [v])] := by
  simp [alAppend, h]

theorem lookup_map_setSendval (l : List (Nat × TaskObj)) (k : Nat) (v : Value) :
    (l.map (fun p => if p.1 = k then (p.1, { p.2 with sendval := v }) else p)).lookup k
      = (l.lookup k).map (fun tk => { tk with sendval := v }) :=
  lookup_map_upd l k (fun tk => { tk with sendval := v })

/-- C4's notification half: a `WAIT_ALL` waiter registered alone on a set of
tasks stays off the ready queue while any of them remains, and on the last
exit is enqueued once, at the back, carrying the last exiting tid. -/
theorem waitall_exit_fold (π : List Nat) (w : Nat) :
    ∀ (s : Sched) (rem : List Nat), rem.Perm π → π.Nodup → w ∉ π →
    s.exit_waiting = rem.map (fun x => (x, [w])) →
    (s.taskmap.lookup w).map (fun tk => tk.waitmode) = Option.some WaitMode.all →
    w ∉ s.paused_in_syscall →
    ∀ (hne : π ≠ []),
    ((π.foldl (fun st t => exit t st) s)).ready = s.ready ++ [w] ∧
    (((π.foldl (fun st t => exit t st) s)).taskmap.lookup w).map (fun tk => tk.sendval) =
      Option.some (Value.nat (π.getLast hne)) ∧
    ((π.foldl (fun st t => exit t st) s)).exit_waiting = [] ∧
    (∀ pre suf, π = pre ++ suf → suf ≠ [] →
      ((pre.foldl (fun st t => exit t st) s)).ready = s.ready) := by
  induction π with
  | nil => intro s rem _ _ _ _ _ _ hne; exact absurd rfl hne
  | cons t π' ih =>
      intro s rem hperm hnd hw hreg hmode hp hne
      have hwt : w ≠ t := fun h => hw (h ▸ List.mem_cons_self _ _)
      have hmem : t ∈ rem := hperm.mem_iff.mpr (List.mem_cons_self _ _)
      have htk : ∃ tk, s.taskmap.lookup w = Option.some tk := by
        rcases ho : s.taskmap.lookup w with _ | tk
        · rw [ho] at hmode; simp at hmode
        · exact ⟨tk, rfl⟩
      by_cases hc : π' = []
      case pos =>
          subst hc
          have hrem : rem = [t] := List.perm_singleton.mp hperm
          subst hrem
          have hfnil : ([t].filter (fun x => x ≠ t)) = [] := by simp
          have hlast := exit_reg_last t w s [t] hreg hmem hwt hmode hp hfnil
          refine ⟨?_, ?_, ?_, ?_⟩
          · simp only [List.foldl_cons, List.foldl_nil, hlast]
          · simp only [List.foldl_cons, List.foldl_nil, hlast]
            obtain ⟨tk, htk⟩ := htk
            rw [lookup_map_setSendval]
            rw [lookup_filter_ne_key s.taskmap t w hwt, htk]
            rfl
          · simp only [List.foldl_cons, List.foldl_nil, hlast]
          · intro pre suf hps hsuf
            cases pre with
            | nil => rfl
            | cons a pre' =>
                exfalso
                apply hsuf
                have hlen : ([t] : List Nat).length = (a :: pre' ++ suf).length :=
                  congrArg List.length hps
                simp only [List.length_cons, List.length_append, List.length_nil] at hlen
                have hz : suf.length = 0 := by omega
                exact List.length_eq_zero.mp hz
      case neg =>
          have hπne : π' ≠ [] := hc
          have hw' : w ∉ π' := fun h => hw (List.mem_cons_of_mem _ h)
          have ht' : t ∉ π' := (List.nodup_cons.mp hnd).1
          have hnd' : π'.Nodup := (List.nodup_cons.mp hnd).2
          have hfilt : π'.filter (fun x => x ≠ t) = π' := by
            apply List.filter_eq_self.mpr
            intro a ha
            simp only [decide_eq_true_eq]
            exact fun h => ht' (h ▸ ha)
          have hpermF : (rem.filter (fun x => x ≠ t)).Perm π' := by
            have h1 : (rem.filter (fun x => x ≠ t)).Perm ((t :: π').filter (fun x => x ≠ t)) :=
              hperm.filter _
            have h2 : ((t :: π').filter (fun x => x ≠ t)) = π' := by
              rw [List.filter_cons]
              rw [if_neg (by simp)]
              exact hfilt
            rw [h2] at h1
            exact h1
          have hfne : rem.filter (fun x => x ≠ t) ≠ [] := by
            intro hcc
            have hl := hpermF.length_eq
            rw [hcc] at hl
            exact hπne (List.length_eq_zero.mp hl.symm)
          have hmid := exit_reg_mid t w s rem hreg hmem hwt hmode hfne
          have ihres := ih { s with taskmap := s.taskmap.filter (fun p => p.1 ≠ t), exit_waiting := (rem.filter (fun x => x ≠ t)).map (fun x => (x, [w])) } (rem.filter (fun x => x ≠ t)) hpermF hnd' hw' rfl (by simp only; rw [lookup_filter_ne_key s.taskmap t w hwt]; exact hmode) hp hπne
          obtain ⟨ihready, ihsend, ihew, ihpre⟩ := ihres
          refine ⟨?_, ?_, ?_, ?_⟩
          · rw [List.foldl_cons, hmid]
            exact ihready
          · rw [List.foldl_cons, hmid]
            rw [List.getLast_cons hπne]
            exact ihsend
          · rw [List.foldl_cons, hmid]
            exact ihew
          · intro pre suf hps hsuf
            cases pre with
            | nil => rfl
            | cons a pre' =>
                have ha : t = a ∧ π' = pre' ++ suf := by
                  have h2 := hps
                  rw [List.cons_append] at h2
                  exact ⟨(List.cons.injEq _ _ _ _ |>.mp h2).1,
                         (List.cons.injEq _ _ _ _ |>.mp h2).2⟩
                obtain ⟨rfl, hπ2⟩ := ha
                rw [List.foldl_cons, hmid]
                exact ihpre pre' suf hπ2 hsuf

end Teer

namespace Teer

/-- The `WaitAllTasks.handle` body, spelled out. -/
theorem handle_waitAll_eq (tids : List Nat) (caller : Nat) (s : Sched) :
    handle (Request.waitAllTasks tids) caller s =
      (let p := tids.foldl
          (fun (acc : Bool × Sched) t =>
            let q := wait_for_exit caller t acc.2
            (acc.1 || q.1, q.2))
          (false, setWaitmode caller WaitMode.all s)
       if p.1 then setSendval caller (Value.bool true) p.2
       else schedule caller (setSendval caller (Value.bool false) p.2)) := rfl

theorem waitall_fold_snd (ts : List Nat) (c : Nat) :
    ∀ (b : Bool) (st : Sched),
      ((ts.foldl (fun (acc : Bool × Sched) t =>
          let q := wait_for_exit c t acc.2
          (acc.1 || q.1, q.2)) (b, st)).2)
        = ts.foldl (fun st t => (wait_for_exit c t st).2) st := by
  induction ts with
  | nil => intro b st; rfl
  | cons t rest ih => intro b st; exact ih _ _

theorem waitall_fold_none (ts : List Nat) (c : Nat) (st : Sched)
    (hnone : ∀ t ∈ ts, (st.taskmap.lookup t).isNone = true) :
    (ts.foldl (fun (acc : Bool × Sched) t =>
        let q := wait_for_exit c t acc.2
        (acc.1 || q.1, q.2)) (false, st)) = (false, st) := by
  induction ts with
  | nil => rfl
  | cons t rest ih =>
      have ht := hnone t (List.mem_cons_self _ _)
      have hq : wait_for_exit c t st = (false, st) := by
        unfold wait_for_exit
        rw [if_neg]
        simp only [Option.isNone_iff_eq_none] at ht
        simp [ht]
      rw [List.foldl_cons]
      simp only [hq]
      exact ih (fun t' ht' => hnone t' (List.mem_cons_of_mem _ ht'))

theorem waitall_fold_fst_true (ts : List Nat) (c : Nat) :
    ∀ (st : Sched),
      ((ts.foldl (fun (acc : Bool × Sched) t =>
          let q := wait_for_exit c t acc.2
          (acc.1 || q.1, q.2)) (true, st)).1) = true := by
  induction ts with
  | nil => intro st; rfl
  | cons t rest ih => intro st; exact ih _

theorem waitall_fold_fst_all (ts : List Nat) (c : Nat) (st : Sched)
    (hall : ∀ t ∈ ts, (st.taskmap.lookup t).isSome = true) (hne : ts ≠ []) :
    ((ts.foldl (fun (acc : Bool × Sched) t =>
        let q := wait_for_exit c t acc.2
        (acc.1 || q.1, q.2)) (false, st)).1) = true := by
  cases ts with
  | nil => exact absurd rfl hne
  | cons t rest =>
      have ht := hall t (List.mem_cons_self _ _)
      have hq : (wait_for_exit c t st).1 = true := by
        unfold wait_for_exit
        rw [if_pos ht]
      rw [List.foldl_cons]
      have : ((false || (wait_for_exit c t st).1), (wait_for_exit c t st).2)
          = (true, (wait_for_exit c t st).2) := by
        rw [hq]; rfl
      simp only at this ⊢
      rw [this]
      exact waitall_fold_fst_true rest c _

/-- Folded `wait_for_exit` over fresh distinct live tids extends a
single-waiter registry by one single-waiter entry per tid, in order. -/
theorem wfe_fold_shape (ts : List Nat) (c : Nat) :
    ∀ (s : Sched) (pre : List Nat),
      (pre ++ ts).Nodup →
      (∀ t ∈ ts, (s.taskmap.lookup t).isSome = true) →
      s.exit_waiting = pre.map (fun t => (t, [c])) →
      (ts.foldl (fun st t => (wait_for_exit c t st).2) s).exit_waiting
        = (pre ++ ts).map (fun t => (t, [c])) := by
  induction ts with
  | nil => intro s pre _ _ hew; simpa using hew
  | cons t0 rest ih =>
      intro s pre hnd hall hew
      have ht0 : (s.taskmap.lookup t0).isSome = true := hall t0 (List.mem_cons_self _ _)
      have ht0pre : t0 ∉ pre := by
        intro hmem
        have hd := List.disjoint_of_nodup_append hnd
        exact hd hmem (List.mem_cons_self _ _)
      have hstep : ((wait_for_exit c t0 s).2).exit_waiting
          = (pre ++ [t0]).map (fun t => (t, [c])) := by
        unfold wait_for_exit
        rw [if_pos ht0]
        simp only [hew]
        rw [alAppend_of_none _ _ _ (lookup_map_pair_none pre t0 [c] ht0pre)]
        rw [List.map_append]
        rfl
      rw [List.foldl_cons]
      have hres := ih ((wait_for_exit c t0 s).2) (pre ++ [t0])
        (by rwa [List.append_assoc, List.singleton_append])
        (by intro t ht; rw [wait_for_exit_taskmap]; exact hall t (List.mem_cons_of_mem _ ht))
        hstep
      rw [hres, List.append_assoc, List.singleton_append]

/-- Folded `wait_for_exit` over a mixed list registers exactly the live
tids, in order: dead ids are skipped, live distinct ids each extend a
single-waiter registry by one single-waiter entry. -/
theorem wfe_fold_shape_sub (c : Nat) : ∀ (ts : List Nat) (s : Sched) (pre : List Nat),
    (pre ++ ts.filter (fun t => (s.taskmap.lookup t).isSome)).Nodup →
    s.exit_waiting = pre.map (fun t => (t, [c])) →
    (ts.foldl (fun st t => (wait_for_exit c t st).2) s).exit_waiting
      = (pre ++ ts.filter (fun t => (s.taskmap.lookup t).isSome)).map (fun t => (t, [c])) := by
  intro ts
  induction ts with
  | nil => intro s pre _ hew; simpa using hew
  | cons t0 rest ih =>
      intro s pre hnd hew
      rw [List.foldl_cons]
      by_cases h0 : (s.taskmap.lookup t0).isSome = true
      · have hfil : (t0 :: rest).filter (fun t => (s.taskmap.lookup t).isSome)
            = t0 :: rest.filter (fun t => (s.taskmap.lookup t).isSome) := by
          rw [List.filter_cons, if_pos (by simpa using h0)]
        rw [hfil] at hnd ⊢
        have ht0pre : t0 ∉ pre := by
          intro hmem
          have hd := List.disjoint_of_nodup_append hnd
          exact hd hmem (List.mem_cons_self _ _)
        have hstep : ((wait_for_exit c t0 s).2).exit_waiting
            = (pre ++ [t0]).map (fun t => (t, [c])) := by
          unfold wait_for_exit
          rw [if_pos h0]
          simp only [hew]
          rw [alAppend_of_none _ _ _ (lookup_map_pair_none pre t0 [c] ht0pre)]
          rw [List.map_append]
          rfl
        have htm : ((wait_for_exit c t0 s).2).taskmap = s.taskmap :=
          wait_for_exit_taskmap c t0 s
        have hres := ih ((wait_for_exit c t0 s).2) (pre ++ [t0])
          (by rw [htm, List.append_assoc, List.singleton_append]; exact hnd)
          hstep
        rw [htm] at hres
        rw [hres, List.append_assoc, List.singleton_append]
      · have hq : (wait_for_exit c t0 s).2 = s := by
          unfold wait_for_exit
          rw [if_neg h0]
        have hfil : (t0 :: rest).filter (fun t => (s.taskmap.lookup t).isSome)
            = rest.filter (fun t => (s.taskmap.lookup t).isSome) := by
          rw [List.filter_cons, if_neg (by simpa using h0)]
        rw [hfil] at hnd ⊢
        rw [hq]
        exact ih s pre hnd hew

/-- `any_exist` in `WaitAllTasks.handle` comes out true as soon as one
listed id is live. -/
theorem waitall_fold_fst_any (c : Nat) : ∀ (ts : List Nat) (st : Sched) (b : Bool),
    (∃ t ∈ ts, (st.taskmap.lookup t).isSome = true) →
    ((ts.foldl (fun (acc : Bool × Sched) t =>
        let q := wait_for_exit c t acc.2
        (acc.1 || q.1, q.2)) (b, st)).1) = true := by
  intro ts
  induction ts with
  | nil =>
      intro st b hex
      obtain ⟨t, ht, _⟩ := hex
      exact absurd ht (List.not_mem_nil t)
  | cons t0 rest ih =>
      intro st b hex
      rw [List.foldl_cons]
      by_cases h0 : (st.taskmap.lookup t0).isSome = true
      · have hq : (wait_for_exit c t0 st).1 = true := by
          unfold wait_for_exit
          rw [if_pos h0]
        show (rest.foldl (fun (acc : Bool × Sched) t =>
            let q := wait_for_exit c t acc.2
            (acc.1 || q.1, q.2))
          ((b || (wait_for_exit c t0 st).1), (wait_for_exit c t0 st).2)).1 = true
        rw [hq, Bool.or_true]
        exact waitall_fold_fst_true rest c _
      · obtain ⟨t, ht, hts⟩ := hex
        have htr : t ∈ rest := by
          rcases List.mem_cons.mp ht with rfl | h
          · exact absurd hts h0
          · exact h
        refine ih _ _ ⟨t, htr, ?_⟩
        rw [wait_for_exit_taskmap]
        exact hts

end Teer

namespace Teer

/-! ### C4 -/

/-- C4: `WaitAllTasks.handle` registers the caller with mode `WAIT_ALL` on
every id of the set that exists.  If none of the ids exist it resolves
immediately with `False` (the caller is re-enqueued and watches nothing).
If all exist (starting from an empty registry, with distinct ids) the
caller parks, registered on each id; thereafter, folding `Scheduler.exit`
over the watched tasks in any order keeps the caller off the ready queue
for every proper prefix, and the last exit enqueues it exactly once — at
the back — with the last exiting task's id as its resume value, emptying
the registry.  In general (mixed live and dead ids, conjuncts four and
five) the registration lands on exactly the live subset, in order; as
soon as one id is live the caller parks with the pending success flag
`True`; and folding `Scheduler.exit` over any order of that live subset
keeps the caller parked through every proper prefix and wakes it exactly
once at the last exit, with that task's id as its resume value. -/
theorem claim_C4 (s : Sched) (caller : Nat) (tids : List Nat) (tk : TaskObj)
    (htk : s.taskmap.lookup caller = Option.some tk)
    (hp : caller ∉ s.paused_in_syscall) :
    ((∀ t ∈ tids, (s.taskmap.lookup t).isNone = true) →
      (handle (Request.waitAllTasks tids) caller s).exit_waiting = s.exit_waiting ∧
      (handle (Request.waitAllTasks tids) caller s).ready = s.ready ++ [caller] ∧
      (handle (Request.waitAllTasks tids) caller s).taskmap.lookup caller =
        Option.some { tk with sendval := Value.bool false, waitmode := WaitMode.all }) ∧
    ((∀ t ∈ tids, (s.taskmap.lookup t).isSome = true) → tids ≠ [] → tids.Nodup →
      s.exit_waiting = [] →
      (handle (Request.waitAllTasks tids) caller s).ready = s.ready ∧
      (handle (Request.waitAllTasks tids) caller s).exit_waiting =
        tids.map (fun t => (t, [caller])) ∧
      (handle (Request.waitAllTasks tids) caller s).taskmap.lookup caller =
        Option.some { tk with sendval := Value.bool true, waitmode := WaitMode.all }) ∧
    (∀ (π : List Nat) (s' : Sched), tids.Perm π → π.Nodup → caller ∉ π →
      s'.exit_waiting = tids.map (fun t => (t, [caller])) →
      (s'.taskmap.lookup caller).map (fun tk2 => tk2.waitmode) = Option.some WaitMode.all →
      caller ∉ s'.paused_in_syscall →
      ∀ (hne : π ≠ []),
      ((π.foldl (fun st t => exit t st) s')).ready = s'.ready ++ [caller] ∧
      (((π.foldl (fun st t => exit t st) s')).taskmap.lookup caller).map
          (fun tk2 => tk2.sendval) = Option.some (Value.nat (π.getLast hne)) ∧
      ((π.foldl (fun st t => exit t st) s')).exit_waiting = [] ∧
      (∀ pre suf, π = pre ++ suf → suf ≠ [] →
        ((pre.foldl (fun st t => exit t st) s')).ready = s'.ready)) ∧
    (tids.Nodup → s.exit_waiting = [] →
      (handle (Request.waitAllTasks tids) caller s).exit_waiting
        = (tids.filter (fun t => (s.taskmap.lookup t).isSome)).map (fun t => (t, [caller])) ∧
      ((∃ t ∈ tids, (s.taskmap.lookup t).isSome = true) →
        (handle (Request.waitAllTasks tids) caller s).ready = s.ready ∧
        (handle (Request.waitAllTasks tids) caller s).taskmap.lookup caller =
          Option.some { tk with sendval := Value.bool true, waitmode := WaitMode.all })) ∧
    (∀ (π : List Nat) (s' : Sched),
      (tids.filter (fun t => (s.taskmap.lookup t).isSome)).Perm π → π.Nodup → caller ∉ π →
      s'.exit_waiting
        = (tids.filter (fun t => (s.taskmap.lookup t).isSome)).map (fun t => (t, [caller])) →
      (s'.taskmap.lookup caller).map (fun tk2 => tk2.waitmode) = Option.some WaitMode.all →
      caller ∉ s'.paused_in_syscall →
      ∀ (hne : π ≠ []),
      ((π.foldl (fun st t => exit t st) s')).ready = s'.ready ++ [caller] ∧
      (((π.foldl (fun st t => exit t st) s')).taskmap.lookup caller).map
          (fun tk2 => tk2.sendval) = Option.some (Value.nat (π.getLast hne)) ∧
      ((π.foldl (fun st t => exit t st) s')).exit_waiting = [] ∧
      (∀ pre suf, π = pre ++ suf → suf ≠ [] →
        ((pre.foldl (fun st t => exit t st) s')).ready = s'.ready)) := by
  refine ⟨?_, ?_, ?_, ?_, ?_⟩
  · intro hnone
    have hnone0 : ∀ t ∈ tids,
        (((setWaitmode caller WaitMode.all s).taskmap.lookup t)).isNone = true := by
      intro t ht
      unfold setWaitmode
      rw [modifyTask_lookup_isNone]
      exact hnone t ht
    rw [handle_waitAll_eq]
    simp only [waitall_fold_none tids caller _ hnone0, Bool.false_eq_true, if_false]
    refine ⟨?_, ?_, ?_⟩
    · rw [schedule_exit_waiting]
      rfl
    · rw [schedule_ready_of_not_paused
        (show caller ∉ (setSendval caller (Value.bool false)
          (setWaitmode caller WaitMode.all s)).paused_in_syscall from hp)]
      rfl
    · rw [schedule_taskmap]
      unfold setSendval setWaitmode
      rw [modifyTask_lookup_self, modifyTask_lookup_self, htk]
      rfl
  · intro hall hne hnd hew
    have hall0 : ∀ t ∈ tids,
        (((setWaitmode caller WaitMode.all s).taskmap.lookup t)).isSome = true := by
      intro t ht
      unfold setWaitmode
      rw [modifyTask_lookup_isSome]
      exact hall t ht
    rw [handle_waitAll_eq]
    simp only [waitall_fold_fst_all tids caller _ hall0 hne, if_true,
      waitall_fold_snd tids caller]
    refine ⟨?_, ?_, ?_⟩
    · rw [setSendval_ready, wfe_fold_ready]
      rfl
    · show (setSendval caller (Value.bool true) _).exit_waiting = _
      unfold setSendval
      rw [modifyTask_exit_waiting]
      exact wfe_fold_shape tids caller _ [] (by simpa using hnd) hall0
        (by rw [show (setWaitmode caller WaitMode.all s).exit_waiting = s.exit_waiting from rfl,
              hew]
            rfl)
    · unfold setSendval
      rw [modifyTask_lookup_self, wfe_fold_taskmap]
      unfold setWaitmode
      rw [modifyTask_lookup_self, htk]
      rfl
  · intro π s' hperm hnd hcπ hreg hmode hps hne
    exact waitall_exit_fold π caller s' tids hperm hnd hcπ hreg hmode hps hne
  · intro hnd hew
    have hfeq : tids.filter (fun t => ((setWaitmode caller WaitMode.all s).taskmap.lookup t).isSome)
        = tids.filter (fun t => (s.taskmap.lookup t).isSome) :=
      List.filter_congr (fun t _ => modifyTask_lookup_isSome caller _ s t)
    have hshape : ((tids.foldl (fun st t => (wait_for_exit caller t st).2)
        (setWaitmode caller WaitMode.all s))).exit_waiting
        = (tids.filter (fun t => (s.taskmap.lookup t).isSome)).map (fun t => (t, [caller])) := by
      have h0 := wfe_fold_shape_sub caller tids (setWaitmode caller WaitMode.all s) []
        (by
          rw [List.nil_append, hfeq]
          exact hnd.filter _)
        (by
          rw [show (setWaitmode caller WaitMode.all s).exit_waiting = s.exit_waiting from rfl,
            hew]
          rfl)
      rw [hfeq] at h0
      rw [h0, List.nil_append]
    constructor
    · rw [handle_waitAll_eq]
      try simp only
      split
      · show (setSendval caller (Value.bool true) _).exit_waiting = _
        unfold setSendval
        rw [modifyTask_exit_waiting]
        rw [waitall_fold_snd tids caller]
        exact hshape
      · rw [schedule_exit_waiting]
        show (setSendval caller (Value.bool false) _).exit_waiting = _
        unfold setSendval
        rw [modifyTask_exit_waiting]
        rw [waitall_fold_snd tids caller]
        exact hshape
    · intro hex
      have hex0 : ∃ t ∈ tids,
          ((setWaitmode caller WaitMode.all s).taskmap.lookup t).isSome = true := by
        obtain ⟨t, ht, hs0⟩ := hex
        refine ⟨t, ht, ?_⟩
        unfold setWaitmode
        rw [modifyTask_lookup_isSome]
        exact hs0
      rw [handle_waitAll_eq]
      simp only [waitall_fold_fst_any caller tids _ false hex0, if_true,
        waitall_fold_snd tids caller]
      constructor
      · rw [setSendval_ready, wfe_fold_ready]
        rfl
      · unfold setSendval
        rw [modifyTask_lookup_self, wfe_fold_taskmap]
        unfold setWaitmode
        rw [modifyTask_lookup_self, htk]
        rfl
  · intro π s' hperm hnd hcπ hreg hmode hps hne
    exact waitall_exit_fold π caller s'
      (tids.filter (fun t => (s.taskmap.lookup t).isSome))
      hperm hnd hcπ hreg hmode hps hne

end Teer

namespace Teer

/-- Caller 1 and watched tasks 2 and 3, all live, nothing registered. -/
def c4state : Sched :=
  { Sched.empty with
      nextTid := 3
      taskmap := [(1, freshTask genStop), (2, freshTask genStop), (3, freshTask genStop)] }

/-- C4 witness: `claim_C4` at `c4state`, caller 1, ids `[2, 5]` — id 2
live, id 5 dead, so the partial-existence conjuncts bite. -/
theorem claim_C4_witness :
    ((∀ t ∈ [2, 5], (c4state.taskmap.lookup t).isNone = true) →
      (handle (Request.waitAllTasks [2, 5]) 1 c4state).exit_waiting = c4state.exit_waiting ∧
      (handle (Request.waitAllTasks [2, 5]) 1 c4state).ready = c4state.ready ++ [1] ∧
      (handle (Request.waitAllTasks [2, 5]) 1 c4state).taskmap.lookup 1 =
        Option.some { freshTask genStop with sendval := Value.bool false, waitmode := WaitMode.all }) ∧
    ((∀ t ∈ [2, 5], (c4state.taskmap.lookup t).isSome = true) → ([2, 5] : List Nat) ≠ [] →
      ([2, 5] : List Nat).Nodup → c4state.exit_waiting = [] →
      (handle (Request.waitAllTasks [2, 5]) 1 c4state).ready = c4state.ready ∧
      (handle (Request.waitAllTasks [2, 5]) 1 c4state).exit_waiting =
        ([2, 5] : List Nat).map (fun t => (t, [1])) ∧
      (handle (Request.waitAllTasks [2, 5]) 1 c4state).taskmap.lookup 1 =
        Option.some { freshTask genStop with sendval := Value.bool true, waitmode := WaitMode.all }) ∧
    (∀ (π : List Nat) (s' : Sched), ([2, 5] : List Nat).Perm π → π.Nodup → 1 ∉ π →
      s'.exit_waiting = ([2, 5] : List Nat).map (fun t => (t, [1])) →
      (s'.taskmap.lookup 1).map (fun tk2 => tk2.waitmode) = Option.some WaitMode.all →
      1 ∉ s'.paused_in_syscall →
      ∀ (hne : π ≠ []),
      ((π.foldl (fun st t => exit t st) s')).ready = s'.ready ++ [1] ∧
      (((π.foldl (fun st t => exit t st) s')).taskmap.lookup 1).map
          (fun tk2 => tk2.sendval) = Option.some (Value.nat (π.getLast hne)) ∧
      ((π.foldl (fun st t => exit t st) s')).exit_waiting = [] ∧
      (∀ pre suf, π = pre ++ suf → suf ≠ [] →
        ((pre.foldl (fun st t => exit t st) s')).ready = s'.ready)) ∧
    (([2, 5] : List Nat).Nodup → c4state.exit_waiting = [] →
      (handle (Request.waitAllTasks [2, 5]) 1 c4state).exit_waiting
        = (([2, 5] : List Nat).filter
            (fun t => (c4state.taskmap.lookup t).isSome)).map (fun t => (t, [1])) ∧
      ((∃ t ∈ [2, 5], (c4state.taskmap.lookup t).isSome = true) →
        (handle (Request.waitAllTasks [2, 5]) 1 c4state).ready = c4state.ready ∧
        (handle (Request.waitAllTasks [2, 5]) 1 c4state).taskmap.lookup 1 =
          Option.some { freshTask genStop with sendval := Value.bool true, waitmode := WaitMode.all })) ∧
    (∀ (π : List Nat) (s' : Sched),
      (([2, 5] : List Nat).filter (fun t => (c4state.taskmap.lookup t).isSome)).Perm π →
      π.Nodup → 1 ∉ π →
      s'.exit_waiting
        = (([2, 5] : List Nat).filter
            (fun t => (c4state.taskmap.lookup t).isSome)).map (fun t => (t, [1])) →
      (s'.taskmap.lookup 1).map (fun tk2 => tk2.waitmode) = Option.some WaitMode.all →
      1 ∉ s'.paused_in_syscall →
      ∀ (hne : π ≠ []),
      ((π.foldl (fun st t => exit t st) s')).ready = s'.ready ++ [1] ∧
      (((π.foldl (fun st t => exit t st) s')).taskmap.lookup 1).map
          (fun tk2 => tk2.sendval) = Option.some (Value.nat (π.getLast hne)) ∧
      ((π.foldl (fun st t => exit t st) s')).exit_waiting = [] ∧
      (∀ pre suf, π = pre ++ suf → suf ≠ [] →
        ((pre.foldl (fun st t => exit t st) s')).ready = s'.ready)) :=
  claim_C4 c4state 1 [2, 5] (freshTask genStop) rfl (by decide)

end Teer

namespace Teer

/-! ### Heap-pop ordering lemmas -/

theorem entryLe_total (a b : TimerEntry) (h : ¬ entryLe a b = true) : entryLe b a = true := by
  unfold entryLe at h ⊢
  simp only [Bool.or_eq_true, Bool.and_eq_true, decide_eq_true_eq, not_or, not_and] at h ⊢
  omega

theorem entryLe_trans (a b c : TimerEntry) (hab : entryLe a b = true)
    (hbc : entryLe b c = true) : entryLe a c = true := by
  unfold entryLe at hab hbc ⊢
  simp only [Bool.or_eq_true, Bool.and_eq_true, decide_eq_true_eq] at hab hbc ⊢
  omega

theorem popMin_eq_none (l : List TimerEntry) : popMin l = Option.none ↔ l = [] := by
  cases l with
  | nil => simp [popMin]
  | cons e rest =>
      simp only [popMin]
      constructor
      · intro h
        cases hr : popMin rest with
        | none => simp only [hr] at h; simp at h
        | some p =>
            obtain ⟨m, r⟩ := p
            simp only [hr] at h
            by_cases hle : entryLe e m = true
            · rw [if_pos hle] at h; simp at h
            · rw [if_neg hle] at h; simp at h
      · intro h; simp at h

theorem popMin_perm (l : List TimerEntry) :
    ∀ e r, popMin l = Option.some (e, r) → l.Perm (e :: r) := by
  induction l with
  | nil => intro e r h; simp [popMin] at h
  | cons a rest ih =>
      intro e r h
      simp only [popMin] at h
      cases hr : popMin rest with
      | none =>
          simp only [hr] at h
          have hrest : rest = [] := (popMin_eq_none rest).mp hr
          simp only [Option.some.injEq, Prod.mk.injEq] at h
          obtain ⟨rfl, rfl⟩ := h
          rw [hrest]
      | some p =>
          obtain ⟨m, r'⟩ := p
          simp only [hr] at h
          have hperm : rest.Perm (m :: r') := ih m r' hr
          by_cases hle : entryLe a m = true
          · rw [if_pos hle] at h
            simp only [Option.some.injEq, Prod.mk.injEq] at h
            obtain ⟨rfl, rfl⟩ := h
            exact List.Perm.refl _
          · rw [if_neg hle] at h
            simp only [Option.some.injEq, Prod.mk.injEq] at h
            obtain ⟨rfl, rfl⟩ := h
            exact (hperm.cons a).trans (List.Perm.swap m a r')

theorem popMin_min (l : List TimerEntry) :
    ∀ e r, popMin l = Option.some (e, r) → ∀ x ∈ r, entryLe e x = true := by
  induction l with
  | nil => intro e r h; simp [popMin] at h
  | cons a rest ih =>
      intro e r h
      simp only [popMin] at h
      cases hr : popMin rest with
      | none =>
          simp only [hr] at h
          simp only [Option.some.injEq, Prod.mk.injEq] at h
          obtain ⟨rfl, rfl⟩ := h
          intro x hx
          simp at hx
      | some p =>
          obtain ⟨m, r'⟩ := p
          simp only [hr] at h
          have hmin := ih m r' hr
          have hperm : rest.Perm (m :: r') := popMin_perm rest m r' hr
          by_cases hle : entryLe a m = true
          · rw [if_pos hle] at h
            simp only [Option.some.injEq, Prod.mk.injEq] at h
            obtain ⟨rfl, rfl⟩ := h
            intro x hx
            rcases List.mem_cons.mp (hperm.mem_iff.mp hx) with rfl | hxr2
            · exact hle
            · exact entryLe_trans _ _ _ hle (hmin x hxr2)
          · rw [if_neg hle] at h
            simp only [Option.some.injEq, Prod.mk.injEq] at h
            obtain ⟨rfl, rfl⟩ := h
            intro x hx
            rcases List.mem_cons.mp hx with rfl | hxr'
            · exact entryLe_total _ _ hle
            · exact hmin x hxr'

theorem popMin_length (l : List TimerEntry) (e : TimerEntry) (r : List TimerEntry)
    (h : popMin l = Option.some (e, r)) : r.length + 1 = l.length := by
  have := (popMin_perm l e r h).length_eq
  simp only [List.length_cons] at this
  omega

end Teer

namespace Teer

/-! ### No operation but `sleepS` touches `slept` or `time` -/

theorem foldl_preserve {α β : Type} (P : β → Prop) (f : β → α → β)
    (hf : ∀ b a, P b → P (f b a)) : ∀ (l : List α) (b : β), P b → P (l.foldl f b) := by
  intro l
  induction l with
  | nil => intro b hb; exact hb
  | cons a rest ih => intro b hb; exact ih _ (hf b a hb)

theorem schedule_slept (t : Nat) (s : Sched) : (schedule t s).slept = s.slept := by
  unfold schedule; split <;> rfl

theorem schedule_now_slept (t : Nat) (s : Sched) : (schedule_now t s).slept = s.slept := by
  unfold schedule_now; split <;> rfl

theorem schedule_time (t : Nat) (s : Sched) : (schedule t s).time = s.time := by
  unfold schedule; split <;> rfl

theorem schedule_now_time (t : Nat) (s : Sched) : (schedule_now t s).time = s.time := by
  unfold schedule_now; split <;> rfl

theorem fireCallback_slept (cb : Callback) (s : Sched) : (fireCallback cb s).slept = s.slept := by
  cases cb with
  | resume t => exact schedule_now_slept t s
  | resumeRate t rid => exact schedule_now_slept t _

theorem fireCallback_time (cb : Callback) (s : Sched) : (fireCallback cb s).time = s.time := by
  cases cb with
  | resume t => exact schedule_now_time t s
  | resumeRate t rid => exact schedule_now_time t _

theorem schedule_now_timer_cb (t : Nat) (s : Sched) :
    (schedule_now t s).timer_cb = s.timer_cb := by
  unfold schedule_now; split <;> rfl

theorem fireCallback_timer_cb (cb : Callback) (s : Sched) :
    (fireCallback cb s).timer_cb = s.timer_cb := by
  cases cb with
  | resume t => exact schedule_now_timer_cb t s
  | resumeRate t rid => exact schedule_now_timer_cb t _

theorem pause_task_slept (t : Option Nat) (s : Sched) : ((pause_task t s).2).slept = s.slept := by
  unfold pause_task
  rcases t with _ | tid
  · rfl
  · repeat' split
    all_goals rfl

theorem resume_task_slept (t : Option Nat) (s : Sched) : ((resume_task t s).2).slept = s.slept := by
  unfold resume_task
  rcases t with _ | tid
  · rfl
  · repeat' split
    all_goals rfl

theorem wait_for_exit_slept (c t : Nat) (s : Sched) : ((wait_for_exit c t s).2).slept = s.slept := by
  unfold wait_for_exit; split <;> rfl

theorem wait_condition_slept (t : Nat) (c : Cond) (s : Sched) :
    (wait_condition t c s).slept = s.slept := by
  unfold wait_condition
  split
  · exact schedule_now_slept t s
  · rfl

theorem test_conditions_slept (name : String) (s : Sched) :
    (test_conditions name s).slept = s.slept := by
  unfold test_conditions
  cases h : s.cond_waiting.lookup name with
  | none => rfl
  | some candidates =>
      refine foldl_preserve (fun (st : Sched) => st.slept = s.slept) _ ?_ candidates s rfl
      intro st e hst
      dsimp only
      split
      · exact hst
      · split
        · show (del_condition e (schedule e.tid st)).slept = s.slept
          rw [show (del_condition e (schedule e.tid st)).slept = (schedule e.tid st).slept from rfl]
          rw [schedule_slept]
          exact hst
        · exact hst

theorem exitNotify_slept (etid w : Nat) (st : Sched) : (exitNotify etid w st).slept = st.slept := by
  unfold exitNotify
  cases hmode : ((st.taskmap.lookup w).map (fun tk => tk.waitmode)).getD WaitMode.any with
  | any =>
      try simp only
      rw [schedule_slept]
      rfl
  | all =>
      try simp only
      split
      · rfl
      · rw [schedule_slept]
        rfl

theorem exit_slept (etid : Nat) (s : Sched) : (exit etid s).slept = s.slept := by
  unfold exit
  try simp only
  refine foldl_preserve (fun (st : Sched) => st.slept = s.slept) _ ?_ _ _ rfl
  intro st w hst
  rw [exitNotify_slept]
  exact hst

theorem new_slept (g : Gen) (s : Sched) : ((new g s).2).slept = s.slept := by
  unfold new
  try simp only
  rw [schedule_slept]

theorem rateSleep_slept (rid t : Nat) (s : Sched) : ((rateSleep rid t s).2).slept = s.slept := by
  unfold rateSleep
  cases s.rates.lookup rid with
  | none => rfl
  | some r =>
      try simp only
      split
      · rfl
      · exact schedule_slept t s

/-- No system-call handler sleeps. -/
theorem handle_slept (r : Request) (caller : Nat) (s : Sched) :
    (handle r caller s).slept = s.slept := by
  cases r with
  | getScheduler => rw [handle]; rw [schedule_slept]; rfl
  | getTid => rw [handle]; rw [schedule_slept]; rfl
  | getTids => rw [handle]; rw [schedule_slept]; rfl
  | newTask g =>
      rw [handle]
      try simp only
      rw [schedule_slept]
      rw [show (setSendval caller (Value.nat (new g s).1) (new g s).2).slept = ((new g s).2).slept from rfl]
      rw [new_slept]
  | killTask tid =>
      rw [handle]
      split
      · rw [schedule_slept]; rfl
      · rw [schedule_slept]; rfl
  | killTasks tids =>
      rw [handle]
      try simp only
      rw [schedule_slept]
      have := foldl_preserve (fun (acc : List Nat × Sched) => acc.2.slept = s.slept)
        (fun acc tid => if ((acc.2.taskmap.lookup tid).isSome = true)
          then (acc.1 ++ [tid], closeTask tid acc.2) else acc) ?_ tids ([], s) rfl
      · exact this
      · intro b a hb
        dsimp only
        split
        · exact hb
        · exact hb
  | killAllTasksExcept ex =>
      rw [handle]
      try simp only
      rw [schedule_slept]
      refine foldl_preserve (fun (st : Sched) => st.slept = s.slept) _ ?_ _ _ rfl
      intro st tid hst
      exact hst
  | waitTask tid =>
      rw [handle]
      try simp only
      split
      · exact wait_for_exit_slept caller tid s
      · rw [schedule_slept]
        exact wait_for_exit_slept caller tid s
  | waitAnyTasks tids =>
      rw [handle]
      try simp only
      split
      · refine foldl_preserve (fun (st : Sched) => st.slept = s.slept) _ ?_ _ _ rfl
        intro st t hst
        rw [wait_for_exit_slept]
        exact hst
      · rw [schedule_slept]; rfl
  | waitAllTasks tids =>
      rw [handle]
      try simp only
      have hfold : ((tids.foldl (fun (acc : Bool × Sched) t =>
          let q := wait_for_exit caller t acc.2
          (acc.1 || q.1, q.2)) (false, setWaitmode caller WaitMode.all s)).2).slept = s.slept := by
        refine foldl_preserve (fun (acc : Bool × Sched) => acc.2.slept = s.slept) _ ?_ _ _ rfl
        intro b a hb
        dsimp only
        rw [wait_for_exit_slept]
        exact hb
      split
      · exact hfold
      · rw [schedule_slept]
        exact hfold
  | pauseTask tid =>
      rw [handle]
      rw [schedule_slept]
      rw [show (setSendval caller (Value.bool (pause_task (if (s.taskmap.lookup tid).isSome = true then Option.some tid else Option.none) s).1) (pause_task (if (s.taskmap.lookup tid).isSome = true then Option.some tid else Option.none) s).2).slept = ((pause_task (if (s.taskmap.lookup tid).isSome = true then Option.some tid else Option.none) s).2).slept from rfl]
      rw [pause_task_slept]
  | pauseTasks tids =>
      rw [handle]
      try simp only
      rw [schedule_slept]
      refine foldl_preserve (fun (acc : List Nat × Sched) => acc.2.slept = s.slept) _ ?_ _ _ rfl
      intro b a hb
      dsimp only
      rw [pause_task_slept]
      exact hb
  | resumeTask tid =>
      rw [handle]
      rw [schedule_slept]
      rw [show (setSendval caller (Value.bool (resume_task (if (s.taskmap.lookup tid).isSome = true then Option.some tid else Option.none) s).1) (resume_task (if (s.taskmap.lookup tid).isSome = true then Option.some tid else Option.none) s).2).slept = ((resume_task (if (s.taskmap.lookup tid).isSome = true then Option.some tid else Option.none) s).2).slept from rfl]
      rw [resume_task_slept]
  | resumeTasks tids =>
      rw [handle]
      try simp only
      rw [schedule_slept]
      refine foldl_preserve (fun (acc : List Nat × Sched) => acc.2.slept = s.slept) _ ?_ _ _ rfl
      intro b a hb
      dsimp only
      rw [resume_task_slept]
      exact hb
  | getCurrentTime => rw [handle]; rw [schedule_slept]; rfl
  | waitDuration d => rw [handle]; rfl
  | waitCondition c =>
      rw [handle]
      rw [show (setSendval caller Value.none (wait_condition caller c s)).slept = (wait_condition caller c s).slept from rfl]
      rw [wait_condition_slept]
  | createRate dur => rw [handle]; rw [schedule_slept]; rfl
  | sleepRate rid =>
      rw [handle]
      rw [show (setSendval caller (rateSleep rid caller s).1 (rateSleep rid caller s).2).slept = ((rateSleep rid caller s).2).slept from rfl]
      rw [rateSleep_slept]
  | teerPrint msg => rw [handle]; rw [schedule_slept]

/-- `Scheduler.step` never sleeps. -/
theorem stepAux_slept (n : Nat) : ∀ (s : Sched), (stepAux n s).slept = s.slept := by
  induction n with
  | zero => intro s; rfl
  | succ n ih =>
      intro s
      rw [stepAux]
      cases s.ready with
      | nil => rfl
      | cons tid rest =>
          try simp only
          cases ({ s with ready := rest } : Sched).taskmap.lookup tid with
          | none => rw [ih]
          | some tk =>
              try simp only
              split
              · rw [ih, exit_slept]
              · cases tk.gen.send tk.sendval with
                | stop => rw [ih, exit_slept]
                | yieldPlain g => rw [ih, schedule_slept]; rfl
                | yieldReq r g => rw [ih, handle_slept]; rfl

end Teer

namespace Teer

/-- The popping loop of `timer_step` fires exactly the elapsed timers, in
ascending `(deadline, sequence)` order, and keeps exactly the future ones. -/
theorem timerStepLoop_spec : ∀ (n : Nat) (h : List TimerEntry) (s : Sched), h.length ≤ n →
    ∃ fired : List TimerEntry,
      fired.Perm (h.filter (fun e => decide (e.t - s.time ≤ 0))) ∧
      List.Pairwise (fun a b => entryLe a b = true) fired ∧
      (timerStepLoop n h s).2 = fired.foldl (fun st e => fireCallback e.cb st) s ∧
      (timerStepLoop n h s).1.Perm (h.filter (fun e => !decide (e.t - s.time ≤ 0))) ∧
      (timerStepLoop n h s).2.slept = s.slept ∧
      (timerStepLoop n h s).2.time = s.time := by
  intro n
  induction n with
  | zero =>
      intro h s hlen
      have hnil : h = [] := List.length_eq_zero.mp (Nat.le_zero.mp hlen)
      subst hnil
      exact ⟨[], by simp, by simp, rfl, by simp [timerStepLoop], rfl, rfl⟩
  | succ n ih =>
      intro h s hlen
      cases hp : popMin h with
      | none =>
          have hnil : h = [] := (popMin_eq_none h).mp hp
          subst hnil
          exact ⟨[], by simp, by simp, rfl, by simp [timerStepLoop, popMin], rfl, rfl⟩
      | some p =>
          obtain ⟨e, rest⟩ := p
          have hperm : h.Perm (e :: rest) := popMin_perm h e rest hp
          have hmin : ∀ x ∈ rest, entryLe e x = true := popMin_min h e rest hp
          have hrlen : rest.length ≤ n := by
            have := popMin_length h e rest hp
            omega
          by_cases hel : e.t - s.time ≤ 0
          · -- the earliest timer has elapsed: fire it and continue
            have hloop : timerStepLoop (n + 1) h s
                = timerStepLoop n rest (fireCallback e.cb s) := by
              simp only [timerStepLoop, hp]
              split
              · rfl
              · omega
            have htime : (fireCallback e.cb s).time = s.time := fireCallback_time e.cb s
            obtain ⟨fired', hf1, hf2, hf3, hf4, hf5, hf6⟩ := ih rest (fireCallback e.cb s) hrlen
            rw [htime] at hf1 hf4
            refine ⟨e :: fired', ?_, ?_, ?_, ?_, ?_, ?_⟩
            · have h1 : (h.filter (fun e => decide (e.t - s.time ≤ 0))).Perm
                  ((e :: rest).filter (fun e => decide (e.t - s.time ≤ 0))) :=
                hperm.filter _
              have h2 : ((e :: rest).filter (fun e => decide (e.t - s.time ≤ 0)))
                  = e :: rest.filter (fun e => decide (e.t - s.time ≤ 0)) := by
                rw [List.filter_cons]
                rw [if_pos (by simpa using hel)]
              rw [h2] at h1
              exact ((hf1.cons e).trans h1.symm)
            · refine List.pairwise_cons.mpr ⟨?_, hf2⟩
              intro x hx
              have hxrest : x ∈ rest := by
                have := hf1.mem_iff.mp hx
                exact List.mem_of_mem_filter this
              exact hmin x hxrest
            · rw [hloop, hf3, List.foldl_cons]
            · have h1 : (h.filter (fun e => !decide (e.t - s.time ≤ 0))).Perm
                  ((e :: rest).filter (fun e => !decide (e.t - s.time ≤ 0))) :=
                hperm.filter _
              have h2 : ((e :: rest).filter (fun e => !decide (e.t - s.time ≤ 0)))
                  = rest.filter (fun e => !decide (e.t - s.time ≤ 0)) := by
                rw [List.filter_cons]
                rw [if_neg (by simpa using hel)]
              rw [h2] at h1
              rw [hloop]
              exact hf4.trans h1.symm
            · rw [hloop, hf5, fireCallback_slept]
            · rw [hloop, hf6, fireCallback_time]
          · -- the earliest timer is in the future: nothing has elapsed
            have hloop : timerStepLoop (n + 1) h s = (rest ++ [e], s) := by
              simp only [timerStepLoop, hp]
              split
              · omega
              · rfl
            have hnoel : ∀ x ∈ h, ¬ (x.t - s.time ≤ 0) := by
              intro x hx
              rcases List.mem_cons.mp (hperm.mem_iff.mp hx) with rfl | hxr
              · exact hel
              · have hle := hmin x hxr
                unfold entryLe at hle
                simp only [Bool.or_eq_true, Bool.and_eq_true, decide_eq_true_eq] at hle
                omega
            refine ⟨[], ?_, by simp, ?_, ?_, ?_, ?_⟩
            · have : h.filter (fun e => decide (e.t - s.time ≤ 0)) = [] := by
                apply List.filter_eq_nil.mpr
                intro x hx
                simpa using hnoel x hx
              rw [this]
            · rw [hloop]
              rfl
            · have : h.filter (fun e => !decide (e.t - s.time ≤ 0)) = h := by
                apply List.filter_eq_self.mpr
                intro x hx
                simpa using hnoel x hx
              rw [hloop, this]
              exact (List.perm_append_singleton e rest).trans hperm.symm
            · rw [hloop]
            · rw [hloop]

/-! ### C8 -/

/-- C8: timer entries are `(deadline, insertion-sequence, callback)` triples;
a push stamps the entry with the current counter and bumps it (so sequences
strictly increase across insertions and equal deadlines pop in insertion
order); a pop yields the `(deadline, sequence)`-lexicographic minimum;
`timer_step` fires exactly the already-elapsed timers in that ascending
order, keeps exactly the later timers, then drains the ready queue once, and
never sleeps. -/
theorem claim_C8 (s : Sched) (t0 : Int) (cb : Callback) (sf : Nat) :
    (set_timer_callback t0 cb s).timer_cb
      = s.timer_cb ++ [{ t := t0, seq := s.timer_counter, cb := cb }] ∧
    (set_timer_callback t0 cb s).timer_counter = s.timer_counter + 1 ∧
    ((∀ e ∈ s.timer_cb, e.seq < s.timer_counter) →
      ∀ e ∈ (set_timer_callback t0 cb s).timer_cb,
        e.seq < (set_timer_callback t0 cb s).timer_counter) ∧
    (∀ (l : List TimerEntry) (e : TimerEntry) (r : List TimerEntry),
      popMin l = Option.some (e, r) →
      (∀ x ∈ r, entryLe e x = true) ∧ l.Perm (e :: r)) ∧
    (∃ fired : List TimerEntry,
      fired.Perm (s.timer_cb.filter (fun e => decide (e.t - s.time ≤ 0))) ∧
      List.Pairwise (fun a b => entryLe a b = true) fired ∧
      timer_step sf s = stepAux sf
        { (fired.foldl (fun st e => fireCallback e.cb st) s) with
            timer_cb := (timerStepLoop s.timer_cb.length s.timer_cb s).1 } ∧
      (timerStepLoop s.timer_cb.length s.timer_cb s).1.Perm
        (s.timer_cb.filter (fun e => !decide (e.t - s.time ≤ 0))) ∧
      (timer_step sf s).slept = s.slept) := by
  refine ⟨rfl, rfl, ?_, ?_, ?_⟩
  · intro hb e he
    rw [show (set_timer_callback t0 cb s).timer_cb
        = s.timer_cb ++ [{ t := t0, seq := s.timer_counter, cb := cb }] from rfl] at he
    rcases List.mem_append.mp he with h1 | h2
    · have := hb e h1
      show e.seq < s.timer_counter + 1
      omega
    · have : e = { t := t0, seq := s.timer_counter, cb := cb } := List.mem_singleton.mp h2
      subst this
      show s.timer_counter < s.timer_counter + 1
      omega
  · intro l e r hp
    exact ⟨popMin_min l e r hp, popMin_perm l e r hp⟩
  · obtain ⟨fired, hf1, hf2, hf3, hf4, hf5, _⟩ :=
      timerStepLoop_spec s.timer_cb.length s.timer_cb s (Nat.le_refl _)
    refine ⟨fired, hf1, hf2, ?_, hf4, ?_⟩
    · simp only [timer_step]
      rw [hf3]
    · unfold timer_step
      rw [stepAux_slept]
      show (timerStepLoop s.timer_cb.length s.timer_cb s).2.slept = s.slept
      exact hf5

end Teer

namespace Teer

/-! ### C2 -/

/-- A scheduler with one condition waiter, no timer, and no ready task. -/
def c2state : Sched :=
  { Sched.empty with
      nextTid := 9
      taskmap := [(9, freshTask genStop)]
      cond_waiting := [("x", [{ cid := 0, cond := condX, tid := 9 }])]
      nextCid := 1 }

/-- C2, counterexample: entering `TimerScheduler.run` with a condition waiter
but no pending timer does NOT complete without error — after the drain the
heap is still empty and `heapq.heappop` raises `IndexError`. -/
theorem claim_C2_cex :
    run 5 5 c2state = RunOutcome.indexError (stepAux 5 c2state) ∧
    c2state.timer_cb = [] ∧ c2state.ready = [] ∧ c2state.cond_waiting ≠ [] :=
  ⟨rfl, rfl, rfl, by simp [c2state, Sched.empty]⟩

/-- C2, amended: `TimerScheduler.run` loops while pending timers, ready tasks
or condition waiters exist; it returns normally only when all three are
empty, and when all three are empty at an iteration boundary it returns at
once.  An iteration entered with sources pending drains the ready queue and
then pops the EARLIEST timer: when the drain leaves no pending timer this
pop raises `IndexError` (so an iteration entered with only condition waiters
does NOT complete); otherwise the popped entry is `(deadline, sequence)`-
minimal, the scheduler sleeps out a non-negative remaining duration (landing
exactly on the deadline), fires the callback, and drains again. -/
theorem claim_C2 (sf n : Nat) (s : Sched) :
    ((s.timer_cb = [] ∧ s.ready = [] ∧ s.cond_waiting = []) →
      run sf (n + 1) s = RunOutcome.terminated s) ∧
    (∀ s2, run sf n s = RunOutcome.terminated s2 →
      s2.timer_cb = [] ∧ s2.ready = [] ∧ s2.cond_waiting = []) ∧
    (¬ (s.timer_cb = [] ∧ s.ready = [] ∧ s.cond_waiting = []) →
      ((stepAux sf s).timer_cb = [] →
        run sf (n + 1) s = RunOutcome.indexError (stepAux sf s)) ∧
      (∀ e rest, popMin (stepAux sf s).timer_cb = Option.some (e, rest) →
        (∀ x ∈ rest, entryLe e x = true) ∧
        run sf (n + 1) s = run sf n (stepAux sf (fireCallback e.cb
          (if e.t - (stepAux sf s).time ≥ 0
           then sleepS (e.t - (stepAux sf s).time) { (stepAux sf s) with timer_cb := rest }
           else { (stepAux sf s) with timer_cb := rest }))) ∧
        (e.t - (stepAux sf s).time ≥ 0 →
          (sleepS (e.t - (stepAux sf s).time)
            { (stepAux sf s) with timer_cb := rest }).time = e.t))) := by
  have hcond : ∀ s' : Sched,
      (!s'.timer_cb.isEmpty || !s'.ready.isEmpty || !s'.cond_waiting.isEmpty) = false ↔
      (s'.timer_cb = [] ∧ s'.ready = [] ∧ s'.cond_waiting = []) := by
    intro s'
    constructor
    · intro hb
      simp only [Bool.or_eq_false_iff, Bool.not_eq_false'] at hb
      exact ⟨List.isEmpty_iff.mp hb.1.1, List.isEmpty_iff.mp hb.1.2, List.isEmpty_iff.mp hb.2⟩
    · intro hb
      obtain ⟨h1, h2, h3⟩ := hb
      simp [h1, h2, h3]
  have run_succ : ∀ (m : Nat) (s' : Sched),
      run sf (m + 1) s' =
        (if (!s'.timer_cb.isEmpty || !s'.ready.isEmpty || !s'.cond_waiting.isEmpty) = true then
          (match popMin (stepAux sf s').timer_cb with
           | Option.none => RunOutcome.indexError (stepAux sf s')
           | Option.some (e, rest) =>
              run sf m (stepAux sf (fireCallback e.cb
                (if e.t - (stepAux sf s').time ≥ 0
                 then sleepS (e.t - (stepAux sf s').time) { (stepAux sf s') with timer_cb := rest }
                 else { (stepAux sf s') with timer_cb := rest }))))
         else RunOutcome.terminated s') := fun m s' => rfl
  refine ⟨?_, ?_, ?_⟩
  · intro hemp
    rw [run_succ]
    rw [if_neg]
    simp only [Bool.not_eq_true]
    exact (hcond s).mpr hemp
  · induction n generalizing s with
    | zero => intro s2 h; simp [run] at h
    | succ n ihn =>
        intro s2 h
        rw [run_succ] at h
        by_cases hb : (!s.timer_cb.isEmpty || !s.ready.isEmpty || !s.cond_waiting.isEmpty) = true
        · rw [if_pos hb] at h
          cases hp : popMin (stepAux sf s).timer_cb with
          | none =>
              simp only [hp] at h
              exact RunOutcome.noConfusion h
          | some p =>
              obtain ⟨e, rest⟩ := p
              simp only [hp] at h
              exact ihn _ _ h
        · rw [if_neg hb] at h
          have heq : s = s2 := by
            simpa using h
          subst heq
          exact (hcond s).mp (by simpa using hb)
  · intro hne
    have hb : (!s.timer_cb.isEmpty || !s.ready.isEmpty || !s.cond_waiting.isEmpty) = true := by
      by_contra hc
      exact hne ((hcond s).mp (by simpa using hc))
    refine ⟨?_, ?_⟩
    · intro htc
      rw [run_succ, if_pos hb]
      have hpm : popMin (stepAux sf s).timer_cb = Option.none := by
        rw [htc]; rfl
      rw [hpm]
    · intro e rest hp
      refine ⟨popMin_min _ _ _ hp, ?_, ?_⟩
      · rw [run_succ, if_pos hb, hp]
      · intro hge
        show (stepAux sf s).time + (e.t - (stepAux sf s).time) = e.t
        omega

end Teer

namespace Teer

/-! ### C6 -/

/-- Task 1 waits on task 2's exit; task 3 kills task 2. -/
def c6bodyA : Gen :=
  Gen.mk (fun _ => GenRes.yieldReq (Request.waitTask 2) (Gen.mk (fun _ => GenRes.stop)))

/-- Task 2 just yields plainly. -/
def c6bodyB : Gen :=
  Gen.mk (fun _ => GenRes.yieldPlain (Gen.mk (fun _ => GenRes.yieldPlain
    (Gen.mk (fun _ => GenRes.stop)))))

/-- Task 3 kills task 2, then parks on a timer. -/
def c6bodyK : Gen :=
  Gen.mk (fun _ => GenRes.yieldReq (Request.killTask 2)
    (Gen.mk (fun _ => GenRes.yieldReq (Request.waitDuration 1)
      (Gen.mk (fun _ => GenRes.stop)))))

/-- Tasks 1 (watcher), 2 (victim), 3 (killer), all freshly created. -/
def c6s0 : Sched := new1 c6bodyK (new1 c6bodyB (new1 c6bodyA Sched.empty))

/-- C6, counterexample: after three trampoline iterations task 1 is a
registered exit-watcher of task 2, and task 2 has been killed
(`closed = true`) while sitting in the ready queue.  Running the trampoline
on (`step()` continuing) resumes killed task 2, which raises
`StopIteration`, and the exit-notification protocol DOES run: watcher 1 is
woken with resume value 2, runs, and exits — the final task table holds only
task 3 and the registration is resolved.  Had no watcher been woken, task 1
would still be parked in the table and `exit_waiting` would still hold its
registration. -/
theorem claim_C6_cex :
    (stepAux 3 c6s0).exit_waiting = [(2, [1])] ∧
    ((stepAux 3 c6s0).taskmap.lookup 2).map (fun tk => tk.closed) = Option.some true ∧
    (stepAux 3 c6s0).ready = [2, 3] ∧
    (stepAux 10 c6s0).taskmap.map (fun p => p.1) = [3] ∧
    (stepAux 10 c6s0).exit_waiting = [] :=
  ⟨rfl, rfl, rfl, rfl, rfl⟩

/-- C6, amended: the kill system calls themselves never run the exit
notification protocol — immediately after `KillTask`, `KillTasks` or
`KillAllTasksExcept` handling, the exit-wait registry is unchanged and the
ready queue has only gained the caller.  However, a killed task left in the
ready queue is resumed by the next `step()` iteration, raises
`StopIteration`, and the full exit protocol (`Scheduler.exit`) runs for it
then; only a killed task that is never resumed again skips notification. -/
theorem claim_C6 (s : Sched) (caller tid : Nat) (tids ex : List Nat)
    (hp : caller ∉ s.paused_in_syscall) :
    (handle (Request.killTask tid) caller s).exit_waiting = s.exit_waiting ∧
    (handle (Request.killTask tid) caller s).ready = s.ready ++ [caller] ∧
    (handle (Request.killTasks tids) caller s).exit_waiting = s.exit_waiting ∧
    (handle (Request.killTasks tids) caller s).ready = s.ready ++ [caller] ∧
    (handle (Request.killAllTasksExcept ex) caller s).exit_waiting = s.exit_waiting ∧
    (handle (Request.killAllTasksExcept ex) caller s).ready = s.ready ++ [caller] ∧
    (∀ (b : Nat) (rest : List Nat) (tk : TaskObj) (n : Nat),
      s.ready = b :: rest → s.taskmap.lookup b = Option.some tk → tk.closed = true →
      stepAux (n + 1) s = stepAux n (exit b { s with ready := rest })) := by
  have hkt : ∀ (tids' : List Nat),
      ((tids'.foldl (fun (acc : List Nat × Sched) t =>
          if ((acc.2.taskmap.lookup t).isSome = true)
          then (acc.1 ++ [t], closeTask t acc.2) else acc) ([], s)).2).exit_waiting
        = s.exit_waiting ∧
      ((tids'.foldl (fun (acc : List Nat × Sched) t =>
          if ((acc.2.taskmap.lookup t).isSome = true)
          then (acc.1 ++ [t], closeTask t acc.2) else acc) ([], s)).2).ready = s.ready ∧
      ((tids'.foldl (fun (acc : List Nat × Sched) t =>
          if ((acc.2.taskmap.lookup t).isSome = true)
          then (acc.1 ++ [t], closeTask t acc.2) else acc) ([], s)).2).paused_in_syscall
        = s.paused_in_syscall := by
    intro tids'
    refine foldl_preserve (fun (acc : List Nat × Sched) =>
      acc.2.exit_waiting = s.exit_waiting ∧ acc.2.ready = s.ready ∧
      acc.2.paused_in_syscall = s.paused_in_syscall) _ ?_ tids' ([], s) ⟨rfl, rfl, rfl⟩
    intro b a hb
    dsimp only
    split
    · exact hb
    · exact hb
  have hkae : ∀ (vs : List Nat),
      ((vs.foldl (fun st t => closeTask t st) s)).exit_waiting = s.exit_waiting ∧
      ((vs.foldl (fun st t => closeTask t st) s)).ready = s.ready ∧
      ((vs.foldl (fun st t => closeTask t st) s)).paused_in_syscall = s.paused_in_syscall := by
    intro vs
    refine foldl_preserve (fun (st : Sched) =>
      st.exit_waiting = s.exit_waiting ∧ st.ready = s.ready ∧
      st.paused_in_syscall = s.paused_in_syscall) _ ?_ vs s ⟨rfl, rfl, rfl⟩
    intro b a hb
    exact hb
  refine ⟨?_, ?_, ?_, ?_, ?_, ?_, ?_⟩
  · rw [handle]
    split
    · rw [schedule_exit_waiting]; rfl
    · rw [schedule_exit_waiting]; rfl
  · rw [handle]
    split
    · rw [schedule_ready_of_not_paused (show caller ∉ (setSendval caller (Value.bool true) (closeTask tid s)).paused_in_syscall from hp)]
      rfl
    · rw [schedule_ready_of_not_paused (show caller ∉ (setSendval caller (Value.bool false) s).paused_in_syscall from hp)]
      rfl
  · rw [handle]
    try simp only
    rw [schedule_exit_waiting]
    rw [show ∀ (p : List Nat × Sched), (setSendval caller (Value.natList p.1) p.2).exit_waiting = p.2.exit_waiting from fun p => rfl]
    exact (hkt tids).1
  · rw [handle]
    try simp only
    have hps := (hkt tids).2.2
    rw [schedule_ready_of_not_paused (by
      rw [show ∀ (p : List Nat × Sched), (setSendval caller (Value.natList p.1) p.2).paused_in_syscall = p.2.paused_in_syscall from fun p => rfl]
      rw [hps]
      exact hp)]
    rw [show ∀ (p : List Nat × Sched), (setSendval caller (Value.natList p.1) p.2).ready = p.2.ready from fun p => rfl]
    rw [(hkt tids).2.1]
  · rw [handle]
    try simp only
    rw [schedule_exit_waiting]
    exact (hkae _).1
  · rw [handle]
    try simp only
    have hps := (hkae ((s.taskmap.filter (fun p => p.1 ∉ ex)).map (fun p => p.1))).2.2
    rw [schedule_ready_of_not_paused (by rw [show ∀ (st : Sched) (v : Value), (setSendval caller v st).paused_in_syscall = st.paused_in_syscall from fun st v => rfl]; rw [hps]; exact hp)]
    rw [show ∀ (st : Sched) (v : Value), (setSendval caller v st).ready = st.ready from fun st v => rfl]
    rw [(hkae _).2.1]
  · intro b rest tk n hready hlook hclosed
    have hlook2 : ({ s with ready := rest } : Sched).taskmap.lookup b = Option.some tk := hlook
    simp only [stepAux, hready, hlook2]
    rw [if_pos hclosed]

end Teer

namespace Teer

/-- Caller 1 and victim 2, both live. -/
def c6wstate : Sched :=
  { Sched.empty with
      nextTid := 2
      taskmap := [(1, freshTask genStop), (2, freshTask genStop)] }

/-- C6 witness: `claim_C6` at `c6wstate`, caller 1 killing task 2. -/
theorem claim_C6_witness :
    (handle (Request.killTask 2) 1 c6wstate).exit_waiting = c6wstate.exit_waiting ∧
    (handle (Request.killTask 2) 1 c6wstate).ready = c6wstate.ready ++ [1] ∧
    (handle (Request.killTasks [2]) 1 c6wstate).exit_waiting = c6wstate.exit_waiting ∧
    (handle (Request.killTasks [2]) 1 c6wstate).ready = c6wstate.ready ++ [1] ∧
    (handle (Request.killAllTasksExcept [1]) 1 c6wstate).exit_waiting = c6wstate.exit_waiting ∧
    (handle (Request.killAllTasksExcept [1]) 1 c6wstate).ready = c6wstate.ready ++ [1] ∧
    (∀ (b : Nat) (rest : List Nat) (tk : TaskObj) (n : Nat),
      c6wstate.ready = b :: rest → c6wstate.taskmap.lookup b = Option.some tk →
      tk.closed = true →
      stepAux (n + 1) c6wstate = stepAux n (exit b { c6wstate with ready := rest })) :=
  claim_C6 c6wstate 1 2 [2] [1] (by decide)

end Teer

namespace Teer

/-! ### C9 -/

/-- Task 1 waits-any on `[3, 3]` (a duplicate id, which `WaitAnyTasks`
accepts and registers twice). -/
def c9bodyT : Gen :=
  Gen.mk (fun _ => GenRes.yieldReq (Request.waitAnyTasks [3, 3])
    (Gen.mk (fun _ => GenRes.stop)))

/-- Task 2 pauses task 1 and parks on a timer. -/
def c9bodyP : Gen :=
  Gen.mk (fun _ => GenRes.yieldReq (Request.pauseTask 1)
    (Gen.mk (fun _ => GenRes.yieldReq (Request.waitDuration 1)
      (Gen.mk (fun _ => GenRes.stop)))))

/-- Task 3 finishes on its first resume. -/
def c9bodyB : Gen := Gen.mk (fun _ => GenRes.stop)

/-- Tasks 1 (waiter), 2 (pauser), 3 (exiting), freshly created. -/
def c9s0 : Sched := new1 c9bodyB (new1 c9bodyP (new1 c9bodyT Sched.empty))

/-- C9, counterexample: after three trampoline iterations — task 1 registers
twice as a `WAIT_ANY` watcher of task 3, task 2 pauses task 1, task 3 exits
— the exit notification's first delivery moves the paused task 1 into
`paused_in_ready`, and its second delivery (the duplicate registration)
appends task 1 to the READY queue even though it still sits in the pause
set: a wakeup source placed a paused task into the ready queue with no
resume involved. -/
theorem claim_C9_cex :
    (stepAux 3 c9s0).paused_in_ready = [1] ∧
    (stepAux 3 c9s0).ready = [2, 1] ∧
    (stepAux 2 c9s0).paused_in_syscall = [1] :=
  ⟨rfl, rfl, rfl⟩

/-- `countP`-free helper: the current registrations of task `t` under key
`k` of the condition registry. -/
def tEntries (t : Nat) (cw : List (String × List CondEntry)) (k : String) : List CondEntry :=
  ((cw.lookup k).getD []).filter (fun e => e.tid = t)

/-- Some entry of some watcher list of the condition registry. -/
def entryIn (e : CondEntry) (cw : List (String × List CondEntry)) : Prop :=
  ∃ p ∈ cw, e ∈ p.2

theorem filter_eraseCid (l : List CondEntry) (cid : Nat) (t : Nat)
    (h : ∀ x ∈ l, x.cid = cid → ¬ x.tid = t) :
    (eraseCid cid l).filter (fun e => e.tid = t) = l.filter (fun e => e.tid = t) := by
  induction l with
  | nil => rfl
  | cons e0 rest ih =>
      rw [eraseCid]
      by_cases hc : e0.cid = cid
      · rw [if_pos hc]
        rw [List.filter_cons]
        rw [if_neg (by simpa using h e0 (List.mem_cons_self _ _) hc)]
      · rw [if_neg hc]
        rw [List.filter_cons, List.filter_cons]
        by_cases ht : e0.tid = t
        · rw [if_pos (by simpa using ht), if_pos (by simpa using ht)]
          rw [ih (fun x hx => h x (List.mem_cons_of_mem _ hx))]
        · rw [if_neg (by simpa using ht), if_neg (by simpa using ht)]
          exact ih (fun x hx => h x (List.mem_cons_of_mem _ hx))

theorem eraseCid_subset (cid : Nat) (l : List CondEntry) :
    ∀ x ∈ eraseCid cid l, x ∈ l := by
  induction l with
  | nil => intro x hx; simp [eraseCid] at hx
  | cons e0 rest ih =>
      intro x hx
      rw [eraseCid] at hx
      by_cases hc : e0.cid = cid
      · rw [if_pos hc] at hx
        exact List.mem_cons_of_mem _ hx
      · rw [if_neg hc] at hx
        rcases List.mem_cons.mp hx with rfl | hx2
        · exact List.mem_cons_self _ _
        · exact List.mem_cons_of_mem _ (ih x hx2)

end Teer

namespace Teer

theorem lookup_none_of_forall_keys {β : Type} (l : List (String × β)) (k : String)
    (h : ∀ p ∈ l, p.1 ≠ k) : l.lookup k = Option.none := by
  induction l with
  | nil => rfl
  | cons p rest ih =>
      obtain ⟨a, b⟩ := p
      have ha : a ≠ k := h (a, b) (List.mem_cons_self _ _)
      have hb : (k == a) = false := beq_false_of_ne (Ne.symm ha)
      rw [List.lookup_cons, hb]
      exact ih (fun q hq => h q (List.mem_cons_of_mem _ hq))

/-- One `_del_condition` pass over one dependency name: the registrations of
a task whose entries never share the removed registration identity are
untouched; entries only disappear; keys stay duplicate-free. -/
theorem delStep_paused (var : String) (cid : Nat) (t : Nat) :
    ∀ (cw : List (String × List CondEntry)),
    (cw.map Prod.fst).Nodup →
    (∀ x, entryIn x cw → x.cid = cid → ¬ x.tid = t) →
    (∀ k, tEntries t (cw.filterMap (fun p =>
        if p.1 = var then
          (let l := eraseCid cid p.2
           if l.isEmpty then Option.none else Option.some (p.1, l))
        else Option.some p)) k = tEntries t cw k) ∧
    (∀ x, entryIn x (cw.filterMap (fun p =>
        if p.1 = var then
          (let l := eraseCid cid p.2
           if l.isEmpty then Option.none else Option.some (p.1, l))
        else Option.some p)) → entryIn x cw) ∧
    (((cw.filterMap (fun p =>
        if p.1 = var then
          (let l := eraseCid cid p.2
           if l.isEmpty then Option.none else Option.some (p.1, l))
        else Option.some p)).map Prod.fst).Nodup) := by
  intro cw
  induction cw with
  | nil => intro _ _; exact ⟨fun k => rfl, fun x hx => hx, List.Pairwise.nil⟩
  | cons p rest ih =>
      intro hkeys hno
      obtain ⟨a, l⟩ := p
      have hkeys2 : (rest.map Prod.fst).Nodup := (List.nodup_cons.mp (by simpa using hkeys)).2
      have hanotin : a ∉ rest.map Prod.fst := (List.nodup_cons.mp (by simpa using hkeys)).1
      have hno2 : ∀ x, entryIn x rest → x.cid = cid → ¬ x.tid = t := by
        intro x hx
        obtain ⟨q, hq, hxq⟩ := hx
        exact hno x ⟨q, List.mem_cons_of_mem _ hq, hxq⟩
      have hnol : ∀ x ∈ l, x.cid = cid → ¬ x.tid = t := by
        intro x hx
        exact hno x ⟨(a, l), List.mem_cons_self _ _, hx⟩
      obtain ⟨ih1, ih2, ih3⟩ := ih hkeys2 hno2
      have hkeysub : ∀ q ∈ (rest.filterMap (fun p =>
          if p.1 = var then
            (let l := eraseCid cid p.2
             if l.isEmpty then Option.none else Option.some (p.1, l))
          else Option.some p)), q.1 ∈ rest.map Prod.fst := by
        intro q hq
        obtain ⟨p0, hp0, hfp⟩ := List.mem_filterMap.mp hq
        by_cases hv : p0.1 = var
        · rw [if_pos hv] at hfp
          by_cases he : (eraseCid cid p0.2).isEmpty
          · rw [show (let l := eraseCid cid p0.2
                if l.isEmpty then (Option.none : Option (String × List CondEntry))
                else Option.some (p0.1, l)) = Option.none from by
                  simp only [he, if_pos]] at hfp
            exact absurd hfp (by simp)
          · rw [show (let l := eraseCid cid p0.2
                if l.isEmpty then (Option.none : Option (String × List CondEntry))
                else Option.some (p0.1, l)) = Option.some (p0.1, eraseCid cid p0.2) from by
                  simp only [he]
                  rw [if_neg (by simp [he])]] at hfp
            have hq1 : q.1 = p0.1 := by
              have := Option.some.inj hfp
              rw [← this]
            rw [hq1]
            exact List.mem_map.mpr ⟨p0, hp0, rfl⟩
        · rw [if_neg hv] at hfp
          have : q = p0 := Option.some.inj hfp |>.symm ▸ rfl
          rw [show q = p0 from (Option.some.inj hfp).symm]
          exact List.mem_map.mpr ⟨p0, hp0, rfl⟩
      by_cases hv : a = var
      · by_cases he : (eraseCid cid l).isEmpty
        · have hstep : (((a, l) :: rest).filterMap (fun p =>
              if p.1 = var then
                (let l := eraseCid cid p.2
                 if l.isEmpty then Option.none else Option.some (p.1, l))
              else Option.some p)) = (rest.filterMap (fun p =>
              if p.1 = var then
                (let l := eraseCid cid p.2
                 if l.isEmpty then Option.none else Option.some (p.1, l))
              else Option.some p)) := by
            simp [List.filterMap_cons, hv, he]
          refine ⟨?_, ?_, ?_⟩
          · intro k
            rw [hstep]
            by_cases hk : k = a
            · subst hk
              have h1 : (rest.filterMap (fun p =>
                  if p.1 = var then
                    (let l := eraseCid cid p.2
                     if l.isEmpty then Option.none else Option.some (p.1, l))
                  else Option.some p)).lookup k = Option.none := by
                apply lookup_none_of_forall_keys
                intro q hq hqk
                exact hanotin (hqk ▸ hkeysub q hq)
              have h2 : tEntries t ((k, l) :: rest) k = [] := by
                unfold tEntries
                rw [List.lookup_cons]
                rw [show (k == k) = true from beq_self_eq_true k]
                simp only [Option.getD_some]
                have h3 := filter_eraseCid l cid t hnol
                rw [List.isEmpty_iff.mp he] at h3
                simpa using h3.symm
              rw [h2]
              unfold tEntries
              rw [h1]
              rfl
            · have hb : (k == a) = false := beq_false_of_ne hk
              rw [ih1 k]
              unfold tEntries
              rw [List.lookup_cons, hb]
          · intro x hx
            rw [hstep] at hx
            obtain ⟨q, hq, hxq⟩ := ih2 x hx
            exact ⟨q, List.mem_cons_of_mem _ hq, hxq⟩
          · rw [hstep]
            exact ih3
        · have hstep : (((a, l) :: rest).filterMap (fun p =>
              if p.1 = var then
                (let l := eraseCid cid p.2
                 if l.isEmpty then Option.none else Option.some (p.1, l))
              else Option.some p)) = (a, eraseCid cid l) :: (rest.filterMap (fun p =>
              if p.1 = var then
                (let l := eraseCid cid p.2
                 if l.isEmpty then Option.none else Option.some (p.1, l))
              else Option.some p)) := by
            simp [List.filterMap_cons, hv, he]
          refine ⟨?_, ?_, ?_⟩
          · intro k
            rw [hstep]
            by_cases hk : k = a
            · subst hk
              unfold tEntries
              rw [List.lookup_cons, List.lookup_cons]
              rw [show (k == k) = true from beq_self_eq_true k]
              simp only [Option.getD_some]
              exact filter_eraseCid l cid t hnol
            · have hb : (k == a) = false := beq_false_of_ne hk
              unfold tEntries
              rw [List.lookup_cons, List.lookup_cons, hb]
              exact ih1 k
          · intro x hx
            obtain ⟨q, hq, hxq⟩ := hx
            rw [hstep] at hq
            rcases List.mem_cons.mp hq with rfl | hq2
            · exact ⟨(a, l), List.mem_cons_self _ _, eraseCid_subset cid l x hxq⟩
            · obtain ⟨q2, hq2m, hxq2⟩ := ih2 x ⟨q, hq2, hxq⟩
              exact ⟨q2, List.mem_cons_of_mem _ hq2m, hxq2⟩
          · rw [hstep]
            rw [List.map_cons]
            refine List.nodup_cons.mpr ⟨?_, ih3⟩
            intro hmem
            obtain ⟨q, hq, hqa⟩ := List.mem_map.mp hmem
            exact hanotin (by have hqa2 : q.1 = a := (by simpa using hqa); rw [← hqa2]; exact hkeysub q hq)
      · have hstep : (((a, l) :: rest).filterMap (fun p =>
            if p.1 = var then
              (let l := eraseCid cid p.2
               if l.isEmpty then Option.none else Option.some (p.1, l))
            else Option.some p)) = (a, l) :: (rest.filterMap (fun p =>
            if p.1 = var then
              (let l := eraseCid cid p.2
               if l.isEmpty then Option.none else Option.some (p.1, l))
            else Option.some p)) := by
          simp [List.filterMap_cons, hv]
        refine ⟨?_, ?_, ?_⟩
        · intro k
          rw [hstep]
          by_cases hk : k = a
          · subst hk
            unfold tEntries
            rw [List.lookup_cons, List.lookup_cons]
            rw [show (k == k) = true from beq_self_eq_true k]
          · have hb : (k == a) = false := beq_false_of_ne hk
            unfold tEntries
            rw [List.lookup_cons, List.lookup_cons, hb]
            exact ih1 k
        · intro x hx
          obtain ⟨q, hq, hxq⟩ := hx
          rw [hstep] at hq
          rcases List.mem_cons.mp hq with rfl | hq2
          · exact ⟨(a, l), List.mem_cons_self _ _, hxq⟩
          · obtain ⟨q2, hq2m, hxq2⟩ := ih2 x ⟨q, hq2, hxq⟩
            exact ⟨q2, List.mem_cons_of_mem _ hq2m, hxq2⟩
        · rw [hstep]
          rw [List.map_cons]
          refine List.nodup_cons.mpr ⟨?_, ih3⟩
          intro hmem
          obtain ⟨q, hq, hqa⟩ := List.mem_map.mp hmem
          exact hanotin (by have hqa2 : q.1 = a := (by simpa using hqa); rw [← hqa2]; exact hkeysub q hq)

end Teer

namespace Teer

/-- One dependency-name pass of `_del_condition`. -/
def delStep (cid : Nat) (var : String) (cw : List (String × List CondEntry)) :
    List (String × List CondEntry) :=
  cw.filterMap (fun p =>
    if p.1 = var then
      (let l := eraseCid cid p.2
       if l.isEmpty then Option.none else Option.some (p.1, l))
    else Option.some p)

theorem delStep_paused2 (var : String) (cid t : Nat)
    (cw : List (String × List CondEntry))
    (hk : (cw.map Prod.fst).Nodup)
    (hn : ∀ x, entryIn x cw → x.cid = cid → ¬ x.tid = t) :
    (∀ k, tEntries t (delStep cid var cw) k = tEntries t cw k) ∧
    (∀ x, entryIn x (delStep cid var cw) → entryIn x cw) ∧
    (((delStep cid var cw).map Prod.fst).Nodup) :=
  delStep_paused var cid t cw hk hn

/-- The dependency fold of `_del_condition` leaves any other task's
registrations alone, only removes entries, and keeps keys unique. -/
theorem del_fold_paused (cid t : Nat) (deps : List String) :
    ∀ (cw : List (String × List CondEntry)),
    (cw.map Prod.fst).Nodup →
    (∀ x, entryIn x cw → x.cid = cid → ¬ x.tid = t) →
    (∀ k, tEntries t (deps.foldl (fun cw var => delStep cid var cw) cw) k
        = tEntries t cw k) ∧
    (∀ x, entryIn x (deps.foldl (fun cw var => delStep cid var cw) cw) →
        entryIn x cw) ∧
    (((deps.foldl (fun cw var => delStep cid var cw) cw).map Prod.fst).Nodup) := by
  induction deps with
  | nil => intro cw hk hn; exact ⟨fun k => rfl, fun x hx => hx, hk⟩
  | cons v rest ih =>
      intro cw hk hn
      obtain ⟨h1, h2, h3⟩ := delStep_paused2 v cid t cw hk hn
      have hn2 : ∀ x, entryIn x (delStep cid v cw) → x.cid = cid → ¬ x.tid = t :=
        fun x hx => hn x (h2 x hx)
      obtain ⟨g1, g2, g3⟩ := ih (delStep cid v cw) h3 hn2
      rw [List.foldl_cons]
      exact ⟨fun k => (g1 k).trans (h1 k), fun x hx => h2 x (g2 x hx), g3⟩

/-- `_del_condition` for an entry whose registered identity never
belongs to task `t`: `t`'s registrations survive untouched. -/
theorem del_condition_paused (e : CondEntry) (s : Sched) (t : Nat)
    (hk : (s.cond_waiting.map Prod.fst).Nodup)
    (hn : ∀ x, entryIn x s.cond_waiting → x.cid = e.cid → ¬ x.tid = t) :
    (∀ k, tEntries t (del_condition e s).cond_waiting k
        = tEntries t s.cond_waiting k) ∧
    (∀ x, entryIn x (del_condition e s).cond_waiting → entryIn x s.cond_waiting) ∧
    (((del_condition e s).cond_waiting.map Prod.fst).Nodup) :=
  del_fold_paused e.cid t e.cond.deps s.cond_waiting hk hn

theorem schedule_cond_waiting (w : Nat) (s : Sched) :
    (schedule w s).cond_waiting = s.cond_waiting := by
  unfold schedule; split <;> rfl

theorem schedule_pis_mem_of_ne (w t : Nat) (s : Sched) (hne : t ≠ w)
    (h : t ∈ s.paused_in_syscall) : t ∈ (schedule w s).paused_in_syscall := by
  unfold schedule
  split
  · exact (List.mem_erase_of_ne hne).mpr h
  · exact h

theorem schedule_not_mem_ready (w t : Nat) (s : Sched) (hne : w ≠ t)
    (h : t ∉ s.ready) : t ∉ (schedule w s).ready :=
  List.count_eq_zero.mp
    ((schedule_ready_count w t s hne).trans (List.count_eq_zero.mpr h))

theorem schedule_now_not_ready (w t : Nat) (s : Sched)
    (hp : t ∈ s.paused_in_syscall) (hr : t ∉ s.ready) :
    t ∉ (schedule_now w s).ready := by
  unfold schedule_now
  split
  · exact hr
  · rename_i hcond
    intro hm
    rcases List.mem_cons.mp hm with rfl | hm2
    · exact hcond hp
    · exact hr hm2

/-- A timer callback never places a syscall-paused task into the ready
queue (it only marks it paused-in-ready). -/
theorem fireCallback_not_ready (cb : Callback) (s : Sched) (t : Nat)
    (hp : t ∈ s.paused_in_syscall) (hr : t ∉ s.ready) :
    t ∉ (fireCallback cb s).ready := by
  cases cb with
  | resume w => exact schedule_now_not_ready w t s hp hr
  | resumeRate w rid => exact schedule_now_not_ready w t _ hp hr

end Teer

namespace Teer

/-- One candidate step of the `test_conditions` fold. -/
def tcStep (st : Sched) (e : CondEntry) : Sched :=
  if e.tid ∈ st.paused_in_syscall then st
  else if evalCond e.cond st then del_condition e (schedule e.tid st)
  else st

/-- The `test_conditions` fold never enqueues a syscall-paused task, keeps
it syscall-paused, leaves its registrations untouched, only removes
entries, and keeps registry keys unique — provided equal registration
identities always belong to the same task. -/
theorem tc_fold_paused (t : Nat) (cw0 : List (String × List CondEntry))
    (hinj : ∀ x y, entryIn x cw0 → entryIn y cw0 → x.cid = y.cid → x.tid = y.tid) :
    ∀ (cands : List CondEntry) (st : Sched),
    (∀ e ∈ cands, entryIn e cw0) →
    t ∈ st.paused_in_syscall → t ∉ st.ready →
    (∀ x, entryIn x st.cond_waiting → entryIn x cw0) →
    ((st.cond_waiting.map Prod.fst).Nodup) →
    (t ∈ (cands.foldl tcStep st).paused_in_syscall ∧
     t ∉ (cands.foldl tcStep st).ready ∧
     (∀ k, tEntries t (cands.foldl tcStep st).cond_waiting k
         = tEntries t st.cond_waiting k) ∧
     (∀ x, entryIn x (cands.foldl tcStep st).cond_waiting →
         entryIn x st.cond_waiting) ∧
     (((cands.foldl tcStep st).cond_waiting.map Prod.fst).Nodup)) := by
  intro cands
  induction cands with
  | nil =>
      intro st _ hp hr _ hnd
      exact ⟨hp, hr, fun k => rfl, fun x hx => hx, hnd⟩
  | cons e rest ih =>
      intro st hcands hp hr hsub hnd
      rw [List.foldl_cons]
      by_cases h1 : e.tid ∈ st.paused_in_syscall
      · have hstep : tcStep st e = st := by unfold tcStep; rw [if_pos h1]
        rw [hstep]
        exact ih st (fun e2 he2 => hcands e2 (List.mem_cons_of_mem _ he2)) hp hr hsub hnd
      · by_cases h2 : evalCond e.cond st = true
        · have hstep : tcStep st e = del_condition e (schedule e.tid st) := by
            unfold tcStep; rw [if_neg h1, if_pos h2]
          rw [hstep]
          have hten : e.tid ≠ t := fun he => h1 (he ▸ hp)
          have hdc := del_condition_paused e (schedule e.tid st) t
            (by rw [schedule_cond_waiting]; exact hnd)
            (by
              intro x hx hcid
              rw [schedule_cond_waiting] at hx
              have hx0 : entryIn x cw0 := hsub x hx
              have he0 : entryIn e cw0 := hcands e (List.mem_cons_self _ _)
              have hxe : x.tid = e.tid := hinj x e hx0 he0 hcid
              exact fun hxt => hten (hxe.symm.trans hxt))
          obtain ⟨hd1, hd2, hd3⟩ := hdc
          have hp2 : t ∈ (del_condition e (schedule e.tid st)).paused_in_syscall := by
            rw [del_condition_paused_in_syscall, schedule_paused_in_syscall_of_not e.tid st h1]
            exact hp
          have hr2 : t ∉ (del_condition e (schedule e.tid st)).ready := by
            rw [del_condition_ready, schedule_ready_of_not_paused h1]
            intro hmem
            rcases List.mem_append.mp hmem with hA | hB
            · exact hr hA
            · exact hten (List.mem_singleton.mp hB).symm
          have hsub2 : ∀ x, entryIn x (del_condition e (schedule e.tid st)).cond_waiting →
              entryIn x cw0 := by
            intro x hx
            have hx1 := hd2 x hx
            rw [schedule_cond_waiting] at hx1
            exact hsub x hx1
          obtain ⟨g1, g2, g3, g4, g5⟩ := ih (del_condition e (schedule e.tid st))
            (fun e2 he2 => hcands e2 (List.mem_cons_of_mem _ he2)) hp2 hr2 hsub2 hd3
          refine ⟨g1, g2, ?_, ?_, g5⟩
          · intro k
            rw [g3 k, hd1 k, schedule_cond_waiting]
          · intro x hx
            have hx2 := hd2 x (g4 x hx)
            rw [schedule_cond_waiting] at hx2
            exact hx2
        · have hstep : tcStep st e = st := by
            unfold tcStep; rw [if_neg h1, if_neg h2]
          rw [hstep]
          exact ih st (fun e2 he2 => hcands e2 (List.mem_cons_of_mem _ he2)) hp hr hsub hnd

/-- A condition re-test never touches a syscall-paused task: it stays
paused, off the ready queue, and all its registrations survive. -/
theorem test_conditions_paused (name : String) (s : Sched) (t : Nat)
    (hp : t ∈ s.paused_in_syscall) (hr : t ∉ s.ready)
    (hnd : (s.cond_waiting.map Prod.fst).Nodup)
    (hinj : ∀ x y, entryIn x s.cond_waiting → entryIn y s.cond_waiting →
      x.cid = y.cid → x.tid = y.tid) :
    t ∈ (test_conditions name s).paused_in_syscall ∧
    t ∉ (test_conditions name s).ready ∧
    (∀ k, tEntries t (test_conditions name s).cond_waiting k
        = tEntries t s.cond_waiting k) := by
  unfold test_conditions
  cases ho : s.cond_waiting.lookup name with
  | none =>
      simp only [ho]
      exact ⟨hp, hr, by intro k; trivial⟩
  | some cands =>
      simp only [ho]
      have hcands : ∀ e ∈ cands, entryIn e s.cond_waiting :=
        fun e he => ⟨(name, cands), lookup_mem ho, he⟩
      obtain ⟨g1, g2, g3, _, _⟩ := tc_fold_paused t s.cond_waiting hinj cands s
        hcands hp hr (fun x hx => hx) hnd
      exact ⟨g1, g2, g3⟩

/-- A condition-variable write never touches a syscall-paused task. -/
theorem writeCondVar_paused (name : String) (v : Int) (s : Sched) (t : Nat)
    (hp : t ∈ s.paused_in_syscall) (hr : t ∉ s.ready)
    (hnd : (s.cond_waiting.map Prod.fst).Nodup)
    (hinj : ∀ x y, entryIn x s.cond_waiting → entryIn y s.cond_waiting →
      x.cid = y.cid → x.tid = y.tid) :
    t ∈ (writeCondVar name v s).paused_in_syscall ∧
    t ∉ (writeCondVar name v s).ready ∧
    (∀ k, tEntries t (writeCondVar name v s).cond_waiting k
        = tEntries t s.cond_waiting k) := by
  unfold writeCondVar
  exact test_conditions_paused name _ t hp hr hnd hinj

end Teer

namespace Teer

theorem schedule_not_mem_ready_self (w : Nat) (s : Sched)
    (hp : w ∈ s.paused_in_syscall) (hr : w ∉ s.ready) :
    w ∉ (schedule w s).ready := by
  unfold schedule
  rw [if_pos hp]
  exact hr

theorem exitNotify_pis_of_ne (etid w t : Nat) (st : Sched) (hne : t ≠ w)
    (h : t ∈ st.paused_in_syscall) : t ∈ (exitNotify etid w st).paused_in_syscall := by
  unfold exitNotify
  cases hmode : ((st.taskmap.lookup w).map (fun tk => tk.waitmode)).getD WaitMode.any with
  | any =>
      simp only [hmode]
      exact schedule_pis_mem_of_ne w t _ hne h
  | all =>
      simp only [hmode]
      split
      · exact h
      · exact schedule_pis_mem_of_ne w t _ hne h

theorem exitNotify_not_mem_ready (etid w t : Nat) (st : Sched) (hne : w ≠ t)
    (h : t ∉ st.ready) : t ∉ (exitNotify etid w st).ready :=
  List.count_eq_zero.mp
    ((exitNotify_ready_count etid w t st hne).trans (List.count_eq_zero.mpr h))

/-- Delivering an exit notification TO a syscall-paused watcher does not
enqueue it: `schedule` only marks it paused-in-ready. -/
theorem exitNotify_self_not_ready (etid t : Nat) (st : Sched)
    (hp : t ∈ st.paused_in_syscall) (hr : t ∉ st.ready) :
    t ∉ (exitNotify etid t st).ready := by
  unfold exitNotify
  cases hmode : ((st.taskmap.lookup t).map (fun tk => tk.waitmode)).getD WaitMode.any with
  | any =>
      simp only [hmode]
      exact schedule_not_mem_ready_self t _ hp hr
  | all =>
      simp only [hmode]
      split
      · exact hr
      · exact schedule_not_mem_ready_self t _ hp hr

theorem exitNotify_fold_inv (etid t : Nat) : ∀ (ws : List Nat) (st : Sched),
    (∀ w ∈ ws, w ≠ t) → t ∈ st.paused_in_syscall → t ∉ st.ready →
    t ∈ (ws.foldl (fun st w => exitNotify etid w st) st).paused_in_syscall ∧
    t ∉ (ws.foldl (fun st w => exitNotify etid w st) st).ready := by
  intro ws
  induction ws with
  | nil => intro st _ hp hr; exact ⟨hp, hr⟩
  | cons w rest ih =>
      intro st hws hp hr
      rw [List.foldl_cons]
      exact ih _ (fun w2 h2 => hws w2 (List.mem_cons_of_mem _ h2))
        (exitNotify_pis_of_ne etid w t st
          (fun he => hws w (List.mem_cons_self _ _) he.symm) hp)
        (exitNotify_not_mem_ready etid w t st (hws w (List.mem_cons_self _ _)) hr)

theorem exitNotify_fold_not_ready (ws : List Nat) (etid t : Nat) (st : Sched)
    (h : ∀ w ∈ ws, w ≠ t) (hr : t ∉ st.ready) :
    t ∉ (ws.foldl (fun st w => exitNotify etid w st) st).ready :=
  List.count_eq_zero.mp
    ((exitNotify_fold_ready_count ws etid t st h).trans (List.count_eq_zero.mpr hr))

/-- `Scheduler.exit` never enqueues a syscall-paused task, provided each
watcher list registers it at most once: the at-most-one delivery only
marks it paused-in-ready. -/
theorem exit_paused_not_ready (etid t : Nat) (s : Sched)
    (hp : t ∈ s.paused_in_syscall) (hr : t ∉ s.ready)
    (hcnt : ∀ p ∈ s.exit_waiting, p.2.count t ≤ 1) :
    t ∉ (exit etid s).ready := by
  unfold exit
  try simp only
  by_cases hmem : t ∈ (s.exit_waiting.lookup etid).getD []
  · obtain ⟨ws1, ws2, hsplit⟩ := List.append_of_mem hmem
    have hc : ((s.exit_waiting.lookup etid).getD []).count t ≤ 1 := by
      rcases ho : s.exit_waiting.lookup etid with _ | l
      · simp
      · simpa using hcnt (etid, l) (lookup_mem ho)
    rw [hsplit, List.count_append, List.count_cons_self] at hc
    have hw1 : t ∉ ws1 := List.count_eq_zero.mp (by omega)
    have hw2 : t ∉ ws2 := List.count_eq_zero.mp (by omega)
    rw [hsplit, List.foldl_append, List.foldl_cons]
    apply exitNotify_fold_not_ready ws2 etid t _
      (fun w hw he => hw2 (he ▸ hw))
    refine exitNotify_self_not_ready etid t _ ?_ ?_
    · exact (exitNotify_fold_inv etid t ws1 { s with taskmap := s.taskmap.filter (fun p => p.1 ≠ etid), exit_waiting := s.exit_waiting.filter (fun p => p.1 ≠ etid) } (fun w hw he => hw1 (he ▸ hw)) hp hr).1
    · exact (exitNotify_fold_inv etid t ws1 { s with taskmap := s.taskmap.filter (fun p => p.1 ≠ etid), exit_waiting := s.exit_waiting.filter (fun p => p.1 ≠ etid) } (fun w hw he => hw1 (he ▸ hw)) hp hr).2
  · exact exitNotify_fold_not_ready _ etid t _
      (fun w hw he => hmem (he ▸ hw)) hr

end Teer

namespace Teer

/-- An explicit resume of a ready-paused task puts it at the FRONT of the
ready queue. -/
theorem resume_task_front (t : Nat) (s : Sched) (h : t ∈ s.paused_in_ready) :
    resume_task (Option.some t) s =
      (true, { s with paused_in_ready := s.paused_in_ready.erase t
                      ready := t :: s.ready }) := by
  simp only [resume_task]
  rw [if_pos h]

/-- C9, amended: while a task sits in the syscall pause set (and off the
ready queue), no wakeup source enqueues it — a timer callback, a
condition-variable write (which also keeps it paused and retains all its
condition registrations, given unique registry keys and injective
registration identities), and an exit notification (given each watcher
list registers it at most once; a DUPLICATE registration, reachable via
`WaitAnyTasks` with a repeated id, makes the second delivery append the
paused task to the ready queue — see the counterexample). Entry to the
ready queue otherwise requires an explicit resume, which prepends. -/
theorem claim_C9 (s : Sched) (t : Nat)
    (hp : t ∈ s.paused_in_syscall) (hr : t ∉ s.ready)
    (hnd : (s.cond_waiting.map Prod.fst).Nodup)
    (hinj : ∀ x y, entryIn x s.cond_waiting → entryIn y s.cond_waiting →
      x.cid = y.cid → x.tid = y.tid)
    (hcnt : ∀ p ∈ s.exit_waiting, p.2.count t ≤ 1) :
    (∀ cb, t ∉ (fireCallback cb s).ready) ∧
    (∀ name v, t ∉ (writeCondVar name v s).ready ∧
        t ∈ (writeCondVar name v s).paused_in_syscall ∧
        (∀ k, tEntries t (writeCondVar name v s).cond_waiting k =
          tEntries t s.cond_waiting k)) ∧
    (∀ etid, t ∉ (exit etid s).ready) ∧
    (∀ s2, t ∈ s2.paused_in_ready →
      resume_task (Option.some t) s2 =
        (true, { s2 with paused_in_ready := s2.paused_in_ready.erase t
                         ready := t :: s2.ready })) := by
  refine ⟨fun cb => fireCallback_not_ready cb s t hp hr, fun name v => ?_,
    fun etid => exit_paused_not_ready etid t s hp hr hcnt,
    fun s2 h2 => resume_task_front t s2 h2⟩
  obtain ⟨g1, g2, g3⟩ := writeCondVar_paused name v s t hp hr hnd hinj
  exact ⟨g2, g1, g3⟩

/-- Task 1 is syscall-paused; all registries empty. -/
def c9wstate : Sched := { Sched.empty with paused_in_syscall := [1] }

/-- C9 witness: `claim_C9` at `c9wstate` for task 1. -/
theorem claim_C9_witness :
    (∀ cb, 1 ∉ (fireCallback cb c9wstate).ready) ∧
    (∀ name v, 1 ∉ (writeCondVar name v c9wstate).ready ∧
        1 ∈ (writeCondVar name v c9wstate).paused_in_syscall ∧
        (∀ k, tEntries 1 (writeCondVar name v c9wstate).cond_waiting k =
          tEntries 1 c9wstate.cond_waiting k)) ∧
    (∀ etid, 1 ∉ (exit etid c9wstate).ready) ∧
    (∀ s2, 1 ∈ s2.paused_in_ready →
      resume_task (Option.some 1) s2 =
        (true, { s2 with paused_in_ready := s2.paused_in_ready.erase 1
                         ready := 1 :: s2.ready })) :=
  claim_C9 c9wstate 1 (by decide) (by decide) (by decide)
    (fun x y hx _ _ => absurd hx (fun hex =>
      match hex with
      | ⟨p, hmem, _⟩ => (List.not_mem_nil p) hmem))
    (fun p hp2 => absurd hp2 (List.not_mem_nil p))

end Teer

namespace Teer

/-! ### C3 -/

theorem modifyTask_lookup_ne (k : Nat) (f : TaskObj → TaskObj) (s : Sched) (t : Nat)
    (h : t ≠ k) : (modifyTask k f s).taskmap.lookup t = s.taskmap.lookup t :=
  lookup_map_upd_ne s.taskmap k t f h

theorem keys_map_upd {β : Type} (l : List (Nat × β)) (k : Nat) (f : β → β) :
    (l.map (fun p => if p.1 = k then (p.1, f p.2) else p)).map Prod.fst
      = l.map Prod.fst := by
  induction l with
  | nil => rfl
  | cons p rest ih =>
      obtain ⟨a, b⟩ := p
      simp only [List.map_cons]
      by_cases h : a = k
      · rw [if_pos h, ih]
      · rw [if_neg h, ih]

theorem modifyTask_keys (k : Nat) (f : TaskObj → TaskObj) (s : Sched) :
    (modifyTask k f s).taskmap.map Prod.fst = s.taskmap.map Prod.fst :=
  keys_map_upd s.taskmap k f

theorem schedule_eq_of_pis_nil (t : Nat) (s : Sched) (h : s.paused_in_syscall = []) :
    schedule t s = { s with ready := s.ready ++ [t] } := by
  unfold schedule
  rw [if_neg (by rw [h]; simp)]

theorem new1_eq (g : Gen) (s : Sched) (h : s.paused_in_syscall = []) :
    new1 g s = { s with nextTid := s.nextTid + 1
                        taskmap := s.taskmap ++ [(s.nextTid + 1, freshTask g)]
                        ready := s.ready ++ [s.nextTid + 1] } := by
  simp [new1, new, schedule, h, freshTask]

/-- Spawn a batch of tasks in order. -/
def spawnAll (gs : List Gen) (s : Sched) : Sched :=
  gs.foldl (fun st g => new1 g st) s

theorem spawnAll_shape : ∀ (gs : List Gen) (s : Sched), s.paused_in_syscall = [] →
    spawnAll gs s = { s with
      nextTid := s.nextTid + gs.length
      taskmap := s.taskmap ++
        List.zip (List.range' (s.nextTid + 1) gs.length) (gs.map freshTask)
      ready := s.ready ++ List.range' (s.nextTid + 1) gs.length } := by
  intro gs
  induction gs with
  | nil =>
      intro s h
      simp [spawnAll, List.range']
  | cons g rest ih =>
      intro s h
      have h1 := new1_eq g s h
      show spawnAll rest (new1 g s) = _
      rw [h1]
      rw [ih { s with nextTid := s.nextTid + 1, taskmap := s.taskmap ++ [(s.nextTid + 1, freshTask g)], ready := s.ready ++ [s.nextTid + 1] } (by exact h)]
      simp only [List.length_cons, List.map_cons, List.range'_succ, List.zip_cons_cons,
        List.append_assoc, List.singleton_append]
      congr 1
      omega

end Teer

namespace Teer

/-- The `KillAllTasksExcept` close loop. -/
def closeFold (ks : List Nat) (s : Sched) : Sched :=
  ks.foldl (fun st tid => closeTask tid st) s

theorem closeFold_ready (ks : List Nat) (s : Sched) :
    (closeFold ks s).ready = s.ready :=
  foldl_preserve (fun (st : Sched) => st.ready = s.ready)
    (fun st tid => closeTask tid st) (fun b a hb => hb) ks s rfl

theorem closeFold_exit_waiting (ks : List Nat) (s : Sched) :
    (closeFold ks s).exit_waiting = s.exit_waiting :=
  foldl_preserve (fun (st : Sched) => st.exit_waiting = s.exit_waiting)
    (fun st tid => closeTask tid st) (fun b a hb => hb) ks s rfl

theorem closeFold_paused_in_syscall (ks : List Nat) (s : Sched) :
    (closeFold ks s).paused_in_syscall = s.paused_in_syscall :=
  foldl_preserve (fun (st : Sched) => st.paused_in_syscall = s.paused_in_syscall)
    (fun st tid => closeTask tid st) (fun b a hb => hb) ks s rfl

theorem closeFold_keys (ks : List Nat) (s : Sched) :
    (closeFold ks s).taskmap.map Prod.fst = s.taskmap.map Prod.fst :=
  foldl_preserve (fun (st : Sched) => st.taskmap.map Prod.fst = s.taskmap.map Prod.fst)
    (fun st tid => closeTask tid st)
    (fun b a hb => (modifyTask_keys a _ b).trans hb) ks s rfl

theorem closeFold_lookup_of_not_mem : ∀ (ks : List Nat) (s : Sched) (t : Nat),
    t ∉ ks → (closeFold ks s).taskmap.lookup t = s.taskmap.lookup t := by
  intro ks
  induction ks with
  | nil => intro s t _; rfl
  | cons k rest ih =>
      intro s t ht
      show (closeFold rest (closeTask k s)).taskmap.lookup t = _
      rw [ih _ t (fun hm => ht (List.mem_cons_of_mem _ hm))]
      exact modifyTask_lookup_ne k _ s t (fun he => ht (he ▸ List.mem_cons_self _ _))

theorem closeTask_closed_getD (k t : Nat) (s : Sched)
    (h : (((s.taskmap.lookup t).map (fun tk => tk.closed)).getD true) = true) :
    (((closeTask k s).taskmap.lookup t).map (fun tk => tk.closed)).getD true = true := by
  unfold closeTask
  by_cases ht : t = k
  · subst ht
    rw [modifyTask_lookup_self]
    cases s.taskmap.lookup t <;> rfl
  · rw [modifyTask_lookup_ne k _ s t ht]
    exact h

theorem closeFold_closed_of_mem : ∀ (ks : List Nat) (s : Sched) (t : Nat), t ∈ ks →
    (((closeFold ks s).taskmap.lookup t).map (fun tk => tk.closed)).getD true = true := by
  intro ks
  induction ks with
  | nil => intro s t ht; exact absurd ht (List.not_mem_nil t)
  | cons k rest ih =>
      intro s t ht
      show (((closeFold rest (closeTask k s)).taskmap.lookup t).map
        (fun tk => tk.closed)).getD true = true
      by_cases hm : t ∈ rest
      · exact ih _ t hm
      · have hk : t = k := by
          rcases List.mem_cons.mp ht with h | h
          · exact h
          · exact absurd h hm
        subst hk
        rw [closeFold_lookup_of_not_mem rest _ t hm]
        unfold closeTask
        rw [modifyTask_lookup_self]
        cases s.taskmap.lookup t <;> rfl

theorem lookup_filter_keep {β : Type} (l : List (Nat × β)) (k : Nat) (q : Nat → Bool)
    (hq : q k = true) :
    (l.filter (fun p => q p.1)).lookup k = l.lookup k := by
  induction l with
  | nil => rfl
  | cons p rest ih =>
      obtain ⟨a, b⟩ := p
      rw [List.filter_cons]
      by_cases ha : q a = true
      · rw [if_pos (by simpa using ha)]
        rw [List.lookup_cons, List.lookup_cons]
        cases hb : (k == a) with
        | true => rfl
        | false => exact ih
      · rw [if_neg (by simpa using ha)]
        rw [List.lookup_cons]
        have hb : (k == a) = false := by
          cases hb : (k == a) with
          | true => exact absurd (eq_of_beq hb ▸ hq) (by simpa using ha)
          | false => rfl
        rw [hb]
        exact ih

theorem exit_eq_of_ew_nil (etid : Nat) (s : Sched) (hew : s.exit_waiting = []) :
    exit etid s = { s with taskmap := s.taskmap.filter (fun p => p.1 ≠ etid) } := by
  unfold exit
  try simp only
  rw [hew]
  simp [hew]

end Teer

namespace Teer

theorem lookup_eq_none_keys {β : Type} : ∀ (l : List (Nat × β)) (k : Nat),
    l.lookup k = Option.none → ∀ p ∈ l, p.1 ≠ k := by
  intro l
  induction l with
  | nil => intro k _ p hp; exact absurd hp (List.not_mem_nil p)
  | cons q rest ih =>
      intro k hl p hp
      obtain ⟨a, b⟩ := q
      rw [List.lookup_cons] at hl
      cases hb : (k == a) with
      | true => rw [hb] at hl; exact absurd hl (by simp)
      | false =>
          rw [hb] at hl
          rcases List.mem_cons.mp hp with rfl | hp2
          · intro he
            have ha : a = k := he
            rw [ha] at hb
            simp at hb
          · exact ih k hl p hp2

theorem lookup_filter_self_none {β : Type} : ∀ (l : List (Nat × β)) (t : Nat),
    (l.filter (fun p => p.1 ≠ t)).lookup t = Option.none := by
  intro l
  induction l with
  | nil => intro t; rfl
  | cons p rest ih =>
      intro t
      obtain ⟨a, b⟩ := p
      rw [List.filter_cons]
      by_cases ha : a = t
      · rw [if_neg (by simpa using ha)]
        exact ih t
      · rw [if_pos (by simpa using ha)]
        rw [List.lookup_cons, beq_false_of_ne (Ne.symm ha)]
        exact ih t

theorem stepAux_cons (n : Nat) (s : Sched) (tid : Nat) (rest : List Nat) (tk : TaskObj)
    (hready : s.ready = tid :: rest)
    (hlk : s.taskmap.lookup tid = Option.some tk) :
    stepAux (n + 1) s =
      (if tk.closed then stepAux n (exit tid { s with ready := rest })
       else match tk.gen.send tk.sendval with
        | GenRes.stop => stepAux n (exit tid { s with ready := rest })
        | GenRes.yieldPlain g =>
            stepAux n (schedule tid (setGen tid g { s with ready := rest }))
        | GenRes.yieldReq r g =>
            stepAux n (handle r tid (setGen tid g { s with ready := rest }))) := by
  have hlk2 : ({ s with ready := rest } : Sched).taskmap.lookup tid = Option.some tk := hlk
  simp only [stepAux, hready, hlk2]

theorem stepAux_cons_none (n : Nat) (s : Sched) (tid : Nat) (rest : List Nat)
    (hready : s.ready = tid :: rest)
    (hlk : s.taskmap.lookup tid = Option.none) :
    stepAux (n + 1) s = stepAux n { s with ready := rest } := by
  have hlk2 : ({ s with ready := rest } : Sched).taskmap.lookup tid = Option.none := hlk
  simp only [stepAux, hready, hlk2]

/-- Draining a block of closed (or vanished) tasks at the front of the
ready queue: each is popped and exited, removing it from the task table,
with no notifications when nothing waits on exits. -/
theorem stepAux_drain : ∀ (vs : List Nat) (m : Nat) (qs : List Nat) (s : Sched),
    s.ready = vs ++ qs →
    (∀ v ∈ vs, (((s.taskmap.lookup v).map (fun tk => tk.closed)).getD true) = true) →
    s.exit_waiting = [] →
    stepAux (vs.length + m) s =
      stepAux m { s with ready := qs
                         taskmap := s.taskmap.filter (fun p => p.1 ∉ vs) } := by
  intro vs
  induction vs with
  | nil =>
      intro m qs s hready _ _
      simp only [List.length_nil, Nat.zero_add]
      have h1 : s.taskmap.filter (fun p => p.1 ∉ ([] : List Nat)) = s.taskmap := by
        apply List.filter_eq_self.mpr
        intro a _
        simp
      rw [h1]
      rw [List.nil_append] at hready
      rw [← hready]
  | cons v rest ih =>
      intro m qs s hready hcl hew
      rw [show (v :: rest).length + m = (rest.length + m) + 1 from by
        rw [List.length_cons]; omega]
      rcases hov : s.taskmap.lookup v with _ | tk
      · rw [stepAux_cons_none (rest.length + m) s v (rest ++ qs) (by rw [hready]; rfl) hov]
        rw [ih m qs { s with ready := rest ++ qs } rfl
          (fun w hw => hcl w (List.mem_cons_of_mem _ hw)) hew]
        have hkeys := lookup_eq_none_keys s.taskmap v hov
        have hf : s.taskmap.filter (fun p => p.1 ∉ rest)
            = s.taskmap.filter (fun p => p.1 ∉ v :: rest) := by
          apply List.filter_congr
          intro p hp
          simp [List.mem_cons, hkeys p hp]
        show stepAux m { s with ready := qs, taskmap := s.taskmap.filter (fun p => p.1 ∉ rest) } = stepAux m { s with ready := qs, taskmap := s.taskmap.filter (fun p => p.1 ∉ v :: rest) }
        rw [hf]
      · have hcv : tk.closed = true := by
          have h2 := hcl v (List.mem_cons_self _ _)
          rw [hov] at h2
          simpa using h2
        rw [stepAux_cons (rest.length + m) s v (rest ++ qs) tk (by rw [hready]; rfl) hov]
        rw [if_pos hcv]
        rw [exit_eq_of_ew_nil v { s with ready := rest ++ qs } hew]
        rw [ih m qs { s with ready := rest ++ qs, taskmap := s.taskmap.filter (fun p => p.1 ≠ v) } rfl ?hcl2 ?hew2]
        case hew2 => exact hew
        case hcl2 =>
          intro w hw
          by_cases hwv : w = v
          · subst hwv
            show (((s.taskmap.filter (fun p => p.1 ≠ w)).lookup w).map (fun tk => tk.closed)).getD true = true
            rw [lookup_filter_self_none]
            rfl
          · show (((s.taskmap.filter (fun p => p.1 ≠ v)).lookup w).map (fun tk => tk.closed)).getD true = true
            rw [lookup_filter_ne_key s.taskmap v w hwv]
            exact hcl w (List.mem_cons_of_mem _ hw)
        have hff : (s.taskmap.filter (fun p => p.1 ≠ v)).filter (fun p => p.1 ∉ rest)
            = s.taskmap.filter (fun p => p.1 ∉ v :: rest) := by
          rw [List.filter_filter]
          apply List.filter_congr
          intro p hp
          by_cases h1 : p.1 = v
          · simp [h1]
          · by_cases h2 : p.1 ∈ rest
            · simp [h1, h2]
            · simp [h1, h2]
        show stepAux m { s with ready := qs, taskmap := (s.taskmap.filter (fun p => p.1 ≠ v)).filter (fun p => p.1 ∉ rest) } = stepAux m { s with ready := qs, taskmap := s.taskmap.filter (fun p => p.1 ∉ v :: rest) }
        rw [hff]

end Teer

namespace Teer

/-- `list_tids` phase: yield `GetTids`, then finish. -/
def c3tids : Gen :=
  Gen.mk (fun _ => GenRes.yieldReq Request.getTids (Gen.mk (fun _ => GenRes.stop)))

/-- A task that issues `KillAllTasksExcept [e]` and then asks for the
task ids. -/
def c3caller (e : Nat) : Gen :=
  Gen.mk (fun _ => GenRes.yieldReq (Request.killAllTasksExcept [e]) c3tids)

/-- A task that yields plainly once, then asks for the task ids. -/
def c3spin : Gen :=
  Gen.mk (fun _ => GenRes.yieldPlain c3tids)

/-- Killer first (tid 1), then a batch of arbitrary tasks. -/
def s0A (gs : List Gen) : Sched := spawnAll gs (new1 (c3caller 1) Sched.empty)

/-- Killer first (tid 1) excepting the last task, a batch of arbitrary
tasks, then the excepted survivor (tid `gs.length + 2`). -/
def s0B (gs : List Gen) : Sched :=
  new1 c3spin (spawnAll gs (new1 (c3caller (gs.length + 2)) Sched.empty))

theorem s0A_shape (gs : List Gen) :
    s0A gs = { Sched.empty with
      nextTid := 1 + gs.length
      taskmap := (1, freshTask (c3caller 1)) ::
        List.zip (List.range' 2 gs.length) (gs.map freshTask)
      ready := 1 :: List.range' 2 gs.length } := by
  unfold s0A
  rw [spawnAll_shape gs (new1 (c3caller 1) Sched.empty) rfl]
  rfl

theorem handle_kae_eq (ex : List Nat) (caller : Nat) (s : Sched) :
    handle (Request.killAllTasksExcept ex) caller s =
      schedule caller (setSendval caller
        (Value.taskObjList ((s.taskmap.filter (fun p => p.1 ∉ ex)).map (fun p => p.1)))
        (closeFold ((s.taskmap.filter (fun p => p.1 ∉ ex)).map (fun p => p.1)) s)) := rfl

theorem map_fst_filter_notmem {β : Type} (l : List (Nat × β)) (ex : List Nat) :
    (l.filter (fun p => p.1 ∉ ex)).map (fun p => p.1)
      = (l.map (fun p => p.1)).filter (fun k => k ∉ ex) := by
  induction l with
  | nil => rfl
  | cons p rest ih =>
      rw [List.filter_cons, List.map_cons, List.filter_cons]
      by_cases h : p.1 ∈ ex
      · rw [if_neg (by simpa using h), if_neg (by simpa using h)]
        exact ih
      · rw [if_pos (by simpa using h), if_pos (by simpa using h)]
        rw [List.map_cons, ih]

end Teer

namespace Teer

/-- The killer's post-kill generator state and the ready-queue pop, in
setup A. -/
def c3Asigma (gs : List Gen) : Sched :=
  setGen 1 c3tids { s0A gs with ready := List.range' 2 gs.length }

/-- Setup A immediately after the kill system call is handled. -/
def c3AKS (gs : List Gen) : Sched :=
  handle (Request.killAllTasksExcept [1]) 1 (c3Asigma gs)

/-- Setup A after the closed victims have drained. -/
def c3AKS2 (gs : List Gen) : Sched :=
  { c3AKS gs with ready := [1]
                  taskmap := (c3AKS gs).taskmap.filter
                    (fun p => p.1 ∉ List.range' 2 gs.length) }

theorem c3A_ready0 (gs : List Gen) : (s0A gs).ready = 1 :: List.range' 2 gs.length := by
  rw [s0A_shape]

theorem c3A_lookup0 (gs : List Gen) :
    (s0A gs).taskmap.lookup 1 = Option.some (freshTask (c3caller 1)) := by
  rw [s0A_shape]
  rfl

theorem c3Asigma_pis (gs : List Gen) : (c3Asigma gs).paused_in_syscall = [] := by
  have h : (c3Asigma gs).paused_in_syscall = (s0A gs).paused_in_syscall := rfl
  rw [h, s0A_shape]
  rfl

theorem c3Asigma_ew (gs : List Gen) : (c3Asigma gs).exit_waiting = [] := by
  have h : (c3Asigma gs).exit_waiting = (s0A gs).exit_waiting := rfl
  rw [h, s0A_shape]
  rfl

theorem c3Asigma_keys (gs : List Gen) :
    (c3Asigma gs).taskmap.map (fun p => p.1) = 1 :: List.range' 2 gs.length := by
  have h1 : (c3Asigma gs).taskmap.map (fun p => p.1)
      = ({ s0A gs with ready := List.range' 2 gs.length } : Sched).taskmap.map (fun p => p.1) :=
    modifyTask_keys 1 (fun tk => { tk with gen := c3tids }) _
  rw [h1]
  have h2 : ({ s0A gs with ready := List.range' 2 gs.length } : Sched).taskmap
      = (s0A gs).taskmap := rfl
  rw [h2, s0A_shape]
  rw [List.map_cons]
  have h3 : (List.zip (List.range' 2 gs.length) (gs.map freshTask)).map (fun p => p.1)
      = List.range' 2 gs.length := List.map_fst_zip _ _ (by simp)
  rw [h3]

theorem c3A_victims (gs : List Gen) :
    ((c3Asigma gs).taskmap.filter (fun p => p.1 ∉ ([1] : List Nat))).map (fun p => p.1)
      = List.range' 2 gs.length := by
  rw [map_fst_filter_notmem, c3Asigma_keys]
  rw [List.filter_cons]
  rw [if_neg (by simp)]
  apply List.filter_eq_self.mpr
  intro a ha
  have h4 := (List.mem_range'_1.mp ha).1
  simp only [List.mem_singleton, decide_eq_true_eq]
  omega

theorem c3AKS_eq (gs : List Gen) :
    c3AKS gs = schedule 1 (setSendval 1
      (Value.taskObjList (List.range' 2 gs.length))
      (closeFold (List.range' 2 gs.length) (c3Asigma gs))) := by
  show handle (Request.killAllTasksExcept [1]) 1 (c3Asigma gs) = _
  rw [handle_kae_eq]
  rw [c3A_victims]

theorem c3AKS_ready (gs : List Gen) :
    (c3AKS gs).ready = List.range' 2 gs.length ++ [1] := by
  rw [c3AKS_eq]
  have hp : (setSendval 1 (Value.taskObjList (List.range' 2 gs.length))
      (closeFold (List.range' 2 gs.length) (c3Asigma gs))).paused_in_syscall = [] := by
    have h1 : (setSendval 1 (Value.taskObjList (List.range' 2 gs.length))
        (closeFold (List.range' 2 gs.length) (c3Asigma gs))).paused_in_syscall
        = (closeFold (List.range' 2 gs.length) (c3Asigma gs)).paused_in_syscall := rfl
    rw [h1, closeFold_paused_in_syscall, c3Asigma_pis]
  rw [schedule_ready_of_not_paused (by rw [hp]; simp)]
  have h2 : (setSendval 1 (Value.taskObjList (List.range' 2 gs.length))
      (closeFold (List.range' 2 gs.length) (c3Asigma gs))).ready
      = (closeFold (List.range' 2 gs.length) (c3Asigma gs)).ready := rfl
  rw [h2, closeFold_ready]
  have h3 : (c3Asigma gs).ready = List.range' 2 gs.length := rfl
  rw [h3]

theorem c3AKS_ew (gs : List Gen) : (c3AKS gs).exit_waiting = [] := by
  rw [c3AKS_eq, schedule_exit_waiting]
  have h1 : (setSendval 1 (Value.taskObjList (List.range' 2 gs.length))
      (closeFold (List.range' 2 gs.length) (c3Asigma gs))).exit_waiting
      = (closeFold (List.range' 2 gs.length) (c3Asigma gs)).exit_waiting := rfl
  rw [h1, closeFold_exit_waiting, c3Asigma_ew]

theorem c3AKS_pis (gs : List Gen) : (c3AKS gs).paused_in_syscall = [] := by
  rw [c3AKS_eq]
  have hp : (setSendval 1 (Value.taskObjList (List.range' 2 gs.length))
      (closeFold (List.range' 2 gs.length) (c3Asigma gs))).paused_in_syscall = [] := by
    have h1 : (setSendval 1 (Value.taskObjList (List.range' 2 gs.length))
        (closeFold (List.range' 2 gs.length) (c3Asigma gs))).paused_in_syscall
        = (closeFold (List.range' 2 gs.length) (c3Asigma gs)).paused_in_syscall := rfl
    rw [h1, closeFold_paused_in_syscall, c3Asigma_pis]
  rw [schedule_paused_in_syscall_of_not _ _ (by rw [hp]; simp), hp]

theorem c3AKS_keys (gs : List Gen) :
    (c3AKS gs).taskmap.map (fun p => p.1) = 1 :: List.range' 2 gs.length := by
  rw [c3AKS_eq, schedule_taskmap]
  have h1 : (setSendval 1 (Value.taskObjList (List.range' 2 gs.length))
      (closeFold (List.range' 2 gs.length) (c3Asigma gs))).taskmap.map (fun p => p.1)
      = (closeFold (List.range' 2 gs.length) (c3Asigma gs)).taskmap.map (fun p => p.1) :=
    modifyTask_keys 1 _ _
  rw [h1]
  have h2 : (closeFold (List.range' 2 gs.length) (c3Asigma gs)).taskmap.map (fun p => p.1)
      = (c3Asigma gs).taskmap.map (fun p => p.1) := closeFold_keys _ _
  rw [h2, c3Asigma_keys]

theorem c3AKS_closed (gs : List Gen) : ∀ v ∈ List.range' 2 gs.length,
    (((c3AKS gs).taskmap.lookup v).map (fun tk => tk.closed)).getD true = true := by
  intro v hv
  have hv1 : v ≠ 1 := by
    have := (List.mem_range'_1.mp hv).1
    omega
  rw [c3AKS_eq, schedule_taskmap]
  have h2 : (setSendval 1 (Value.taskObjList (List.range' 2 gs.length))
      (closeFold (List.range' 2 gs.length) (c3Asigma gs))).taskmap.lookup v
      = (closeFold (List.range' 2 gs.length) (c3Asigma gs)).taskmap.lookup v :=
    modifyTask_lookup_ne 1 _ _ v hv1
  rw [h2]
  exact closeFold_closed_of_mem (List.range' 2 gs.length) (c3Asigma gs) v hv

theorem c3AKS_lookup1 (gs : List Gen) :
    (c3AKS gs).taskmap.lookup 1 = Option.some
      { gen := c3tids, sendval := Value.taskObjList (List.range' 2 gs.length)
        waitmode := WaitMode.any, closed := false } := by
  rw [c3AKS_eq, schedule_taskmap]
  have h1 : (setSendval 1 (Value.taskObjList (List.range' 2 gs.length))
      (closeFold (List.range' 2 gs.length) (c3Asigma gs))).taskmap.lookup 1
      = ((closeFold (List.range' 2 gs.length) (c3Asigma gs)).taskmap.lookup 1).map
          (fun tk => { tk with sendval := Value.taskObjList (List.range' 2 gs.length) }) :=
    modifyTask_lookup_self 1 _ _
  rw [h1]
  have h2 : (closeFold (List.range' 2 gs.length) (c3Asigma gs)).taskmap.lookup 1
      = (c3Asigma gs).taskmap.lookup 1 :=
    closeFold_lookup_of_not_mem _ _ 1 (by
      intro hm
      have := (List.mem_range'_1.mp hm).1
      omega)
  rw [h2]
  have h3 : (c3Asigma gs).taskmap.lookup 1
      = ((s0A gs).taskmap.lookup 1).map (fun tk => { tk with gen := c3tids }) :=
    modifyTask_lookup_self 1 _ _
  rw [h3, c3A_lookup0]
  rfl

theorem c3A_drain (gs : List Gen) :
    stepAux (gs.length + 1) (c3AKS gs) = stepAux 1 (c3AKS2 gs) := by
  rw [show gs.length + 1 = (List.range' 2 gs.length).length + 1 from by simp]
  exact stepAux_drain (List.range' 2 gs.length) 1 [1] (c3AKS gs)
    (c3AKS_ready gs) (c3AKS_closed gs) (c3AKS_ew gs)

end Teer

namespace Teer

theorem handle_getTids_eq (caller : Nat) (s : Sched) :
    handle Request.getTids caller s =
      schedule caller (setSendval caller
        (Value.natList (s.taskmap.map (fun p => p.1))) s) := rfl

theorem c3AKS2_ready (gs : List Gen) : (c3AKS2 gs).ready = [1] := rfl

theorem c3AKS2_pis (gs : List Gen) : (c3AKS2 gs).paused_in_syscall = [] := by
  have h : (c3AKS2 gs).paused_in_syscall = (c3AKS gs).paused_in_syscall := rfl
  rw [h, c3AKS_pis]

theorem c3AKS2_lookup1 (gs : List Gen) :
    (c3AKS2 gs).taskmap.lookup 1 = Option.some
      { gen := c3tids, sendval := Value.taskObjList (List.range' 2 gs.length)
        waitmode := WaitMode.any, closed := false } := by
  have h1 : (c3AKS2 gs).taskmap.lookup 1 = (c3AKS gs).taskmap.lookup 1 :=
    lookup_filter_keep (c3AKS gs).taskmap 1
      (fun k => decide (k ∉ List.range' 2 gs.length))
      (by
        simp only [decide_eq_true_eq, List.mem_range'_1]
        omega)
  rw [h1, c3AKS_lookup1]

theorem c3AKS2_keys (gs : List Gen) :
    (c3AKS2 gs).taskmap.map (fun p => p.1) = [1] := by
  show ((c3AKS gs).taskmap.filter (fun p => p.1 ∉ List.range' 2 gs.length)).map
    (fun p => p.1) = [1]
  rw [map_fst_filter_notmem, c3AKS_keys]
  rw [List.filter_cons]
  rw [if_pos (by
    simp only [decide_eq_true_eq, List.mem_range'_1]
    omega)]
  rw [show (List.range' 2 gs.length).filter (fun k => k ∉ List.range' 2 gs.length) = []
    from List.filter_eq_nil_iff.mpr (fun a ha => by simp [ha])]

theorem c3A (gs : List Gen) :
    (stepAux (gs.length + 2) (s0A gs)).taskmap.map (fun p => p.1) = [1] ∧
    ((stepAux (gs.length + 2) (s0A gs)).taskmap.lookup 1).map (fun tk => tk.sendval)
      = Option.some (Value.natList [1]) ∧
    (stepAux (gs.length + 2) (s0A gs)).ready = [1] := by
  have e1 : stepAux (gs.length + 2) (s0A gs) = stepAux (gs.length + 1) (c3AKS gs) := by
    rw [show gs.length + 2 = gs.length + 1 + 1 from rfl]
    rw [stepAux_cons (gs.length + 1) (s0A gs) 1 (List.range' 2 gs.length)
      (freshTask (c3caller 1)) (c3A_ready0 gs) (c3A_lookup0 gs)]
    rfl
  have e3 : stepAux 1 (c3AKS2 gs) =
      handle Request.getTids 1 (setGen 1 (Gen.mk (fun _ => GenRes.stop))
        { c3AKS2 gs with ready := [] }) := by
    rw [show (1 : Nat) = 0 + 1 from rfl]
    rw [stepAux_cons 0 (c3AKS2 gs) 1 []
      { gen := c3tids, sendval := Value.taskObjList (List.range' 2 gs.length)
        waitmode := WaitMode.any, closed := false }
      (c3AKS2_ready gs) (c3AKS2_lookup1 gs)]
    rfl
  rw [e1, c3A_drain gs, e3]
  rw [handle_getTids_eq]
  have hkeys : (setGen 1 (Gen.mk (fun _ => GenRes.stop))
      { c3AKS2 gs with ready := [] }).taskmap.map (fun p => p.1) = [1] := by
    have h1 : (setGen 1 (Gen.mk (fun _ => GenRes.stop))
        { c3AKS2 gs with ready := [] }).taskmap.map (fun p => p.1)
        = (c3AKS2 gs).taskmap.map (fun p => p.1) :=
      modifyTask_keys 1 _ _
    rw [h1, c3AKS2_keys]
  rw [hkeys]
  have hpis : (setSendval 1 (Value.natList [1]) (setGen 1 (Gen.mk (fun _ => GenRes.stop))
      { c3AKS2 gs with ready := [] })).paused_in_syscall = [] := by
    have h1 : (setSendval 1 (Value.natList [1]) (setGen 1 (Gen.mk (fun _ => GenRes.stop))
        { c3AKS2 gs with ready := [] })).paused_in_syscall
        = (c3AKS2 gs).paused_in_syscall := rfl
    rw [h1, c3AKS2_pis]
  refine ⟨?_, ?_, ?_⟩
  · rw [schedule_taskmap]
    have h1 : (setSendval 1 (Value.natList [1]) (setGen 1 (Gen.mk (fun _ => GenRes.stop))
        { c3AKS2 gs with ready := [] })).taskmap.map (fun p => p.1)
        = (setGen 1 (Gen.mk (fun _ => GenRes.stop))
            { c3AKS2 gs with ready := [] }).taskmap.map (fun p => p.1) :=
      modifyTask_keys 1 _ _
    rw [h1, hkeys]
  · rw [schedule_taskmap]
    have h1 : (setSendval 1 (Value.natList [1]) (setGen 1 (Gen.mk (fun _ => GenRes.stop))
        { c3AKS2 gs with ready := [] })).taskmap.lookup 1
        = ((setGen 1 (Gen.mk (fun _ => GenRes.stop))
            { c3AKS2 gs with ready := [] }).taskmap.lookup 1).map
          (fun tk => { tk with sendval := Value.natList [1] }) :=
      modifyTask_lookup_self 1 _ _
    rw [h1]
    have h2 : (setGen 1 (Gen.mk (fun _ => GenRes.stop))
        { c3AKS2 gs with ready := [] }).taskmap.lookup 1
        = ((c3AKS2 gs).taskmap.lookup 1).map
          (fun tk => { tk with gen := Gen.mk (fun _ => GenRes.stop) }) :=
      modifyTask_lookup_self 1 _ _
    rw [h2, c3AKS2_lookup1]
    rfl
  · rw [schedule_ready_of_not_paused (by rw [hpis]; simp)]
    have h1 : (setSendval 1 (Value.natList [1]) (setGen 1 (Gen.mk (fun _ => GenRes.stop))
        { c3AKS2 gs with ready := [] })).ready = ([] : List Nat) := rfl
    rw [h1]
    rfl
end Teer

namespace Teer

theorem lookup_none_of_not_mem_keys {β : Type} : ∀ (l : List (Nat × β)) (k : Nat),
    k ∉ l.map (fun p => p.1) → l.lookup k = Option.none := by
  intro l
  induction l with
  | nil => intro k _; rfl
  | cons p rest ih =>
      intro k hk
      obtain ⟨a, b⟩ := p
      rw [List.lookup_cons]
      have ha : k ≠ a := by
        intro he
        exact hk (by rw [List.map_cons]; exact he ▸ List.mem_cons_self _ _)
      rw [beq_false_of_ne ha]
      exact ih k (fun hm => hk (by rw [List.map_cons]; exact List.mem_cons_of_mem _ hm))

theorem closeFold_lookup_of_mem : ∀ (ks : List Nat) (s : Sched) (v : Nat), v ∈ ks →
    (closeFold ks s).taskmap.lookup v
      = (s.taskmap.lookup v).map (fun tk => { tk with closed := true }) := by
  intro ks
  induction ks with
  | nil => intro s v hv; exact absurd hv (List.not_mem_nil v)
  | cons k rest ih =>
      intro s v hv
      show (closeFold rest (closeTask k s)).taskmap.lookup v = _
      by_cases hm : v ∈ rest
      · rw [ih _ v hm]
        by_cases hvk : v = k
        · subst hvk
          unfold closeTask
          rw [modifyTask_lookup_self]
          cases s.taskmap.lookup v <;> rfl
        · rw [show (closeTask k s).taskmap.lookup v = s.taskmap.lookup v from
            modifyTask_lookup_ne k _ s v hvk]
      · have hvk : v = k := by
          rcases List.mem_cons.mp hv with h | h
          · exact h
          · exact absurd h hm
        subst hvk
        rw [closeFold_lookup_of_not_mem rest _ v hm]
        unfold closeTask
        rw [modifyTask_lookup_self]

theorem map_fst_filter_ne {β : Type} (l : List (Nat × β)) (e : Nat) :
    (l.filter (fun p => p.1 ≠ e)).map (fun p => p.1)
      = (l.map (fun p => p.1)).filter (fun k => k ≠ e) := by
  induction l with
  | nil => rfl
  | cons p rest ih =>
      rw [List.filter_cons, List.map_cons, List.filter_cons]
      by_cases h : p.1 = e
      · rw [if_neg (by simpa using h), if_neg (by simpa using h)]
        exact ih
      · rw [if_pos (by simpa using h), if_pos (by simpa using h)]
        rw [List.map_cons, ih]

theorem s0B_shape (gs : List Gen) :
    s0B gs = { Sched.empty with
      nextTid := 1 + gs.length + 1
      taskmap := (1, freshTask (c3caller (gs.length + 2))) ::
        (List.zip (List.range' 2 gs.length) (gs.map freshTask)
          ++ [(1 + gs.length + 1, freshTask c3spin)])
      ready := 1 :: (List.range' 2 gs.length ++ [1 + gs.length + 1]) } := by
  unfold s0B
  rw [show spawnAll gs (new1 (c3caller (gs.length + 2)) Sched.empty)
      = { Sched.empty with
            nextTid := 1 + gs.length
            taskmap := (1, freshTask (c3caller (gs.length + 2))) ::
              List.zip (List.range' 2 gs.length) (gs.map freshTask)
            ready := 1 :: List.range' 2 gs.length } from by
    rw [spawnAll_shape gs (new1 (c3caller (gs.length + 2)) Sched.empty) rfl]
    rfl]
  rw [new1_eq c3spin]
  · rfl
  · rfl

end Teer

namespace Teer

def c3Bsigma (gs : List Gen) : Sched :=
  setGen 1 c3tids
    { s0B gs with ready := List.range' 2 gs.length ++ [1 + gs.length + 1] }

def c3BKS (gs : List Gen) : Sched :=
  handle (Request.killAllTasksExcept [gs.length + 2]) 1 (c3Bsigma gs)

theorem c3B_ready0 (gs : List Gen) :
    (s0B gs).ready = 1 :: (List.range' 2 gs.length ++ [1 + gs.length + 1]) := by
  rw [s0B_shape]

theorem c3B_lookup0 (gs : List Gen) :
    (s0B gs).taskmap.lookup 1 = Option.some (freshTask (c3caller (gs.length + 2))) := by
  rw [s0B_shape]
  rfl

theorem c3Bsigma_pis (gs : List Gen) : (c3Bsigma gs).paused_in_syscall = [] := by
  have h : (c3Bsigma gs).paused_in_syscall = (s0B gs).paused_in_syscall := rfl
  rw [h, s0B_shape]
  rfl

theorem c3Bsigma_ew (gs : List Gen) : (c3Bsigma gs).exit_waiting = [] := by
  have h : (c3Bsigma gs).exit_waiting = (s0B gs).exit_waiting := rfl
  rw [h, s0B_shape]
  rfl

theorem c3Bsigma_keys (gs : List Gen) :
    (c3Bsigma gs).taskmap.map (fun p => p.1)
      = 1 :: (List.range' 2 gs.length ++ [1 + gs.length + 1]) := by
  have h1 : (c3Bsigma gs).taskmap.map (fun p => p.1)
      = (s0B gs).taskmap.map (fun p => p.1) :=
    modifyTask_keys 1 (fun tk => { tk with gen := c3tids }) _
  rw [h1, s0B_shape]
  rw [List.map_cons, List.map_append]
  have h3 : (List.zip (List.range' 2 gs.length) (gs.map freshTask)).map (fun p => p.1)
      = List.range' 2 gs.length := List.map_fst_zip _ _ (by simp)
  rw [h3]
  rfl

theorem c3B_victims (gs : List Gen) :
    ((c3Bsigma gs).taskmap.filter
        (fun p => p.1 ∉ ([gs.length + 2] : List Nat))).map (fun p => p.1)
      = 1 :: List.range' 2 gs.length := by
  rw [map_fst_filter_notmem, c3Bsigma_keys]
  rw [List.filter_cons]
  rw [if_pos (by
    simp only [List.mem_singleton, decide_eq_true_eq]
    omega)]
  rw [List.filter_append]
  rw [show (List.range' 2 gs.length).filter
      (fun k => k ∉ ([gs.length + 2] : List Nat)) = List.range' 2 gs.length from
    List.filter_eq_self.mpr (fun a ha => by
      have h4 := (List.mem_range'_1.mp ha).2
      simp only [List.mem_singleton, decide_eq_true_eq]
      omega)]
  rw [show ([1 + gs.length + 1] : List Nat).filter
      (fun k => k ∉ ([gs.length + 2] : List Nat)) = [] from by
    rw [List.filter_cons]
    rw [if_neg (by
      simp only [List.mem_singleton, decide_eq_true_eq]
      omega)]
    rfl]
  rw [List.append_nil]

theorem c3BKS_eq (gs : List Gen) :
    c3BKS gs = schedule 1 (setSendval 1
      (Value.taskObjList (1 :: List.range' 2 gs.length))
      (closeFold (1 :: List.range' 2 gs.length) (c3Bsigma gs))) := by
  show handle (Request.killAllTasksExcept [gs.length + 2]) 1 (c3Bsigma gs) = _
  rw [handle_kae_eq]
  rw [c3B_victims]

theorem c3BKS_ready (gs : List Gen) :
    (c3BKS gs).ready = List.range' 2 gs.length ++ [1 + gs.length + 1, 1] := by
  rw [c3BKS_eq]
  have hp : (setSendval 1 (Value.taskObjList (1 :: List.range' 2 gs.length))
      (closeFold (1 :: List.range' 2 gs.length) (c3Bsigma gs))).paused_in_syscall = [] := by
    have h1 : (setSendval 1 (Value.taskObjList (1 :: List.range' 2 gs.length))
        (closeFold (1 :: List.range' 2 gs.length) (c3Bsigma gs))).paused_in_syscall
        = (closeFold (1 :: List.range' 2 gs.length) (c3Bsigma gs)).paused_in_syscall := rfl
    rw [h1, closeFold_paused_in_syscall, c3Bsigma_pis]
  rw [schedule_ready_of_not_paused (by rw [hp]; simp)]
  have h2 : (setSendval 1 (Value.taskObjList (1 :: List.range' 2 gs.length))
      (closeFold (1 :: List.range' 2 gs.length) (c3Bsigma gs))).ready
      = (closeFold (1 :: List.range' 2 gs.length) (c3Bsigma gs)).ready := rfl
  rw [h2, closeFold_ready]
  have h3 : (c3Bsigma gs).ready
      = List.range' 2 gs.length ++ [1 + gs.length + 1] := rfl
  rw [h3, List.append_assoc]
  rfl

theorem c3BKS_ew (gs : List Gen) : (c3BKS gs).exit_waiting = [] := by
  rw [c3BKS_eq, schedule_exit_waiting]
  have h1 : (setSendval 1 (Value.taskObjList (1 :: List.range' 2 gs.length))
      (closeFold (1 :: List.range' 2 gs.length) (c3Bsigma gs))).exit_waiting
      = (closeFold (1 :: List.range' 2 gs.length) (c3Bsigma gs)).exit_waiting := rfl
  rw [h1, closeFold_exit_waiting, c3Bsigma_ew]

theorem c3BKS_pis (gs : List Gen) : (c3BKS gs).paused_in_syscall = [] := by
  rw [c3BKS_eq]
  have hp : (setSendval 1 (Value.taskObjList (1 :: List.range' 2 gs.length))
      (closeFold (1 :: List.range' 2 gs.length) (c3Bsigma gs))).paused_in_syscall = [] := by
    have h1 : (setSendval 1 (Value.taskObjList (1 :: List.range' 2 gs.length))
        (closeFold (1 :: List.range' 2 gs.length) (c3Bsigma gs))).paused_in_syscall
        = (closeFold (1 :: List.range' 2 gs.length) (c3Bsigma gs)).paused_in_syscall := rfl
    rw [h1, closeFold_paused_in_syscall, c3Bsigma_pis]
  rw [schedule_paused_in_syscall_of_not _ _ (by rw [hp]; simp), hp]

theorem c3BKS_keys (gs : List Gen) :
    (c3BKS gs).taskmap.map (fun p => p.1)
      = 1 :: (List.range' 2 gs.length ++ [1 + gs.length + 1]) := by
  rw [c3BKS_eq, schedule_taskmap]
  have h1 : (setSendval 1 (Value.taskObjList (1 :: List.range' 2 gs.length))
      (closeFold (1 :: List.range' 2 gs.length) (c3Bsigma gs))).taskmap.map (fun p => p.1)
      = (closeFold (1 :: List.range' 2 gs.length) (c3Bsigma gs)).taskmap.map (fun p => p.1) :=
    modifyTask_keys 1 _ _
  rw [h1]
  have h2 : (closeFold (1 :: List.range' 2 gs.length) (c3Bsigma gs)).taskmap.map (fun p => p.1)
      = (c3Bsigma gs).taskmap.map (fun p => p.1) := closeFold_keys _ _
  rw [h2, c3Bsigma_keys]

theorem c3BKS_closed (gs : List Gen) : ∀ v ∈ List.range' 2 gs.length,
    (((c3BKS gs).taskmap.lookup v).map (fun tk => tk.closed)).getD true = true := by
  intro v hv
  have hv1 : v ≠ 1 := by
    have := (List.mem_range'_1.mp hv).1
    omega
  rw [c3BKS_eq, schedule_taskmap]
  have h2 : (setSendval 1 (Value.taskObjList (1 :: List.range' 2 gs.length))
      (closeFold (1 :: List.range' 2 gs.length) (c3Bsigma gs))).taskmap.lookup v
      = (closeFold (1 :: List.range' 2 gs.length) (c3Bsigma gs)).taskmap.lookup v :=
    modifyTask_lookup_ne 1 _ _ v hv1
  rw [h2]
  exact closeFold_closed_of_mem (1 :: List.range' 2 gs.length) (c3Bsigma gs) v
    (List.mem_cons_of_mem _ hv)

theorem c3BKS_lookup1 (gs : List Gen) :
    (c3BKS gs).taskmap.lookup 1 = Option.some
      { gen := c3tids, sendval := Value.taskObjList (1 :: List.range' 2 gs.length)
        waitmode := WaitMode.any, closed := true } := by
  rw [c3BKS_eq, schedule_taskmap]
  have h1 : (setSendval 1 (Value.taskObjList (1 :: List.range' 2 gs.length))
      (closeFold (1 :: List.range' 2 gs.length) (c3Bsigma gs))).taskmap.lookup 1
      = ((closeFold (1 :: List.range' 2 gs.length) (c3Bsigma gs)).taskmap.lookup 1).map
          (fun tk => { tk with sendval := Value.taskObjList (1 :: List.range' 2 gs.length) }) :=
    modifyTask_lookup_self 1 _ _
  rw [h1]
  rw [closeFold_lookup_of_mem (1 :: List.range' 2 gs.length) (c3Bsigma gs) 1
    (List.mem_cons_self _ _)]
  have h3 : (c3Bsigma gs).taskmap.lookup 1
      = ((s0B gs).taskmap.lookup 1).map (fun tk => { tk with gen := c3tids }) :=
    modifyTask_lookup_self 1 _ _
  rw [h3, c3B_lookup0]
  rfl

theorem c3BKS_lookupT (gs : List Gen) :
    (c3BKS gs).taskmap.lookup (1 + gs.length + 1) = Option.some (freshTask c3spin) := by
  have hT1 : (1 + gs.length + 1 : Nat) ≠ 1 := by omega
  have hTr : (1 + gs.length + 1 : Nat) ∉ List.range' 2 gs.length := by
    intro hm
    have := (List.mem_range'_1.mp hm).2
    omega
  rw [c3BKS_eq, schedule_taskmap]
  have h1 : (setSendval 1 (Value.taskObjList (1 :: List.range' 2 gs.length))
      (closeFold (1 :: List.range' 2 gs.length) (c3Bsigma gs))).taskmap.lookup (1 + gs.length + 1)
      = (closeFold (1 :: List.range' 2 gs.length) (c3Bsigma gs)).taskmap.lookup (1 + gs.length + 1) :=
    modifyTask_lookup_ne 1 _ _ _ hT1
  rw [h1]
  rw [closeFold_lookup_of_not_mem (1 :: List.range' 2 gs.length) (c3Bsigma gs)
    (1 + gs.length + 1) (by
      intro hm
      rcases List.mem_cons.mp hm with h | h
      · exact hT1 h
      · exact hTr h)]
  have h2 : (c3Bsigma gs).taskmap.lookup (1 + gs.length + 1)
      = (s0B gs).taskmap.lookup (1 + gs.length + 1) :=
    modifyTask_lookup_ne 1 _ _ _ hT1
  rw [h2, s0B_shape]
  show ((1, freshTask (c3caller (gs.length + 2))) ::
      (List.zip (List.range' 2 gs.length) (gs.map freshTask)
        ++ [(1 + gs.length + 1, freshTask c3spin)])).lookup (1 + gs.length + 1)
    = Option.some (freshTask c3spin)
  rw [List.lookup_cons, beq_false_of_ne hT1]
  rw [lookup_append]
  rw [lookup_none_of_not_mem_keys _ _ (by
    rw [show (List.zip (List.range' 2 gs.length) (gs.map freshTask)).map (fun p => p.1)
        = List.range' 2 gs.length from List.map_fst_zip _ _ (by simp)]
    exact hTr)]
  rw [List.lookup_cons, beq_self_eq_true]
  rfl

end Teer

namespace Teer

def c3BKS2 (gs : List Gen) : Sched :=
  { c3BKS gs with ready := [1 + gs.length + 1, 1]
                  taskmap := (c3BKS gs).taskmap.filter
                    (fun p => p.1 ∉ List.range' 2 gs.length) }

theorem c3B_drain (gs : List Gen) :
    stepAux (gs.length + 3) (c3BKS gs) = stepAux 3 (c3BKS2 gs) := by
  rw [show gs.length + 3 = (List.range' 2 gs.length).length + 3 from by simp]
  refine stepAux_drain (List.range' 2 gs.length) 3 [1 + gs.length + 1, 1] (c3BKS gs)
    ?_ (c3BKS_closed gs) (c3BKS_ew gs)
  rw [c3BKS_ready gs]

theorem c3BKS2_ready (gs : List Gen) :
    (c3BKS2 gs).ready = [1 + gs.length + 1, 1] := rfl

theorem c3BKS2_pis (gs : List Gen) : (c3BKS2 gs).paused_in_syscall = [] := by
  have h : (c3BKS2 gs).paused_in_syscall = (c3BKS gs).paused_in_syscall := rfl
  rw [h, c3BKS_pis]

theorem c3BKS2_ew (gs : List Gen) : (c3BKS2 gs).exit_waiting = [] := by
  have h : (c3BKS2 gs).exit_waiting = (c3BKS gs).exit_waiting := rfl
  rw [h, c3BKS_ew]

theorem c3BKS2_keys (gs : List Gen) :
    (c3BKS2 gs).taskmap.map (fun p => p.1) = [1, 1 + gs.length + 1] := by
  show ((c3BKS gs).taskmap.filter (fun p => p.1 ∉ List.range' 2 gs.length)).map
    (fun p => p.1) = [1, 1 + gs.length + 1]
  rw [map_fst_filter_notmem, c3BKS_keys]
  rw [List.filter_cons]
  rw [if_pos (by
    simp only [decide_eq_true_eq, List.mem_range'_1]
    omega)]
  rw [List.filter_append]
  rw [show (List.range' 2 gs.length).filter (fun k => k ∉ List.range' 2 gs.length) = []
    from List.filter_eq_nil_iff.mpr (fun a ha => by simp [ha])]
  rw [show ([1 + gs.length + 1] : List Nat).filter
      (fun k => k ∉ List.range' 2 gs.length) = [1 + gs.length + 1] from by
    rw [List.filter_cons]
    rw [if_pos (by
      simp only [decide_eq_true_eq, List.mem_range'_1]
      omega)]
    rfl]
  rfl

theorem c3BKS2_lookupT (gs : List Gen) :
    (c3BKS2 gs).taskmap.lookup (1 + gs.length + 1) = Option.some (freshTask c3spin) := by
  have h1 : (c3BKS2 gs).taskmap.lookup (1 + gs.length + 1)
      = (c3BKS gs).taskmap.lookup (1 + gs.length + 1) :=
    lookup_filter_keep (c3BKS gs).taskmap (1 + gs.length + 1)
      (fun k => decide (k ∉ List.range' 2 gs.length))
      (by
        simp only [decide_eq_true_eq, List.mem_range'_1]
        omega)
  rw [h1, c3BKS_lookupT]

theorem c3BKS2_lookup1 (gs : List Gen) :
    (c3BKS2 gs).taskmap.lookup 1 = Option.some
      { gen := c3tids, sendval := Value.taskObjList (1 :: List.range' 2 gs.length)
        waitmode := WaitMode.any, closed := true } := by
  have h1 : (c3BKS2 gs).taskmap.lookup 1 = (c3BKS gs).taskmap.lookup 1 :=
    lookup_filter_keep (c3BKS gs).taskmap 1
      (fun k => decide (k ∉ List.range' 2 gs.length))
      (by
        simp only [decide_eq_true_eq, List.mem_range'_1]
        omega)
  rw [h1, c3BKS_lookup1]

def c3Bs3 (gs : List Gen) : Sched :=
  schedule (1 + gs.length + 1)
    (setGen (1 + gs.length + 1) c3tids { c3BKS2 gs with ready := [1] })

theorem c3B_e3 (gs : List Gen) :
    stepAux 3 (c3BKS2 gs) = stepAux 2 (c3Bs3 gs) := by
  rw [show (3 : Nat) = 2 + 1 from rfl]
  rw [stepAux_cons 2 (c3BKS2 gs) (1 + gs.length + 1) [1] (freshTask c3spin)
    (c3BKS2_ready gs) (c3BKS2_lookupT gs)]
  rfl

theorem c3Bs3_pis (gs : List Gen) : (c3Bs3 gs).paused_in_syscall = [] := by
  show (schedule _ _).paused_in_syscall = []
  have hp : (setGen (1 + gs.length + 1) c3tids
      { c3BKS2 gs with ready := [1] }).paused_in_syscall = [] := by
    have h1 : (setGen (1 + gs.length + 1) c3tids
        { c3BKS2 gs with ready := [1] }).paused_in_syscall
        = (c3BKS2 gs).paused_in_syscall := rfl
    rw [h1, c3BKS2_pis]
  rw [schedule_paused_in_syscall_of_not _ _ (by rw [hp]; simp), hp]

theorem c3Bs3_ew (gs : List Gen) : (c3Bs3 gs).exit_waiting = [] := by
  show (schedule _ _).exit_waiting = []
  rw [schedule_exit_waiting]
  have h1 : (setGen (1 + gs.length + 1) c3tids
      { c3BKS2 gs with ready := [1] }).exit_waiting
      = (c3BKS2 gs).exit_waiting := rfl
  rw [h1, c3BKS2_ew]

theorem c3Bs3_ready (gs : List Gen) : (c3Bs3 gs).ready = [1, 1 + gs.length + 1] := by
  show (schedule _ _).ready = _
  have hp : (setGen (1 + gs.length + 1) c3tids
      { c3BKS2 gs with ready := [1] }).paused_in_syscall = [] := by
    have h1 : (setGen (1 + gs.length + 1) c3tids
        { c3BKS2 gs with ready := [1] }).paused_in_syscall
        = (c3BKS2 gs).paused_in_syscall := rfl
    rw [h1, c3BKS2_pis]
  rw [schedule_ready_of_not_paused (by rw [hp]; simp)]
  rfl

theorem c3Bs3_keys (gs : List Gen) :
    (c3Bs3 gs).taskmap.map (fun p => p.1) = [1, 1 + gs.length + 1] := by
  show (schedule _ _).taskmap.map (fun p => p.1) = _
  rw [schedule_taskmap]
  have h1 : (setGen (1 + gs.length + 1) c3tids
      { c3BKS2 gs with ready := [1] }).taskmap.map (fun p => p.1)
      = (c3BKS2 gs).taskmap.map (fun p => p.1) :=
    modifyTask_keys _ _ _
  rw [h1, c3BKS2_keys]

theorem c3Bs3_lookup1 (gs : List Gen) :
    (c3Bs3 gs).taskmap.lookup 1 = Option.some
      { gen := c3tids, sendval := Value.taskObjList (1 :: List.range' 2 gs.length)
        waitmode := WaitMode.any, closed := true } := by
  show (schedule _ _).taskmap.lookup 1 = _
  rw [schedule_taskmap]
  have h1 : (setGen (1 + gs.length + 1) c3tids
      { c3BKS2 gs with ready := [1] }).taskmap.lookup 1
      = (c3BKS2 gs).taskmap.lookup 1 :=
    modifyTask_lookup_ne _ _ _ 1 (by omega)
  rw [h1, c3BKS2_lookup1]

theorem c3Bs3_lookupT (gs : List Gen) :
    (c3Bs3 gs).taskmap.lookup (1 + gs.length + 1) = Option.some
      { gen := c3tids, sendval := Value.none
        waitmode := WaitMode.any, closed := false } := by
  show (schedule _ _).taskmap.lookup (1 + gs.length + 1) = _
  rw [schedule_taskmap]
  have h1 : (setGen (1 + gs.length + 1) c3tids
      { c3BKS2 gs with ready := [1] }).taskmap.lookup (1 + gs.length + 1)
      = ((c3BKS2 gs).taskmap.lookup (1 + gs.length + 1)).map
          (fun tk => { tk with gen := c3tids }) :=
    modifyTask_lookup_self _ _ _
  rw [h1, c3BKS2_lookupT]
  rfl

end Teer

namespace Teer

def c3Bs4 (gs : List Gen) : Sched :=
  { c3Bs3 gs with ready := [1 + gs.length + 1]
                  taskmap := (c3Bs3 gs).taskmap.filter (fun p => p.1 ≠ 1) }

theorem stepAux_cons_closed (n : Nat) (s : Sched) (tid : Nat) (rest : List Nat)
    (tk : TaskObj) (hready : s.ready = tid :: rest)
    (hlk : s.taskmap.lookup tid = Option.some tk) (hclosed : tk.closed = true) :
    stepAux (n + 1) s = stepAux n (exit tid { s with ready := rest }) := by
  have hlk2 : ({ s with ready := rest } : Sched).taskmap.lookup tid = Option.some tk := hlk
  simp only [stepAux, hready, hlk2]
  rw [if_pos hclosed]

theorem c3B_e4 (gs : List Gen) :
    stepAux 2 (c3Bs3 gs) = stepAux 1 (c3Bs4 gs) := by
  rw [show (2 : Nat) = 1 + 1 from rfl]
  rw [stepAux_cons_closed 1 (c3Bs3 gs) 1 [1 + gs.length + 1]
    { gen := c3tids, sendval := Value.taskObjList (1 :: List.range' 2 gs.length)
      waitmode := WaitMode.any, closed := true }
    (c3Bs3_ready gs) (c3Bs3_lookup1 gs) rfl]
  rw [exit_eq_of_ew_nil 1 { c3Bs3 gs with ready := [1 + gs.length + 1] }
    (by exact c3Bs3_ew gs)]
  congr 1

theorem c3Bs4_ready (gs : List Gen) : (c3Bs4 gs).ready = [1 + gs.length + 1] := rfl

theorem c3Bs4_pis (gs : List Gen) : (c3Bs4 gs).paused_in_syscall = [] := by
  have h : (c3Bs4 gs).paused_in_syscall = (c3Bs3 gs).paused_in_syscall := rfl
  rw [h, c3Bs3_pis]

theorem c3Bs4_keys (gs : List Gen) :
    (c3Bs4 gs).taskmap.map (fun p => p.1) = [1 + gs.length + 1] := by
  show ((c3Bs3 gs).taskmap.filter (fun p => p.1 ≠ 1)).map (fun p => p.1) = _
  rw [map_fst_filter_ne, c3Bs3_keys]
  rw [List.filter_cons]
  rw [if_neg (by simp)]
  rw [List.filter_cons]
  rw [if_pos (by
    simp only [decide_eq_true_eq]
    omega)]
  rfl

theorem c3Bs4_lookupT (gs : List Gen) :
    (c3Bs4 gs).taskmap.lookup (1 + gs.length + 1) = Option.some
      { gen := c3tids, sendval := Value.none
        waitmode := WaitMode.any, closed := false } := by
  have h1 : (c3Bs4 gs).taskmap.lookup (1 + gs.length + 1)
      = (c3Bs3 gs).taskmap.lookup (1 + gs.length + 1) :=
    lookup_filter_ne_key (c3Bs3 gs).taskmap 1 (1 + gs.length + 1) (by omega)
  rw [h1, c3Bs3_lookupT]

set_option maxHeartbeats 1000000 in
theorem c3B (gs : List Gen) :
    (stepAux (gs.length + 4) (s0B gs)).taskmap.map (fun p => p.1) = [1 + gs.length + 1] ∧
    ((stepAux (gs.length + 4) (s0B gs)).taskmap.lookup (1 + gs.length + 1)).map
      (fun tk => tk.sendval) = Option.some (Value.natList [1 + gs.length + 1]) ∧
    (stepAux (gs.length + 4) (s0B gs)).ready = [1 + gs.length + 1] := by
  have e1 : stepAux (gs.length + 4) (s0B gs) = stepAux (gs.length + 3) (c3BKS gs) := by
    rw [show gs.length + 4 = gs.length + 3 + 1 from rfl]
    rw [stepAux_cons (gs.length + 3) (s0B gs) 1
      (List.range' 2 gs.length ++ [1 + gs.length + 1])
      (freshTask (c3caller (gs.length + 2))) (c3B_ready0 gs) (c3B_lookup0 gs)]
    rfl
  have e5 : stepAux 1 (c3Bs4 gs) =
      handle Request.getTids (1 + gs.length + 1)
        (setGen (1 + gs.length + 1) (Gen.mk (fun _ => GenRes.stop))
          { c3Bs4 gs with ready := [] }) := by
    rw [show (1 : Nat) = 0 + 1 from rfl]
    rw [stepAux_cons 0 (c3Bs4 gs) (1 + gs.length + 1) []
      { gen := c3tids, sendval := Value.none
        waitmode := WaitMode.any, closed := false }
      (c3Bs4_ready gs) (c3Bs4_lookupT gs)]
    rfl
  rw [e1, c3B_drain gs, c3B_e3 gs, c3B_e4 gs, e5]
  rw [handle_getTids_eq]
  have hkeys : (setGen (1 + gs.length + 1) (Gen.mk (fun _ => GenRes.stop))
      { c3Bs4 gs with ready := [] }).taskmap.map (fun p => p.1) = [1 + gs.length + 1] := by
    have h1 : (setGen (1 + gs.length + 1) (Gen.mk (fun _ => GenRes.stop))
        { c3Bs4 gs with ready := [] }).taskmap.map (fun p => p.1)
        = (c3Bs4 gs).taskmap.map (fun p => p.1) :=
      modifyTask_keys _ _ _
    rw [h1, c3Bs4_keys]
  rw [hkeys]
  have hpis : (setSendval (1 + gs.length + 1) (Value.natList [1 + gs.length + 1])
      (setGen (1 + gs.length + 1) (Gen.mk (fun _ => GenRes.stop))
        { c3Bs4 gs with ready := [] })).paused_in_syscall = [] := by
    have h1 : (setSendval (1 + gs.length + 1) (Value.natList [1 + gs.length + 1])
        (setGen (1 + gs.length + 1) (Gen.mk (fun _ => GenRes.stop))
          { c3Bs4 gs with ready := [] })).paused_in_syscall
        = (c3Bs4 gs).paused_in_syscall := rfl
    rw [h1, c3Bs4_pis]
  refine ⟨?_, ?_, ?_⟩
  · rw [schedule_taskmap]
    have h1 : (setSendval (1 + gs.length + 1) (Value.natList [1 + gs.length + 1])
        (setGen (1 + gs.length + 1) (Gen.mk (fun _ => GenRes.stop))
          { c3Bs4 gs with ready := [] })).taskmap.map (fun p => p.1)
        = (setGen (1 + gs.length + 1) (Gen.mk (fun _ => GenRes.stop))
            { c3Bs4 gs with ready := [] }).taskmap.map (fun p => p.1) :=
      modifyTask_keys _ _ _
    rw [h1, hkeys]
  · rw [schedule_taskmap]
    have h1 : (setSendval (1 + gs.length + 1) (Value.natList [1 + gs.length + 1])
        (setGen (1 + gs.length + 1) (Gen.mk (fun _ => GenRes.stop))
          { c3Bs4 gs with ready := [] })).taskmap.lookup (1 + gs.length + 1)
        = ((setGen (1 + gs.length + 1) (Gen.mk (fun _ => GenRes.stop))
            { c3Bs4 gs with ready := [] }).taskmap.lookup (1 + gs.length + 1)).map
          (fun tk => { tk with sendval := Value.natList [1 + gs.length + 1] }) :=
      modifyTask_lookup_self _ _ _
    rw [h1]
    have h2 : (setGen (1 + gs.length + 1) (Gen.mk (fun _ => GenRes.stop))
        { c3Bs4 gs with ready := [] }).taskmap.lookup (1 + gs.length + 1)
        = ((c3Bs4 gs).taskmap.lookup (1 + gs.length + 1)).map
          (fun tk => { tk with gen := Gen.mk (fun _ => GenRes.stop) }) :=
      modifyTask_lookup_self _ _ _
    rw [h2, c3Bs4_lookupT]
    rfl
  · rw [schedule_ready_of_not_paused (by rw [hpis]; simp)]
    have h1 : (setSendval (1 + gs.length + 1) (Value.natList [1 + gs.length + 1])
        (setGen (1 + gs.length + 1) (Gen.mk (fun _ => GenRes.stop))
          { c3Bs4 gs with ready := [] })).ready = ([] : List Nat) := rfl
    rw [h1]
    rfl

end Teer

namespace Teer

/-- C3: kill-all-except with a singleton live exception, round trip — once
the closed tasks drain, exactly the excepted id remains in the task table
and the survivor's next `GetTids` request is answered with exactly that
id.  Both flavours hold for EVERY batch `gs` of other created tasks: in
`s0A` the killer (tid 1) excepts itself; in `s0B` the killer excepts the
last task (tid `gs.length + 2`) and — having killed itself too — never
runs again, while the survivor's list-ids request sees only itself. -/
theorem claim_C3 (gs : List Gen) :
    ((stepAux (gs.length + 2) (s0A gs)).taskmap.map (fun p => p.1) = [1] ∧
     ((stepAux (gs.length + 2) (s0A gs)).taskmap.lookup 1).map (fun tk => tk.sendval)
        = Option.some (Value.natList [1]) ∧
     (stepAux (gs.length + 2) (s0A gs)).ready = [1]) ∧
    ((stepAux (gs.length + 4) (s0B gs)).taskmap.map (fun p => p.1) = [gs.length + 2] ∧
     ((stepAux (gs.length + 4) (s0B gs)).taskmap.lookup (gs.length + 2)).map
        (fun tk => tk.sendval) = Option.some (Value.natList [gs.length + 2]) ∧
     (stepAux (gs.length + 4) (s0B gs)).ready = [gs.length + 2]) := by
  refine ⟨c3A gs, ?_⟩
  rw [show gs.length + 2 = 1 + gs.length + 1 from by omega]
  exact c3B gs

end Teer

namespace Teer

/-! ### C10 -/

/-- The task a timer callback would resume. -/
def cbTid : Callback → Nat
  | .resume t => t
  | .resumeRate t _ => t

/-- `τ` is parked with no wakeup source registered for it: it is not in
the ready queue nor ready-paused, no timer callback targets it, no
condition registration names it, its only exit-watch registration (if
any) is under its own key, and it is not a future tid. -/
def Parked (τ : Nat) (s : Sched) : Prop :=
  τ ∉ s.ready ∧
  τ ∉ s.paused_in_ready ∧
  (∀ e ∈ s.timer_cb, ¬ cbTid e.cb = τ) ∧
  (∀ p ∈ s.cond_waiting, ∀ x ∈ p.2, ¬ x.tid = τ) ∧
  (∀ p ∈ s.exit_waiting, τ ∈ p.2 → p.1 = τ) ∧
  τ ≤ s.nextTid

theorem addSet_mem (x y : Nat) (l : List Nat) (h : x ∈ addSet y l) : x = y ∨ x ∈ l := by
  unfold addSet at h
  split at h
  · exact Or.inr h
  · rcases List.mem_append.mp h with h1 | h1
    · exact Or.inr h1
    · exact Or.inl (List.mem_singleton.mp h1)

theorem schedule_parked (τ tid : Nat) (s : Sched) (hne : tid ≠ τ)
    (h : Parked τ s) : Parked τ (schedule tid s) := by
  obtain ⟨h1, h2, h3, h4, h5, h6⟩ := h
  unfold schedule
  split
  · exact ⟨h1, fun hm => by
      rcases addSet_mem τ tid _ hm with he | hm2
      · exact hne he.symm
      · exact h2 hm2,
      h3, h4, h5, h6⟩
  · refine ⟨fun hm => ?_, h2, h3, h4, h5, h6⟩
    rcases List.mem_append.mp hm with hA | hB
    · exact h1 hA
    · exact hne (List.mem_singleton.mp hB).symm

theorem schedule_now_parked (τ tid : Nat) (s : Sched) (hne : tid ≠ τ)
    (h : Parked τ s) : Parked τ (schedule_now tid s) := by
  obtain ⟨h1, h2, h3, h4, h5, h6⟩ := h
  unfold schedule_now
  split
  · exact ⟨h1, fun hm => by
      rcases addSet_mem τ tid _ hm with he | hm2
      · exact hne he.symm
      · exact h2 hm2,
      h3, h4, h5, h6⟩
  · refine ⟨fun hm => ?_, h2, h3, h4, h5, h6⟩
    rcases List.mem_cons.mp hm with he | hB
    · exact hne he.symm
    · exact h1 hB

theorem modifyTask_parked (τ k : Nat) (f : TaskObj → TaskObj) (s : Sched)
    (h : Parked τ s) : Parked τ (modifyTask k f s) := h

theorem set_timer_parked (τ : Nat) (t : Int) (cb : Callback) (s : Sched)
    (hcb : ¬ cbTid cb = τ) (h : Parked τ s) : Parked τ (set_timer_callback t cb s) := by
  obtain ⟨h1, h2, h3, h4, h5, h6⟩ := h
  refine ⟨h1, h2, fun e he => ?_, h4, h5, h6⟩
  rcases List.mem_append.mp he with hA | hB
  · exact h3 e hA
  · rw [List.mem_singleton.mp hB]
    exact hcb

theorem alAppend_exit_inv (τ k c : Nat) (ew : List (Nat × List Nat))
    (hc : c = τ → k = τ)
    (h : ∀ p ∈ ew, τ ∈ p.2 → p.1 = τ) :
    ∀ p ∈ alAppend k c ew, τ ∈ p.2 → p.1 = τ := by
  intro p hp hτ
  unfold alAppend at hp
  split at hp
  · obtain ⟨q, hq, hfq⟩ := List.mem_map.mp hp
    by_cases hqk : q.1 = k
    · rw [if_pos hqk] at hfq
      rw [← hfq] at hτ ⊢
      simp only at hτ ⊢
      rcases List.mem_append.mp hτ with hA | hB
      · rw [hqk]
        rw [← hqk]
        exact h q hq hA
      · rw [hqk]
        exact hc (List.mem_singleton.mp hB).symm
    · rw [if_neg hqk] at hfq
      rw [← hfq] at hτ ⊢
      exact h q hq hτ
  · rcases List.mem_append.mp hp with hA | hB
    · exact h p hA hτ
    · rw [List.mem_singleton.mp hB] at hτ ⊢
      exact hc (List.mem_singleton.mp hτ).symm

theorem wait_for_exit_parked (τ c t : Nat) (s : Sched) (hc : c = τ → t = τ)
    (h : Parked τ s) : Parked τ ((wait_for_exit c t s).2) := by
  obtain ⟨h1, h2, h3, h4, h5, h6⟩ := h
  unfold wait_for_exit
  split
  · exact ⟨h1, h2, h3, h4, alAppend_exit_inv τ t c s.exit_waiting hc h5, h6⟩
  · exact ⟨h1, h2, h3, h4, h5, h6⟩

theorem pause_task_parked (τ : Nat) (t : Option Nat) (s : Sched)
    (h : Parked τ s) : Parked τ ((pause_task t s).2) := by
  obtain ⟨h1, h2, h3, h4, h5, h6⟩ := h
  unfold pause_task
  match t with
  | Option.none => exact ⟨h1, h2, h3, h4, h5, h6⟩
  | Option.some tid =>
      simp only
      split
      · exact ⟨h1, h2, h3, h4, h5, h6⟩
      · split
        · rename_i hready
          refine ⟨fun hm => h1 (List.mem_of_mem_erase hm), fun hm => ?_, h3, h4, h5, h6⟩
          rcases addSet_mem τ tid _ hm with he | hm2
          · exact h1 (he ▸ hready)
          · exact h2 hm2
        · exact ⟨h1, h2, h3, h4, h5, h6⟩

theorem resume_task_parked (τ : Nat) (t : Option Nat) (s : Sched)
    (h : Parked τ s) : Parked τ ((resume_task t s).2) := by
  obtain ⟨h1, h2, h3, h4, h5, h6⟩ := h
  unfold resume_task
  match t with
  | Option.none => exact ⟨h1, h2, h3, h4, h5, h6⟩
  | Option.some tid =>
      simp only
      split
      · rename_i hpir
        refine ⟨fun hm => ?_, fun hm => h2 (List.mem_of_mem_erase hm), h3, h4, h5, h6⟩
        rcases List.mem_cons.mp hm with he | hB
        · exact h2 (he ▸ hpir)
        · exact h1 hB
      · split
        · exact ⟨h1, h2, h3, h4, h5, h6⟩
        · exact ⟨h1, h2, h3, h4, h5, h6⟩

theorem fireCallback_parked (τ : Nat) (cb : Callback) (s : Sched)
    (hcb : ¬ cbTid cb = τ) (h : Parked τ s) : Parked τ (fireCallback cb s) := by
  cases cb with
  | resume t => exact schedule_now_parked τ t s hcb h
  | resumeRate t rid =>
      exact schedule_now_parked τ t _ hcb h

end Teer

namespace Teer

theorem scanRemoveAux_subset_fuel (x : Nat) : ∀ (n i : Nat) (l : List Nat),
    l.length - i ≤ n → ∀ y ∈ scanRemoveAux x i l, y ∈ l := by
  intro n
  induction n with
  | zero =>
      intro i l hle y hy
      unfold scanRemoveAux at hy
      split at hy
      · rename_i hlt
        exact absurd hlt (by omega)
      · exact hy
  | succ n ih =>
      intro i l hle y hy
      unfold scanRemoveAux at hy
      split at hy
      · rename_i hlt
        split at hy
        · rename_i hx
          have hm : x ∈ l := by
            rw [← hx]
            exact List.get_mem l i hlt
          have hlen : (l.erase x).length = l.length - 1 := List.length_erase_of_mem hm
          exact List.mem_of_mem_erase (ih (i + 1) (l.erase x) (by omega) y hy)
        · exact ih (i + 1) l (by omega) y hy
      · exact hy

theorem scanRemoveAux_subset (x : Nat) (i : Nat) (l : List Nat) (y : Nat)
    (h : y ∈ scanRemoveAux x i l) : y ∈ l :=
  scanRemoveAux_subset_fuel x (l.length - i) i l (Nat.le_refl _) y h

theorem scanRemove_subset (x : Nat) (l : List Nat) (y : Nat)
    (h : y ∈ scanRemove x l) : y ∈ l :=
  scanRemoveAux_subset x 0 l y h

theorem exitNotify_parked (τ etid w : Nat) (st : Sched) (hw : w ≠ τ)
    (h : Parked τ st) : Parked τ (exitNotify etid w st) := by
  unfold exitNotify
  cases hmode : ((st.taskmap.lookup w).map (fun tk => tk.waitmode)).getD WaitMode.any with
  | any =>
      simp only [hmode]
      apply schedule_parked τ w _ hw
      show Parked τ (setSendval w (Value.nat etid)
        { st with exit_waiting := st.exit_waiting.map (fun p => (p.1, scanRemove w p.2)) })
      obtain ⟨h1, h2, h3, h4, h5, h6⟩ := h
      show Parked τ { st with exit_waiting := st.exit_waiting.map (fun p => (p.1, scanRemove w p.2)) }
      refine ⟨h1, h2, h3, h4, fun p hp hτ => ?_, h6⟩
      obtain ⟨q, hq, hfq⟩ := List.mem_map.mp hp
      rw [← hfq] at hτ ⊢
      exact h5 q hq (scanRemove_subset w q.2 τ hτ)
  | all =>
      simp only [hmode]
      split
      · exact h
      · exact schedule_parked τ w _ hw h

theorem exit_parked (τ etid : Nat) (s : Sched) (hne : etid ≠ τ)
    (h : Parked τ s) : Parked τ (exit etid s) := by
  unfold exit
  try simp only
  have hws : ∀ w ∈ (s.exit_waiting.lookup etid).getD [], w ≠ τ := by
    rcases ho : s.exit_waiting.lookup etid with _ | l
    · simp
    · intro w hw he
      subst he
      exact hne (h.2.2.2.2.1 (etid, l) (lookup_mem ho) hw)
  have hstart : Parked τ { s with
      taskmap := s.taskmap.filter (fun p => p.1 ≠ etid)
      exit_waiting := s.exit_waiting.filter (fun p => p.1 ≠ etid) } := by
    obtain ⟨h1, h2, h3, h4, h5, h6⟩ := h
    exact ⟨h1, h2, h3, h4, fun p hp hτ => h5 p (List.mem_of_mem_filter hp) hτ, h6⟩
  have hfold : ∀ (ws : List Nat) (st : Sched), (∀ w ∈ ws, w ≠ τ) → Parked τ st →
      Parked τ (ws.foldl (fun st w => exitNotify etid w st) st) := by
    intro ws
    induction ws with
    | nil => intro st _ hst; exact hst
    | cons w rest ih =>
        intro st hw hst
        rw [List.foldl_cons]
        exact ih _ (fun w2 h2 => hw w2 (List.mem_cons_of_mem _ h2))
          (exitNotify_parked τ etid w st (hw w (List.mem_cons_self _ _)) hst)
  have hend := hfold _ _ hws hstart
  obtain ⟨h1, h2, h3, h4, h5, h6⟩ := hend
  exact ⟨h1, h2, h3, h4, fun p hp hτ => h5 p (List.mem_of_mem_filter hp) hτ, h6⟩

theorem new_parked (τ : Nat) (g : Gen) (s : Sched)
    (h : Parked τ s) : Parked τ ((new g s).2) := by
  unfold new
  try simp only
  have hne : s.nextTid + 1 ≠ τ := by
    have := h.2.2.2.2.2
    omega
  apply schedule_parked τ (s.nextTid + 1) _ hne
  obtain ⟨h1, h2, h3, h4, h5, h6⟩ := h
  exact ⟨h1, h2, h3, h4, h5, show τ ≤ s.nextTid + 1 by omega⟩

theorem add_condition_parked (τ : Nat) (e : CondEntry) (s : Sched) (he : e.tid ≠ τ)
    (h : Parked τ s) : Parked τ (add_condition e s) := by
  obtain ⟨h1, h2, h3, h4, h5, h6⟩ := h
  refine ⟨h1, h2, h3, ?_, h5, h6⟩
  show ∀ p ∈ e.cond.deps.foldl (fun cw var => alAppend var e cw) s.cond_waiting,
    ∀ x ∈ p.2, ¬ x.tid = τ
  have hfold : ∀ (deps : List String) (cw : List (String × List CondEntry)),
      (∀ p ∈ cw, ∀ x ∈ p.2, ¬ x.tid = τ) →
      ∀ p ∈ deps.foldl (fun cw var => alAppend var e cw) cw, ∀ x ∈ p.2, ¬ x.tid = τ := by
    intro deps
    induction deps with
    | nil => intro cw hcw; exact hcw
    | cons v rest ih =>
        intro cw hcw
        rw [List.foldl_cons]
        apply ih
        intro p hp x hx
        unfold alAppend at hp
        split at hp
        · obtain ⟨q, hq, hfq⟩ := List.mem_map.mp hp
          by_cases hqk : q.1 = v
          · rw [if_pos hqk] at hfq
            rw [← hfq] at hx
            simp only at hx
            rcases List.mem_append.mp hx with hA | hB
            · exact hcw q hq x hA
            · rw [List.mem_singleton.mp hB]
              exact he
          · rw [if_neg hqk] at hfq
            rw [← hfq] at hx
            exact hcw q hq x hx
        · rcases List.mem_append.mp hp with hA | hB
          · exact hcw p hA x hx
          · rw [List.mem_singleton.mp hB] at hx
            rw [List.mem_singleton.mp hx]
            exact he
  exact hfold e.cond.deps s.cond_waiting h4

theorem wait_condition_parked (τ caller : Nat) (c : Cond) (s : Sched) (hne : caller ≠ τ)
    (h : Parked τ s) : Parked τ (wait_condition caller c s) := by
  unfold wait_condition
  split
  · exact schedule_now_parked τ caller s hne h
  · exact add_condition_parked τ _ _ hne h

theorem delStep_cond_inv (τ : Nat) (cid : Nat) (var : String)
    (cw : List (String × List CondEntry))
    (h : ∀ p ∈ cw, ∀ x ∈ p.2, ¬ x.tid = τ) :
    ∀ p ∈ delStep cid var cw, ∀ x ∈ p.2, ¬ x.tid = τ := by
  intro p hp x hx
  obtain ⟨q, hq, hfq⟩ := List.mem_filterMap.mp hp
  by_cases hqv : q.1 = var
  · rw [if_pos hqv] at hfq
    by_cases he : (eraseCid cid q.2).isEmpty
    · rw [show (let l := eraseCid cid q.2
          if l.isEmpty then (Option.none : Option (String × List CondEntry))
          else Option.some (q.1, l)) = Option.none from by simp only [he, if_pos]] at hfq
      exact absurd hfq (by simp)
    · rw [show (let l := eraseCid cid q.2
          if l.isEmpty then (Option.none : Option (String × List CondEntry))
          else Option.some (q.1, l)) = Option.some (q.1, eraseCid cid q.2) from by
        simp only [he]
        rw [if_neg (by simp [he])]] at hfq
      rw [← Option.some.inj hfq] at hx
      exact h q hq x (eraseCid_subset cid q.2 x hx)
  · rw [if_neg hqv] at hfq
    rw [← Option.some.inj hfq] at hx
    exact h q hq x hx

theorem del_condition_parked (τ : Nat) (e : CondEntry) (s : Sched)
    (h : Parked τ s) : Parked τ (del_condition e s) := by
  obtain ⟨h1, h2, h3, h4, h5, h6⟩ := h
  refine ⟨h1, h2, h3, ?_, h5, h6⟩
  show ∀ p ∈ e.cond.deps.foldl (fun cw var => delStep e.cid var cw) s.cond_waiting,
    ∀ x ∈ p.2, ¬ x.tid = τ
  have hfold : ∀ (deps : List String) (cw : List (String × List CondEntry)),
      (∀ p ∈ cw, ∀ x ∈ p.2, ¬ x.tid = τ) →
      ∀ p ∈ deps.foldl (fun cw var => delStep e.cid var cw) cw, ∀ x ∈ p.2, ¬ x.tid = τ := by
    intro deps
    induction deps with
    | nil => intro cw hcw; exact hcw
    | cons v rest ih =>
        intro cw hcw
        rw [List.foldl_cons]
        exact ih _ (delStep_cond_inv τ e.cid v cw hcw)
  exact hfold e.cond.deps s.cond_waiting h4

theorem test_conditions_parked (τ : Nat) (name : String) (s : Sched)
    (h : Parked τ s) : Parked τ (test_conditions name s) := by
  unfold test_conditions
  cases ho : s.cond_waiting.lookup name with
  | none => simp only [ho]; exact h
  | some cands =>
      simp only [ho]
      have hcands : ∀ e ∈ cands, ¬ e.tid = τ := by
        intro e he
        exact h.2.2.2.1 (name, cands) (lookup_mem ho) e he
      have hfold : ∀ (cs : List CondEntry) (st : Sched), (∀ e ∈ cs, ¬ e.tid = τ) →
          Parked τ st → Parked τ (cs.foldl tcStep st) := by
        intro cs
        induction cs with
        | nil => intro st _ hst; exact hst
        | cons e rest ih =>
            intro st hcs hst
            rw [List.foldl_cons]
            refine ih _ (fun e2 he2 => hcs e2 (List.mem_cons_of_mem _ he2)) ?_
            unfold tcStep
            split
            · exact hst
            · split
              · exact del_condition_parked τ e _
                  (schedule_parked τ e.tid st (hcs e (List.mem_cons_self _ _)) hst)
              · exact hst
      exact hfold cands s hcands h

theorem writeCondVar_parked (τ : Nat) (name : String) (v : Int) (s : Sched)
    (h : Parked τ s) : Parked τ (writeCondVar name v s) := by
  unfold writeCondVar
  exact test_conditions_parked τ name _ h

theorem rateSleep_parked (τ rid caller : Nat) (s : Sched) (hne : caller ≠ τ)
    (h : Parked τ s) : Parked τ ((rateSleep rid caller s).2) := by
  unfold rateSleep
  cases hr : s.rates.lookup rid with
  | none => simp only [hr]; exact h
  | some r =>
      simp only [hr]
      split
      · exact set_timer_parked τ _ _ s (by simp [cbTid]; omega) h
      · exact schedule_parked τ caller s hne h

end Teer

namespace Teer

theorem handle_parked (τ : Nat) (r : Request) (caller : Nat) (s : Sched)
    (hne : caller ≠ τ) (h : Parked τ s) : Parked τ (handle r caller s) := by
  cases r with
  | getScheduler => exact schedule_parked τ caller _ hne h
  | getTid => exact schedule_parked τ caller _ hne h
  | getTids => exact schedule_parked τ caller _ hne h
  | newTask g =>
      show Parked τ (schedule caller (setSendval caller (Value.nat (new g s).1) ((new g s).2)))
      exact schedule_parked τ caller _ hne (new_parked τ g s h)
  | killTask tid =>
      simp only [handle]
      split
      · exact schedule_parked τ caller _ hne h
      · exact schedule_parked τ caller _ hne h
  | killTasks tids =>
      show Parked τ (schedule caller (setSendval caller _ _))
      apply schedule_parked τ caller _ hne
      show Parked τ (tids.foldl
        (fun (acc : List Nat × Sched) tid =>
          if (acc.2.taskmap.lookup tid).isSome then (acc.1 ++ [tid], closeTask tid acc.2)
          else acc) ([], s)).2
      refine foldl_preserve (fun (acc : List Nat × Sched) => Parked τ acc.2) _ ?_ tids ([], s) h
      intro b a hb
      dsimp only
      split
      · exact hb
      · exact hb
  | killAllTasksExcept ex =>
      show Parked τ (schedule caller (setSendval caller _ _))
      apply schedule_parked τ caller _ hne
      show Parked τ (closeFold ((s.taskmap.filter (fun p => p.1 ∉ ex)).map (fun p => p.1)) s)
      exact foldl_preserve (fun (st : Sched) => Parked τ st) (fun st tid => closeTask tid st)
        (fun b a hb => hb) _ s h
  | waitTask tid =>
      simp only [handle]
      split
      · exact wait_for_exit_parked τ caller tid s (fun hc => absurd hc hne) h
      · exact schedule_parked τ caller _ hne
          (wait_for_exit_parked τ caller tid s (fun hc => absurd hc hne) h)
  | waitAnyTasks tids =>
      simp only [handle]
      cases hf : tids.find? (fun t => ((setWaitmode caller WaitMode.any s).taskmap.lookup t).isNone) with
      | none =>
          simp only [hf]
          refine foldl_preserve (fun (st : Sched) => Parked τ st) _ ?_ tids _ h
          intro b a hb
          exact wait_for_exit_parked τ caller a b (fun hc => absurd hc hne) hb
      | some m =>
          simp only [hf]
          exact schedule_parked τ caller _ hne h
  | waitAllTasks tids =>
      simp only [handle]
      have hfold : Parked τ (tids.foldl
          (fun (acc : Bool × Sched) t =>
            let q := wait_for_exit caller t acc.2
            (acc.1 || q.1, q.2))
          (false, setWaitmode caller WaitMode.all s)).2 := by
        refine foldl_preserve (fun (acc : Bool × Sched) => Parked τ acc.2) _ ?_ tids _ h
        intro b a hb
        exact wait_for_exit_parked τ caller a b.2 (fun hc => absurd hc hne) hb
      split
      · exact hfold
      · exact schedule_parked τ caller _ hne hfold
  | pauseTask tid =>
      show Parked τ (schedule caller (setSendval caller _ _))
      exact schedule_parked τ caller _ hne (pause_task_parked τ _ s h)
  | pauseTasks tids =>
      show Parked τ (schedule caller (setSendval caller _ _))
      apply schedule_parked τ caller _ hne
      show Parked τ (tids.foldl
        (fun (acc : List Nat × Sched) tid =>
          let t := if (acc.2.taskmap.lookup tid).isSome then Option.some tid else Option.none
          let q := pause_task t acc.2
          (if q.1 then acc.1 ++ [tid] else acc.1, q.2)) ([], s)).2
      refine foldl_preserve (fun (acc : List Nat × Sched) => Parked τ acc.2) _ ?_ tids ([], s) h
      intro b a hb
      exact pause_task_parked τ _ b.2 hb
  | resumeTask tid =>
      show Parked τ (schedule caller (setSendval caller _ _))
      exact schedule_parked τ caller _ hne (resume_task_parked τ _ s h)
  | resumeTasks tids =>
      show Parked τ (schedule caller (setSendval caller _ _))
      apply schedule_parked τ caller _ hne
      show Parked τ (tids.foldl
        (fun (acc : List Nat × Sched) tid =>
          let t := if (acc.2.taskmap.lookup tid).isSome then Option.some tid else Option.none
          let q := resume_task t acc.2
          (if q.1 then acc.1 ++ [tid] else acc.1, q.2)) ([], s)).2
      refine foldl_preserve (fun (acc : List Nat × Sched) => Parked τ acc.2) _ ?_ tids ([], s) h
      intro b a hb
      exact resume_task_parked τ _ b.2 hb
  | getCurrentTime => exact schedule_parked τ caller _ hne h
  | waitDuration d =>
      show Parked τ (setSendval caller Value.none (wait_duration caller d s))
      exact set_timer_parked τ _ _ s (by simp [cbTid]; omega) h
  | waitCondition c =>
      show Parked τ (setSendval caller Value.none (wait_condition caller c s))
      exact wait_condition_parked τ caller c s hne h
  | createRate dur =>
      exact schedule_parked τ caller _ hne h
  | sleepRate rid =>
      show Parked τ (setSendval caller (rateSleep rid caller s).1 ((rateSleep rid caller s).2))
      exact rateSleep_parked τ rid caller s hne h
  | teerPrint m => exact schedule_parked τ caller _ hne h

theorem stepAux_parked (τ : Nat) : ∀ (n : Nat) (s : Sched),
    Parked τ s → Parked τ (stepAux n s) := by
  intro n
  induction n with
  | zero => intro s h; exact h
  | succ n ih =>
      intro s h
      rcases hready : s.ready with _ | ⟨tid, rest⟩
      · simp only [stepAux, hready]
        exact h
      · have hne : tid ≠ τ := by
          intro he
          exact h.1 (by rw [hready, he]; exact List.mem_cons_self _ _)
        have h2 : Parked τ ({ s with ready := rest } : Sched) := by
          obtain ⟨h1, h2, h3, h4, h5, h6⟩ := h
          refine ⟨fun hm => h1 ?_, h2, h3, h4, h5, h6⟩
          rw [hready]
          exact List.mem_cons_of_mem _ hm
        rcases hlk : ({ s with ready := rest } : Sched).taskmap.lookup tid with _ | tk
        · simp only [stepAux, hready, hlk]
          exact ih _ h2
        · simp only [stepAux, hready, hlk]
          split
          · exact ih _ (exit_parked τ tid _ hne h2)
          · cases hsend : tk.gen.send tk.sendval with
            | stop =>
                simp only [hsend]
                exact ih _ (exit_parked τ tid _ hne h2)
            | yieldPlain g =>
                simp only [hsend]
                exact ih _ (schedule_parked τ tid _ hne
                  (modifyTask_parked τ tid _ _ h2))
            | yieldReq r g =>
                simp only [hsend]
                exact ih _ (handle_parked τ r tid _ hne
                  (modifyTask_parked τ tid _ _ h2))

end Teer

namespace Teer

theorem timerStepLoop_parked (τ : Nat) : ∀ (n : Nat) (h : List TimerEntry) (s : Sched),
    (∀ x ∈ h, ¬ cbTid x.cb = τ) → Parked τ s →
    (∀ x ∈ (timerStepLoop n h s).1, ¬ cbTid x.cb = τ) ∧
    Parked τ (timerStepLoop n h s).2 := by
  intro n
  induction n with
  | zero => intro h s hh hs; exact ⟨hh, hs⟩
  | succ n ih =>
      intro h s hh hs
      cases hp : popMin h with
      | none =>
          simp only [timerStepLoop, hp]
          exact ⟨hh, hs⟩
      | some q =>
          obtain ⟨e, rest⟩ := q
          have hperm := popMin_perm h e rest hp
          have hee : e ∈ h := hperm.mem_iff.mpr (List.mem_cons_self _ _)
          have hrest : ∀ x ∈ rest, ¬ cbTid x.cb = τ :=
            fun x hx => hh x (hperm.mem_iff.mpr (List.mem_cons_of_mem _ hx))
          simp only [timerStepLoop, hp]
          split
          · exact ih rest _ hrest (fireCallback_parked τ e.cb s (hh e hee) hs)
          · refine ⟨fun x hx => ?_, hs⟩
            rcases List.mem_append.mp hx with hA | hB
            · exact hrest x hA
            · rw [List.mem_singleton.mp hB]
              exact hh e hee

theorem timer_step_parked (τ sf : Nat) (s : Sched) (h : Parked τ s) :
    Parked τ (timer_step sf s) := by
  unfold timer_step
  try simp only
  obtain ⟨hl1, hl2⟩ := timerStepLoop_parked τ s.timer_cb.length s.timer_cb s h.2.2.1 h
  apply stepAux_parked
  obtain ⟨p1, p2, _, p4, p5, p6⟩ := hl2
  exact ⟨p1, p2, hl1, p4, p5, p6⟩

/-- One iteration of `TimerScheduler.run`'s timer work: pop the earliest
timer, sleep out a non-negative remaining duration, fire the callback. -/
def fireNext (s : Sched) : Sched :=
  match popMin s.timer_cb with
  | Option.none => s
  | Option.some (e, rest) =>
      let s2 := { s with timer_cb := rest }
      let dur := e.t - s2.time
      let s3 := if dur ≥ 0 then sleepS dur s2 else s2
      fireCallback e.cb s3

theorem fireNext_parked (τ : Nat) (s : Sched) (h : Parked τ s) :
    Parked τ (fireNext s) := by
  unfold fireNext
  cases hp : popMin s.timer_cb with
  | none => exact h
  | some q =>
      obtain ⟨e, rest⟩ := q
      have hperm := popMin_perm s.timer_cb e rest hp
      have hee : e ∈ s.timer_cb := hperm.mem_iff.mpr (List.mem_cons_self _ _)
      have hrest : ∀ x ∈ rest, ¬ cbTid x.cb = τ :=
        fun x hx => h.2.2.1 x (hperm.mem_iff.mpr (List.mem_cons_of_mem _ hx))
      simp only
      apply fireCallback_parked τ e.cb _ (h.2.2.1 e hee)
      obtain ⟨h1, h2, _, h4, h5, h6⟩ := h
      split
      · exact ⟨h1, h2, hrest, h4, h5, h6⟩
      · exact ⟨h1, h2, hrest, h4, h5, h6⟩

/-- An observable scheduler operation: a bounded trampoline run, a
`timer_step`, one `run`-loop timer pop-sleep-fire, a sleep, a
condition-variable write, or spawning a task. -/
inductive TraceOp where
  | opStep : Nat → TraceOp
  | opTimerStep : Nat → TraceOp
  | opFireNext : TraceOp
  | opSleep : Int → TraceOp
  | opWrite : String → Int → TraceOp
  | opNew : Gen → TraceOp

def applyOp (s : Sched) : TraceOp → Sched
  | .opStep n => stepAux n s
  | .opTimerStep sf => timer_step sf s
  | .opFireNext => fireNext s
  | .opSleep d => sleepS d s
  | .opWrite name v => writeCondVar name v s
  | .opNew g => new1 g s

def applyTrace (ops : List TraceOp) (s : Sched) : Sched := ops.foldl applyOp s

theorem applyOp_parked (τ : Nat) (s : Sched) (op : TraceOp) (h : Parked τ s) :
    Parked τ (applyOp s op) := by
  cases op with
  | opStep n => exact stepAux_parked τ n s h
  | opTimerStep sf => exact timer_step_parked τ sf s h
  | opFireNext => exact fireNext_parked τ s h
  | opSleep d => exact h
  | opWrite name v => exact writeCondVar_parked τ name v s h
  | opNew g => exact new_parked τ g s h

theorem applyTrace_parked (τ : Nat) (ops : List TraceOp) (s : Sched) (h : Parked τ s) :
    Parked τ (applyTrace ops s) :=
  foldl_preserve (fun (st : Sched) => Parked τ st) applyOp
    (fun b a hb => applyOp_parked τ b a hb) ops s h

theorem handle_waitTask_self_eq (τ : Nat) (s : Sched)
    (hlive : (s.taskmap.lookup τ).isSome = true) :
    handle (Request.waitTask τ) τ s =
      setWaitmode τ WaitMode.any (setSendval τ (Value.bool true)
        { s with exit_waiting := alAppend τ τ s.exit_waiting }) := by
  simp only [handle]
  rw [show wait_for_exit τ τ s
      = (true, { s with exit_waiting := alAppend τ τ s.exit_waiting }) from by
    unfold wait_for_exit
    rw [if_pos hlive]]
  rfl

end Teer

namespace Teer

/-- C10: a task issuing `WaitTask` on its own id registers as an
exit-watcher of itself — its id is still in the task table, so the
pending resume value is the success flag `True` — and is then parked
forever: the handler does not re-enqueue it, and no subsequent trace of
scheduler activity (trampoline steps, timer steps, `run`-loop timer
fires, sleeps, condition-variable writes, task spawns) ever places it in
the ready queue, since the only exit notification that could wake it
would have to come from its own exit, which requires it to run. -/
theorem claim_C10 (s : Sched) (τ : Nat) (tk : TaskObj)
    (hlk : s.taskmap.lookup τ = Option.some tk)
    (hP : Parked τ s) :
    ((handle (Request.waitTask τ) τ s).taskmap.lookup τ).map (fun t2 => t2.sendval)
        = Option.some (Value.bool true) ∧
    (handle (Request.waitTask τ) τ s).ready = s.ready ∧
    ((handle (Request.waitTask τ) τ s).exit_waiting.lookup τ).getD []
        = ((s.exit_waiting.lookup τ).getD []) ++ [τ] ∧
    (∀ ops : List TraceOp,
      τ ∉ (applyTrace ops (handle (Request.waitTask τ) τ s)).ready) := by
  have hlive : (s.taskmap.lookup τ).isSome = true := by rw [hlk]; rfl
  have heq := handle_waitTask_self_eq τ s hlive
  refine ⟨?_, ?_, ?_, ?_⟩
  · rw [heq]
    have h1 : (setWaitmode τ WaitMode.any (setSendval τ (Value.bool true)
        { s with exit_waiting := alAppend τ τ s.exit_waiting })).taskmap.lookup τ
        = ((setSendval τ (Value.bool true)
            { s with exit_waiting := alAppend τ τ s.exit_waiting }).taskmap.lookup τ).map
          (fun t2 => { t2 with waitmode := WaitMode.any }) :=
      modifyTask_lookup_self τ _ _
    rw [h1]
    have h2 : (setSendval τ (Value.bool true)
        { s with exit_waiting := alAppend τ τ s.exit_waiting }).taskmap.lookup τ
        = (s.taskmap.lookup τ).map (fun t2 => { t2 with sendval := Value.bool true }) :=
      modifyTask_lookup_self τ _ _
    rw [h2, hlk]
    rfl
  · rw [heq]
    rfl
  · rw [heq]
    show ((alAppend τ τ s.exit_waiting).lookup τ).getD [] = _
    rw [alAppend_lookup_self]
    rfl
  · intro ops
    rw [heq]
    refine (applyTrace_parked τ ops _ ?_).1
    obtain ⟨h1, h2, h3, h4, h5, h6⟩ := hP
    exact ⟨h1, h2, h3, h4,
      alAppend_exit_inv τ τ τ s.exit_waiting (fun _ => rfl) h5, h6⟩

/-- A single live task 1 about to issue `WaitTask 1`. -/
def c10wstate : Sched :=
  { Sched.empty with nextTid := 1, taskmap := [(1, freshTask genStop)] }

/-- C10 witness: `claim_C10` at `c10wstate` for task 1. -/
theorem claim_C10_witness :
    (((handle (Request.waitTask 1) 1 c10wstate).taskmap.lookup 1).map
        (fun t2 => t2.sendval) = Option.some (Value.bool true)) ∧
    (handle (Request.waitTask 1) 1 c10wstate).ready = c10wstate.ready ∧
    ((handle (Request.waitTask 1) 1 c10wstate).exit_waiting.lookup 1).getD []
        = ((c10wstate.exit_waiting.lookup 1).getD []) ++ [1] ∧
    (∀ ops : List TraceOp,
      1 ∉ (applyTrace ops (handle (Request.waitTask 1) 1 c10wstate)).ready) :=
  claim_C10 c10wstate 1 (freshTask genStop) rfl
    ⟨by decide, by decide,
     (fun e he => absurd he (List.not_mem_nil e)),
     (fun p hp => absurd hp (List.not_mem_nil p)),
     (fun p hp => absurd hp (List.not_mem_nil p)),
     by decide⟩

end Teer
